import Mathlib

/-!
# Hero canvas scene (`src/scene.js`)

A shallow embedding of the particle / wireframe background of the portfolio
page.  JavaScript numbers are read as elements of a linearly ordered field
`α` (`ℚ` for evaluation, `ℝ` where `Math.sin`, `Math.cos`, `Math.acos` or
`Math.sqrt` have to mean the real functions).  The functions of the JavaScript
`Math` object are passed in as a record, the successive results of
`Math.random()` as a stream `rand : ℕ → α`.

The record also carries the rounding `fl` that the host applies to the result
of an arithmetic operation.  The pointer smoothing (lines 383-384) and the
particle placement (lines 101-107) apply it after every operation, because
what they guarantee depends on it: with `fl = round64` they are the binary64
computations of the script, with `fl = id` (`realMath`) the same formulas in
exact arithmetic.  The other updates are written in exact arithmetic.
-/

namespace HeroScene

/-! ## Host environment -/

/-- The part of the JavaScript `Math` object the scene calls, and the rounding
`fl` of the host's number type. -/
structure JSMath (α : Type) where
  sin : α → α
  cos : α → α
  acos : α → α
  sqrt : α → α
  PI : α
  fl : α → α

/-- The `Math` object read over the real numbers, without rounding. -/
noncomputable def realMath : JSMath ℝ where
  sin := Real.sin
  cos := Real.cos
  acos := Real.arccos
  sqrt := Real.sqrt
  PI := Real.pi
  fl := id

/-! ### Binary64 rounding

A JavaScript number is an IEEE 754 binary64 value and every arithmetic
operation returns the exact result rounded to the nearest such value, ties to
the even significand.  The finite binary64 values are the rationals
`m * 2 ^ e` with `|m| ≤ 2 ^ 53` and `e ≥ -1074` (below `2 ^ 1024` in
magnitude); `round64` is that rounding on `ℚ`, subnormal range included.
Overflow to an infinity is not represented: the results below are stated for
operands in `[-1, 1]` and `[0, 50]`, far from it. -/

/-- Nearest integer, a tie going to the even one. -/
def roundHalfEven (z : ℚ) : ℤ :=
  if z - ⌊z⌋ < 1 / 2 then ⌊z⌋
  else if 1 / 2 < z - ⌊z⌋ then ⌊z⌋ + 1
  else if ⌊z⌋ % 2 = 0 then ⌊z⌋
  else ⌊z⌋ + 1

/-- Exponent of the spacing of binary64 values at magnitude `q`: 52 below the
binade of `q`, and never below the subnormal spacing `2 ^ -1074`. -/
def ulpExponent (q : ℚ) : ℤ := max (Int.log 2 q - 52) (-1074)

/-- Rounding of a non-negative magnitude to a multiple of its spacing. -/
def roundMagnitude (q : ℚ) : ℚ :=
  (roundHalfEven (q / 2 ^ ulpExponent q) : ℚ) * 2 ^ ulpExponent q

/-- Round to nearest binary64 value, ties to even. -/
def round64 (q : ℚ) : ℚ :=
  if 0 ≤ q then roundMagnitude q else -roundMagnitude (-q)

/-- A host whose numbers are binary64 values; what its `Math` functions return
is left to the host. -/
def binary64Math (sin cos acos sqrt : ℚ → ℚ) (PI : ℚ) : JSMath ℚ where
  sin := sin
  cos := cos
  acos := acos
  sqrt := sqrt
  PI := PI
  fl := round64

/-- A binary64 host for evaluation.  Its `Math` functions are crude stand-ins:
neither the pointer smoothing nor the radius of a particle calls one. -/
def sampleHost : JSMath ℚ :=
  binary64Math (fun _ => 0) (fun _ => 1) (fun _ => 0) (fun x => x) 3

/-- A typed-array read `arr[k]`. The buffers of the scene are allocated with
`PARTICLE_COUNT * 3` entries and every index the code reads is below that. -/
def rd {α : Type} [Zero α] (arr : List α) (k : Nat) : α := arr.getD k 0

/-! ## Device tier (lines 17-18, 82-87, 292-299) -/

section Tier
variable {α : Type} [LinearOrderedField α]

/-- Line 17: `const isMobileDevice = window.innerWidth < 768;` -/
def isMobileDevice (innerWidth : α) : Bool := decide (innerWidth < 768)

/-- Line 18: `const isSmallMobile = window.innerWidth < 480;` -/
def isSmallMobile (innerWidth : α) : Bool := decide (innerWidth < 480)

/-- Lines 82-87: `var PARTICLE_COUNT = 800;` with the two tier overrides. -/
def PARTICLE_COUNT (innerWidth : α) : Nat :=
  if isSmallMobile innerWidth then 150
  else if isMobileDevice innerWidth then 300
  else 800

/-- Line 293: `var MAX_CONNECTIONS = 150;` with the tier overrides of lines 294-299. -/
def MAX_CONNECTIONS (innerWidth : α) : Nat :=
  if isSmallMobile innerWidth then 20
  else if isMobileDevice innerWidth then 50
  else 150

/-- Line 292: `var CONNECTION_DISTANCE = 8;` with the small-mobile override of line 296. -/
def CONNECTION_DISTANCE (innerWidth : α) : α :=
  if isSmallMobile innerWidth then 10
  else 8

end Tier

/-! ## Theme and palette (lines 57-79) -/

section Theme
variable {α : Type} [LinearOrderedField α]

/-- A `THREE.Color`: its three channels. -/
structure Color (α : Type) where
  r : α
  g : α
  b : α
deriving DecidableEq, Repr

/-- The constructor `new THREE.Color(hex)`: the channel split of the library's
`setHex` (colour-space conversion left out). -/
def Color.ofHex (hex : Nat) : Color α where
  r := ((hex / 65536 % 256 : Nat) : α) / 255
  g := ((hex / 256 % 256 : Nat) : α) / 255
  b := ((hex % 256 : Nat) : α) / 255

/-- The object `getThemeColors` returns. -/
structure ThemeColors (α : Type) where
  particle1 : Color α
  particle2 : Color α
  particle3 : Color α
  wireframe : Color α
  ambient : Nat

/-- The function `isDarkTheme`: `getAttribute('data-theme') !== 'light'`, the attribute
being `none` when it is absent. -/
def isDarkTheme (dataTheme : Option String) : Bool :=
  decide (dataTheme ≠ some "light")

/-- The function `getThemeColors` (lines 61-79). -/
def getThemeColors (dataTheme : Option String) : ThemeColors α :=
  if isDarkTheme dataTheme then
    { particle1 := Color.ofHex 0x00d4ff
      particle2 := Color.ofHex 0xa855f7
      particle3 := Color.ofHex 0xf472b6
      wireframe := Color.ofHex 0x00d4ff
      ambient := 0x111128 }
  else
    { particle1 := Color.ofHex 0x0066ff
      particle2 := Color.ofHex 0x7c3aed
      particle3 := Color.ofHex 0xec4899
      wireframe := Color.ofHex 0x0066ff
      ambient := 0xe2e5ef }

end Theme

/-! ## Scene state -/

section State
variable {α : Type} [LinearOrderedField α]

/-- A triple of numbers (`position`, `rotation`, `rotSpeed`). -/
structure Vec3 (α : Type) where
  x : α
  y : α
  z : α

/-- The `mouse` object of line 31. -/
structure Mouse (α : Type) where
  x : α
  y : α
  targetX : α
  targetY : α

/-- One entry of the `velocities` array (lines 126-133). -/
structure Velocity (α : Type) where
  x : α
  y : α
  z : α
  originalX : α
  originalY : α
  originalZ : α

/-- A wireframe `THREE.Mesh`: transform and the colour and opacity of its
material. -/
structure Mesh (α : Type) where
  position : Vec3 α
  rotation : Vec3 α
  materialColor : Color α
  opacity : α

/-- The mesh variables of lines 194-272. -/
inductive MeshId where
  | icosahedron
  | torus
  | octahedron
  | dodecahedron
  | torusKnot
deriving DecidableEq, Repr

/-- One entry of the `geometries` array; `mesh` refers to a mesh of the scene. -/
structure FloatingGeometry (α : Type) where
  mesh : MeshId
  rotSpeed : Vec3 α
  floatSpeed : α
  floatAmplitude : α
  originalY : α

/-- The variables of the script's closure, with the state of the objects they
refer to. -/
structure Scene (α : Type) where
  isMobileDevice : Bool
  isSmallMobile : Bool
  rendererPixelRatio : α
  cameraPositionY : α
  cameraPositionZ : α
  mouse : Mouse α
  PARTICLE_COUNT : Nat
  positions : List α
  colors : List α
  sizes : List α
  velocities : List (Velocity α)
  positionNeedsUpdate : Bool
  colorNeedsUpdate : Bool
  uTime : α
  uPixelRatio : α
  particlesRotationX : α
  particlesRotationY : α
  particlesPositionY : α
  icosahedron : Mesh α
  torus : Mesh α
  octahedron : Mesh α
  dodecahedron : Mesh α
  torusKnot : Option (Mesh α)
  geometries : List (FloatingGeometry α)
  lineMaterialColor : Color α
  CONNECTION_DISTANCE : α
  MAX_CONNECTIONS : Nat
  linesMesh : Option (List α)
  linesInScene : Bool
  time : α
  frameCount : Nat

end State

/-! ## Particle initialisation (lines 89-134) -/

section Particles
variable {α : Type} [LinearOrderedField α]

/-- Line 101: `const radius = 20 + Math.random() * 30`, the product and the
sum each rounded by `fl`. -/
def particleRadius (fl : α → α) (uRadius : α) : α := fl (20 + fl (uRadius * 30))

/-- The position computed for one particle from its radius, theta and phi
draws (lines 101-107), every operation rounded by `M.fl`. -/
def particlePosition (M : JSMath α) (uRadius uTheta uPhi : α) : Vec3 α :=
  let radius := particleRadius M.fl uRadius
  let theta := M.fl (M.fl (uTheta * M.PI) * 2)
  let phi := M.acos (M.fl (M.fl (2 * uPhi) - 1))
  { x := M.fl (M.fl (radius * M.sin phi) * M.cos theta)
    y := M.fl (M.fl (radius * M.sin phi) * M.sin theta)
    z := M.fl (M.fl (radius * M.cos phi) - 15) }

/-- The buffers the initialisation loop fills, and the number of
`Math.random()` calls made so far. -/
structure ParticleBuffers (α : Type) where
  positions : List α
  colors : List α
  sizes : List α
  velocities : List (Velocity α)
  draws : Nat

/-- One iteration of `for (let i = 0; i < PARTICLE_COUNT; i++)` (lines 97-134). -/
def initParticle (M : JSMath α) (rand : Nat → α) (themeColors : ThemeColors α)
    (st : ParticleBuffers α) (i : Nat) : ParticleBuffers α :=
  let i3 := i * 3
  let p := particlePosition M (rand st.draws) (rand (st.draws + 1)) (rand (st.draws + 2))
  let positions := ((st.positions.set i3 p.x).set (i3 + 1) p.y).set (i3 + 2) p.z
  let colorChoice := rand (st.draws + 3)
  let color :=
    if colorChoice < 0.4 then themeColors.particle1
    else if colorChoice < 0.75 then themeColors.particle2
    else themeColors.particle3
  let colors := ((st.colors.set i3 color.r).set (i3 + 1) color.g).set (i3 + 2) color.b
  let sizes := st.sizes.set i (rand (st.draws + 4) * 3 + 0.5)
  let velocities := st.velocities ++
    [{ x := (rand (st.draws + 5) - 0.5) * 0.01
       y := (rand (st.draws + 6) - 0.5) * 0.01
       z := (rand (st.draws + 7) - 0.5) * 0.01
       originalX := rd positions i3
       originalY := rd positions (i3 + 1)
       originalZ := rd positions (i3 + 2) }]
  { positions := positions, colors := colors, sizes := sizes, velocities := velocities,
    draws := st.draws + 8 }

/-- The freshly allocated typed arrays of lines 90-93. -/
def emptyBuffers (count : Nat) : ParticleBuffers α where
  positions := List.replicate (count * 3) 0
  colors := List.replicate (count * 3) 0
  sizes := List.replicate count 0
  velocities := []
  draws := 0

/-- The whole initialisation loop. -/
def initParticles (M : JSMath α) (rand : Nat → α) (themeColors : ThemeColors α)
    (count : Nat) : ParticleBuffers α :=
  (List.range count).foldl (initParticle M rand themeColors) (emptyBuffers count)

end Particles

/-! ## Connection recomputation (lines 303-337) -/

section Connections
variable {α : Type} [LinearOrderedField α]

/-- The two locals of `updateConnections` that the loops mutate. -/
structure ConnAcc (α : Type) where
  linePositions : List α
  connectionCount : Nat

/-- The value `Math.sqrt(dx * dx + dy * dy + dz * dz)` for particles `i` and `j`
(lines 316-319). -/
def pairDist (M : JSMath α) (posArr : List α) (i j : Nat) : α :=
  let dx := rd posArr (i * 3) - rd posArr (j * 3)
  let dy := rd posArr (i * 3 + 1) - rd posArr (j * 3 + 1)
  let dz := rd posArr (i * 3 + 2) - rd posArr (j * 3 + 2)
  M.sqrt (dx * dx + dy * dy + dz * dz)

/-- The six numbers pushed for one segment (lines 322-325). -/
def segment (posArr : List α) (i j : Nat) : List α :=
  [rd posArr (i * 3), rd posArr (i * 3 + 1), rd posArr (i * 3 + 2),
   rd posArr (j * 3), rd posArr (j * 3 + 1), rd posArr (j * 3 + 2)]

/-- The inner loop
`for (let j = ...; j < PARTICLE_COUNT && connectionCount < MAX_CONNECTIONS; j++)`,
entered with the current value of `j`. -/
def innerLoop (M : JSMath α) (count maxConn : Nat) (connDist : α) (posArr : List α)
    (i j : Nat) (acc : ConnAcc α) : ConnAcc α :=
  if j < count ∧ acc.connectionCount < maxConn then
    let dist := pairDist M posArr i j
    if dist < connDist then
      innerLoop M count maxConn connDist posArr i (j + 1)
        { linePositions := acc.linePositions ++ segment posArr i j
          connectionCount := acc.connectionCount + 1 }
    else
      innerLoop M count maxConn connDist posArr i (j + 1) acc
  else acc
termination_by count - j

/-- The outer loop
`for (let i = ...; i < PARTICLE_COUNT && connectionCount < MAX_CONNECTIONS; i++)`,
entered with the current value of `i`. -/
def outerLoop (M : JSMath α) (count maxConn : Nat) (connDist : α) (posArr : List α)
    (i : Nat) (acc : ConnAcc α) : ConnAcc α :=
  if i < count ∧ acc.connectionCount < maxConn then
    outerLoop M count maxConn connDist posArr (i + 1)
      (innerLoop M count maxConn connDist posArr i (i + 1) acc)
  else acc
termination_by count - i

/-- Lines 309-329 of `updateConnections`: `linePositions` and
`connectionCount` when the two loops have run. -/
def connectionScan (M : JSMath α) (count maxConn : Nat) (connDist : α)
    (posArr : List α) : ConnAcc α :=
  outerLoop M count maxConn connDist posArr 0 { linePositions := [], connectionCount := 0 }

/-! ### The specification's reading of the same pass -/

/-- All index pairs `(i, j)` with `i < j < count`, in lexicographic order. -/
def allPairs (count : Nat) : List (Nat × Nat) :=
  (List.range count).flatMap fun i =>
    (List.range' (i + 1) (count - (i + 1))).map fun j => (i, j)

/-- The pairs the specification connects: all pairs in index order, kept when
their distance is below the threshold, cut after the first `maxConn`. -/
def specConnections (M : JSMath α) (count maxConn : Nat) (connDist : α)
    (posArr : List α) : List (Nat × Nat) :=
  ((allPairs count).filter fun p => decide (pairDist M posArr p.1 p.2 < connDist)).take maxConn

/-- The pairs of row `i` from column `j` on that pass the distance test. -/
def rowNear (M : JSMath α) (count : Nat) (connDist : α) (posArr : List α)
    (i j : Nat) : List (Nat × Nat) :=
  ((List.range' j (count - j)).map fun k => (i, k)).filter
    fun p => decide (pairDist M posArr p.1 p.2 < connDist)

/-- The pairs of rows `i`, `i + 1`, ... that pass the distance test. -/
def restNear (M : JSMath α) (count : Nat) (connDist : α) (posArr : List α)
    (i : Nat) : List (Nat × Nat) :=
  (List.range' i (count - i)).flatMap fun r => rowNear M count connDist posArr r (r + 1)

/-- The flat coordinate list of a list of segments. -/
def segmentsOf (posArr : List α) (pairs : List (Nat × Nat)) : List α :=
  pairs.flatMap fun p => segment posArr p.1 p.2

end Connections

/-! ## Scene construction, theme update and frame update -/

section Operations
variable {α : Type} [LinearOrderedField α]

/-- The `mouse` object as line 31 creates it. -/
def initialMouse : Mouse α := { x := 0, y := 0, targetX := 0, targetY := 0 }

/-- One axis of the pointer smoothing, `v += (target - v) * 0.05`: the literal,
the difference, the product and the sum are each rounded by `fl`. -/
def smoothStep (fl : α → α) (v target : α) : α :=
  fl (v + fl (fl (target - v) * fl 0.05))

/-- The pointer smoothing of `animate` (lines 383-384):
`mouse.x += (mouse.targetX - mouse.x) * 0.05`, and the same for `y`. -/
def smoothMouse (fl : α → α) (mouse : Mouse α) : Mouse α :=
  let x := smoothStep fl mouse.x mouse.targetX
  let y := smoothStep fl mouse.y mouse.targetY
  { mouse with x := x, y := y }

/-- The pointer state holds binary64 values in `[-1, 1]`, the normalised device
coordinates the listeners of lines 33-54 produce for a pointer inside the
window. -/
def Mouse.Normalized64 (m : Mouse ℚ) : Prop :=
  round64 m.x = m.x ∧ round64 m.y = m.y
  ∧ round64 m.targetX = m.targetX ∧ round64 m.targetY = m.targetY
  ∧ |m.x| ≤ 1 ∧ |m.y| ≤ 1 ∧ |m.targetX| ≤ 1 ∧ |m.targetY| ≤ 1

/-- The function `updateConnections` (lines 303-337): the old line mesh leaves the scene,
and a new one is made and added when the scan produced any segment. -/
def updateConnections (M : JSMath α) (s : Scene α) : Scene α :=
  let acc := connectionScan M s.PARTICLE_COUNT s.MAX_CONNECTIONS s.CONNECTION_DISTANCE s.positions
  if acc.linePositions.length > 0 then
    { s with linesMesh := some acc.linePositions, linesInScene := true }
  else
    { s with linesInScene := false }

/-- The objects the script has built when it reaches line 301, for a canvas
that exists (lines 13-301). -/
def buildScene (M : JSMath α) (innerWidth devicePixelRatio : α) (dataTheme : Option String)
    (rand : Nat → α) : Scene α :=
  let mobile := isMobileDevice innerWidth
  let small := isSmallMobile innerWidth
  let themeColors : ThemeColors α := getThemeColors dataTheme
  let count := PARTICLE_COUNT innerWidth
  let buf := initParticles M rand themeColors count
  let zero3 : Vec3 α := { x := 0, y := 0, z := 0 }
  let knotEntry : List (FloatingGeometry α) :=
    if !small then
      [{ mesh := MeshId.torusKnot, rotSpeed := { x := 0.001, y := 0.004, z := 0.002 },
         floatSpeed := 0.0007, floatAmplitude := 1.2, originalY := -12 }]
    else []
  { isMobileDevice := mobile
    isSmallMobile := small
    rendererPixelRatio := min devicePixelRatio (if mobile then 1.5 else 2)
    cameraPositionY := 0
    cameraPositionZ := 30
    mouse := initialMouse
    PARTICLE_COUNT := count
    positions := buf.positions
    colors := buf.colors
    sizes := buf.sizes
    velocities := buf.velocities
    positionNeedsUpdate := false
    colorNeedsUpdate := false
    uTime := 0
    uPixelRatio := min devicePixelRatio 2
    particlesRotationX := 0
    particlesRotationY := 0
    particlesPositionY := 0
    icosahedron :=
      { position := { x := -12, y := 5, z := -5 }, rotation := zero3,
        materialColor := themeColors.wireframe, opacity := 0.15 }
    torus :=
      { position := { x := 14, y := -3, z := -8 }, rotation := zero3,
        materialColor := themeColors.particle2, opacity := 0.12 }
    octahedron :=
      { position := { x := 8, y := 8, z := -12 }, rotation := zero3,
        materialColor := themeColors.particle3, opacity := 0.12 }
    dodecahedron :=
      { position := { x := -10, y := -7, z := -10 }, rotation := zero3,
        materialColor := themeColors.particle1, opacity := 0.1 }
    torusKnot :=
      if !small then
        some { position := { x := -5, y := -12, z := -6 }, rotation := zero3,
               materialColor := themeColors.particle2, opacity := 0.08 }
      else none
    geometries :=
      [{ mesh := MeshId.icosahedron, rotSpeed := { x := 0.003, y := 0.005, z := 0.002 },
         floatSpeed := 0.0008, floatAmplitude := 2, originalY := 5 },
       { mesh := MeshId.torus, rotSpeed := { x := 0.004, y := 0.002, z := 0.006 },
         floatSpeed := 0.0012, floatAmplitude := 1.5, originalY := -3 },
       { mesh := MeshId.octahedron, rotSpeed := { x := 0.005, y := 0.003, z := 0.004 },
         floatSpeed := 0.001, floatAmplitude := 2.5, originalY := 8 },
       { mesh := MeshId.dodecahedron, rotSpeed := { x := 0.002, y := 0.006, z := 0.003 },
         floatSpeed := 0.0009, floatAmplitude := 1.8, originalY := -7 }] ++ knotEntry
    lineMaterialColor := themeColors.particle1
    CONNECTION_DISTANCE := CONNECTION_DISTANCE innerWidth
    MAX_CONNECTIONS := MAX_CONNECTIONS innerWidth
    linesMesh := none
    linesInScene := false
    time := 0
    frameCount := 0 }

/-- The script from line 13 to the call of `updateConnections` on line 340. -/
def initScene (M : JSMath α) (innerWidth devicePixelRatio : α) (dataTheme : Option String)
    (rand : Nat → α) : Scene α :=
  updateConnections M (buildScene M innerWidth devicePixelRatio dataTheme rand)

/-- One iteration of the recolouring loop of `updateThreeTheme` (lines 355-366)
on the colour array and the number of `Math.random()` calls made so far. -/
def recolorParticle (rand : Nat → α) (colors : ThemeColors α)
    (st : List α × Nat) (i : Nat) : List α × Nat :=
  let i3 := i * 3
  let choice := rand st.2
  let color :=
    if choice < 0.4 then colors.particle1
    else if choice < 0.75 then colors.particle2
    else colors.particle3
  (((st.1.set i3 color.r).set (i3 + 1) color.g).set (i3 + 2) color.b, st.2 + 1)

/-- The hook `window.updateThreeTheme` (lines 343-371), run with the document's current
`data-theme` attribute. -/
def updateThreeTheme (dataTheme : Option String) (rand : Nat → α) (s : Scene α) : Scene α :=
  let colors : ThemeColors α := getThemeColors dataTheme
  let colorArray :=
    ((List.range s.PARTICLE_COUNT).foldl (recolorParticle rand colors) (s.colors, 0)).1
  { s with
    icosahedron := { s.icosahedron with materialColor := colors.wireframe }
    torus := { s.torus with materialColor := colors.particle2 }
    octahedron := { s.octahedron with materialColor := colors.particle3 }
    dodecahedron := { s.dodecahedron with materialColor := colors.particle1 }
    torusKnot := s.torusKnot.map fun m => { m with materialColor := colors.particle2 }
    colors := colorArray
    colorNeedsUpdate := true
    lineMaterialColor := colors.particle1 }

/-- The entry of `velocities` read when the array has none at that index. -/
def Velocity.zero : Velocity α :=
  { x := 0, y := 0, z := 0, originalX := 0, originalY := 0, originalZ := 0 }

/-- One iteration of the particle loop of `animate` (lines 392-404). -/
def animateParticle (M : JSMath α) (time : α) (mouse : Mouse α)
    (velocities : List (Velocity α)) (posArr : List α) (i : Nat) : List α :=
  let i3 := i * 3
  let vel := velocities.getD i Velocity.zero
  let a := posArr.set i3 (vel.originalX + M.sin (time + (i : α) * 0.01) * 0.3)
  let a := a.set (i3 + 1) (vel.originalY + M.cos (time + (i : α) * 0.015) * 0.3)
  let a := a.set (i3 + 2) (vel.originalZ + M.sin (time * 0.5 + (i : α) * 0.02) * 0.2)
  let a := a.set i3 (rd a i3 + mouse.x * 2)
  a.set (i3 + 1) (rd a (i3 + 1) + mouse.y * 2)

/-- Apply `f` to the mesh a `geometries` entry refers to. -/
def Scene.modifyMesh (s : Scene α) (id : MeshId) (f : Mesh α → Mesh α) : Scene α :=
  match id with
  | MeshId.icosahedron => { s with icosahedron := f s.icosahedron }
  | MeshId.torus => { s with torus := f s.torus }
  | MeshId.octahedron => { s with octahedron := f s.octahedron }
  | MeshId.dodecahedron => { s with dodecahedron := f s.dodecahedron }
  | MeshId.torusKnot => { s with torusKnot := s.torusKnot.map f }

/-- The callback of `geometries.forEach` in `animate` (lines 411-422). -/
def animateGeometry (M : JSMath α) (time : α) (mouse : Mouse α)
    (s : Scene α) (g : FloatingGeometry α) : Scene α :=
  s.modifyMesh g.mesh fun m =>
    let rotation : Vec3 α :=
      { x := m.rotation.x + g.rotSpeed.x
        y := m.rotation.y + g.rotSpeed.y
        z := m.rotation.z + g.rotSpeed.z }
    let y := g.originalY + M.sin (time * g.floatSpeed * 100) * g.floatAmplitude
    let x := m.position.x + mouse.x * 0.02
    let y := y + mouse.y * 0.02
    { m with rotation := rotation, position := { x := x, y := y, z := m.position.z } }

/-- The part of `animate` before the connection update (lines 379-422). -/
def animateBody (M : JSMath α) (s : Scene α) : Scene α :=
  let time := s.time + 0.01
  let frameCount := s.frameCount + 1
  let mouse : Mouse α := smoothMouse M.fl s.mouse
  let positions :=
    (List.range s.PARTICLE_COUNT).foldl (animateParticle M time mouse s.velocities) s.positions
  let s1 : Scene α :=
    { s with
      time := time
      frameCount := frameCount
      mouse := mouse
      particlesRotationY := mouse.x * 0.3
      particlesRotationX := mouse.y * 0.2
      positions := positions
      positionNeedsUpdate := true
      uTime := time }
  s1.geometries.foldl (animateGeometry M time mouse) s1

/-- One call of `animate` (lines 377-431): the body above, then the periodic
connection update of lines 424-428. -/
def animate (M : JSMath α) (s : Scene α) : Scene α :=
  let s2 := animateBody M s
  let connectionInterval := if s2.isMobileDevice then 90 else 30
  if s2.frameCount % connectionInterval = 0 then updateConnections M s2 else s2

/-- The script run to its end on a page whose canvas exists: construction,
then the first call `animate()` of line 433. -/
def loadScene (M : JSMath α) (innerWidth devicePixelRatio : α) (dataTheme : Option String)
    (rand : Nat → α) : Scene α :=
  animate M (initScene M innerWidth devicePixelRatio dataTheme rand)

/-! ### The specification's reading of the colour choice -/

/-- The accent slot of a draw: slot 1 below 0.4, slot 2 from 0.4 to below 0.75,
slot 3 from 0.75 on. -/
def accentSlot (u : α) : Nat :=
  if u < 0.4 then 1 else if u < 0.75 then 2 else 3

/-- The accent colour held by a slot of a palette. -/
def ThemeColors.accent (palette : ThemeColors α) (slot : Nat) : Color α :=
  if slot = 1 then palette.particle1
  else if slot = 2 then palette.particle2
  else palette.particle3

/-- The colour of particle `i` in a colour array. -/
def colorAt (colorArray : List α) (i : Nat) : Color α :=
  { r := rd colorArray (i * 3), g := rd colorArray (i * 3 + 1), b := rd colorArray (i * 3 + 2) }

/-- The position of particle `i` in a position array. -/
def positionAt (posArr : List α) (i : Nat) : Vec3 α :=
  { x := rd posArr (i * 3), y := rd posArr (i * 3 + 1), z := rd posArr (i * 3 + 2) }

/-- The tier-dependent and per-particle constant part of a scene. -/
def Scene.tierView (s : Scene α) :
    Bool × Bool × Nat × Nat × α × List (FloatingGeometry α) × Bool × List (Velocity α) × List α :=
  (s.isMobileDevice, s.isSmallMobile, s.PARTICLE_COUNT, s.MAX_CONNECTIONS, s.CONNECTION_DISTANCE,
    s.geometries, s.torusKnot.isSome, s.velocities, s.sizes)

/-- Every colour a scene holds: the particle colour array, the material
colours of the solids (the torus knot when there is one) and of the lines. -/
def Scene.colorView (s : Scene α) :
    List α × Color α × Color α × Color α × Color α × Option (Color α) × Color α :=
  (s.colors, s.icosahedron.materialColor, s.torus.materialColor, s.octahedron.materialColor,
    s.dodecahedron.materialColor, s.torusKnot.map (fun m => m.materialColor),
    s.lineMaterialColor)

/-- The triple (particles, connection cap, wireframe solids) of a scene. -/
def Scene.tierSummary (s : Scene α) : Nat × Nat × Nat :=
  (s.PARTICLE_COUNT, s.MAX_CONNECTIONS, s.geometries.length)

/-- The buffers of a scene have the sizes they are allocated with: three
coordinates and three colour channels per particle, one `velocities` entry and
one size per particle. -/
def Scene.WellFormed (s : Scene α) : Prop :=
  s.positions.length = s.PARTICLE_COUNT * 3
  ∧ s.colors.length = s.PARTICLE_COUNT * 3
  ∧ s.velocities.length = s.PARTICLE_COUNT
  ∧ s.sizes.length = s.PARTICLE_COUNT

/-- The material colours of the wireframe solids: icosahedron, torus,
octahedron, dodecahedron, and the torus knot when there is one. -/
def Scene.solidColors (s : Scene α) :
    Color α × Color α × Color α × Color α × Option (Color α) :=
  (s.icosahedron.materialColor, s.torus.materialColor, s.octahedron.materialColor,
    s.dodecahedron.materialColor, s.torusKnot.map (fun m => m.materialColor))

/-- The colours the fixed mesh-to-slot mapping assigns on a palette:
icosahedron `wireframe`, torus `particle2`, octahedron `particle3`,
dodecahedron `particle1`, torus knot (when `hasKnot`) `particle2`. -/
def ThemeColors.solidMapping (palette : ThemeColors α) (hasKnot : Bool) :
    Color α × Color α × Color α × Color α × Option (Color α) :=
  (palette.wireframe, palette.particle2, palette.particle3, palette.particle1,
    if hasKnot then some palette.particle2 else none)

end Operations

/-! ## Resize, scroll and pointer handlers (lines 33-54, 437-465) -/

section Handlers
variable {α : Type} [LinearOrderedField α]

/-- The function `handleResize` (lines 437-444), for the new viewport width and
device pixel ratio; the camera's aspect ratio and the canvas size are not part
of the scene record. -/
def handleResize (innerWidth devicePixelRatio : α) (s : Scene α) : Scene α :=
  let maxPixelRatio : α := if innerWidth < 768 then 1.5 else 2
  { s with
    rendererPixelRatio := min devicePixelRatio maxPixelRatio
    uPixelRatio := min devicePixelRatio maxPixelRatio }

/-- Line 459: `var scrollY = window.scrollY || window.pageYOffset;` (a zero
`window.scrollY` is falsy, so the alias `window.pageYOffset` is read). -/
def scrollOffset (windowScrollY pageYOffset : α) : α :=
  if windowScrollY ≠ 0 then windowScrollY else pageYOffset

/-- The scroll listener of lines 458-465. -/
def onScroll (windowScrollY pageYOffset innerHeight : α) (s : Scene α) : Scene α :=
  let scrollY := scrollOffset windowScrollY pageYOffset
  let heroHeight := innerHeight
  if scrollY < heroHeight * 1.5 then
    { s with cameraPositionY := -scrollY * 0.005, particlesPositionY := scrollY * 0.01 }
  else s

/-- What a pointer listener (lines 33-54) does to the scene: it assigns
`mouse.targetX` and `mouse.targetY`. -/
def setPointerTarget (target : α × α) (s : Scene α) : Scene α :=
  { s with mouse := { s.mouse with targetX := target.1, targetY := target.2 } }

/-- A run of frames, each preceded by the pointer target the listeners left. -/
def runFrames (M : JSMath α) (targets : List (α × α)) (s : Scene α) : Scene α :=
  targets.foldl (fun st t => animate M (setPointerTarget t st)) s

/-- The smoothed pointer `mouse.x` of each frame of such a run, in order. -/
def smoothedXs (M : JSMath α) : List (α × α) → Scene α → List α
  | [], _ => []
  | t :: ts, s =>
    (animate M (setPointerTarget t s)).mouse.x
      :: smoothedXs M ts (animate M (setPointerTarget t s))

/-- The mesh a mesh variable refers to; `none` for the torus knot of a scene
built without one. -/
def Scene.mesh (s : Scene α) : MeshId → Option (Mesh α)
  | MeshId.icosahedron => some s.icosahedron
  | MeshId.torus => some s.torus
  | MeshId.octahedron => some s.octahedron
  | MeshId.dodecahedron => some s.dodecahedron
  | MeshId.torusKnot => s.torusKnot

/-- Every `geometries` entry refers to a mesh of the scene, and no two entries
to the same one. -/
def Scene.SolidsOk (s : Scene α) : Prop :=
  (s.geometries.map fun g => g.mesh).Nodup ∧ ∀ g ∈ s.geometries, (s.mesh g.mesh).isSome = true

/-- The connection interval of line 425. -/
def connectionInterval (s : Scene α) : Nat := if s.isMobileDevice then 90 else 30

/-- Whether the call of `animate` on `s` reaches `updateConnections`
(lines 380 and 425-428): the incremented frame counter is a multiple of the
interval. -/
def recomputesConnections (s : Scene α) : Bool :=
  decide ((s.frameCount + 1) % connectionInterval s = 0)

/-- The fields of a scene other than buffers, meshes, pointer, colours and
line mesh. -/
def Scene.clockView (s : Scene α) : Nat × α × α × α × α × α × α × α × α × α × Bool :=
  (s.frameCount, s.time, s.uTime, s.rendererPixelRatio, s.uPixelRatio, s.cameraPositionY,
    s.cameraPositionZ, s.particlesPositionY, s.particlesRotationX, s.particlesRotationY,
    s.positionNeedsUpdate)

/-- The mesh after the `geometries.forEach` callback (lines 412-421) has run
for the entry `g` that refers to it. -/
def floatMesh (M : JSMath α) (time : α) (mouse : Mouse α) (g : FloatingGeometry α)
    (m : Mesh α) : Mesh α :=
  { m with
    rotation :=
      { x := m.rotation.x + g.rotSpeed.x
        y := m.rotation.y + g.rotSpeed.y
        z := m.rotation.z + g.rotSpeed.z }
    position :=
      { x := m.position.x + mouse.x * 0.02
        y := g.originalY + M.sin (time * g.floatSpeed * 100) * g.floatAmplitude
              + mouse.y * 0.02
        z := m.position.z } }

/-- The smoothing step in the specification's words:
`s' = s + 0.05 * (t - s)`. -/
def smoothAxis (v target : α) : α := v + 0.05 * (target - v)

end Handlers

/-! ## Page: outcome of the scene script and theme toggle
(`src/scene.js` lines 9-28 and 343, `src/main.js` lines 85-102) -/

section PageModel
variable {α : Type} [LinearOrderedField α]

/-- The part of the page the two scripts share: the `data-theme` attribute of
the document element, the `portfolio-theme` entry of `localStorage`, and what
the scene script has left behind: its closure, whether `animate` is scheduled
with `requestAnimationFrame`, and whether `window.updateThreeTheme` is a
function. -/
structure Page (α : Type) where
  dataTheme : Option String
  storedTheme : Option String
  scene : Option (Scene α)
  animationLoop : Bool
  themeHook : Bool

/-- The page before either script has run. -/
def freshPage (dataTheme storedTheme : Option String) : Page α :=
  { dataTheme := dataTheme, storedTheme := storedTheme, scene := none,
    animationLoop := false, themeHook := false }

/-- The script `src/scene.js` as a whole. `canvasPresent` is whether
`document.getElementById('heroCanvas')` finds the canvas (line 10 returns when
it does not); `rendererConstructed` is whether the library constructor
`new THREE.WebGLRenderer` of line 20 returns: it throws when no graphics
context can be had, which ends the script there, before any listener, hook or
frame callback is registered. -/
def runSceneScript (M : JSMath α) (canvasPresent rendererConstructed : Bool)
    (innerWidth devicePixelRatio : α) (rand : Nat → α) (p : Page α) : Page α :=
  if !canvasPresent then p
  else if !rendererConstructed then p
  else
    { p with
      scene := some (loadScene M innerWidth devicePixelRatio p.dataTheme rand)
      animationLoop := true
      themeHook := true }

/-- Lines 87-90 of `src/main.js`:
`var savedTheme = localStorage.getItem('portfolio-theme') || 'dark';` (a missing
entry and the empty string are falsy), then `setAttribute('data-theme', savedTheme)`. -/
def applySavedTheme (p : Page α) : Page α :=
  let savedTheme :=
    match p.storedTheme with
    | some v => if v ≠ "" then v else "dark"
    | none => "dark"
  { p with dataTheme := some savedTheme }

/-- The click listener of the theme toggle (`src/main.js` lines 92-102);
`rand` is the stream of draws `updateThreeTheme` sees when it is called. -/
def themeToggleClick (rand : Nat → α) (p : Page α) : Page α :=
  let current := p.dataTheme
  let next := if current = some "dark" then "light" else "dark"
  let p1 : Page α := { p with dataTheme := some next, storedTheme := some next }
  if p1.themeHook then
    { p1 with scene := p1.scene.map (updateThreeTheme p1.dataTheme rand) }
  else p1

end PageModel

/-! ## Typewriter (`src/main.js` lines 181-219) -/

section TypewriterModel

/-- The array `phrases` (lines 183-190), each string as its list of characters. -/
def phrases : List (List Char) :=
  ["scalable web applications.".toList,
   "beautiful user interfaces.".toList,
   "robust backend systems.".toList,
   "open-source tools.".toList,
   "cloud-native solutions.".toList,
   "developer experiences.".toList]

/-- The variables of lines 191-194 and the `textContent` of the typewriter
element. -/
structure Typewriter where
  phraseIndex : Nat
  charIndex : Int
  isDeleting : Bool
  typeSpeed : Nat
  textContent : List Char
deriving DecidableEq, Repr

/-- The call `str.substring(0, k)`: a negative `k` counts as 0 and a `k`
beyond the length as the length. -/
def substring0 (str : List Char) (k : Int) : List Char := str.take k.toNat

/-- One call of `typewrite` (lines 196-216); the `setTimeout` that schedules
the next call after `typeSpeed` milliseconds is not part of the state. -/
def typewrite (st : Typewriter) : Typewriter :=
  let currentPhrase := phrases.getD st.phraseIndex []
  let st1 : Typewriter :=
    if st.isDeleting then
      { st with
        textContent := substring0 currentPhrase (st.charIndex - 1)
        charIndex := st.charIndex - 1
        typeSpeed := 40 }
    else
      { st with
        textContent := substring0 currentPhrase (st.charIndex + 1)
        charIndex := st.charIndex + 1
        typeSpeed := 80 }
  if ¬ st1.isDeleting ∧ st1.charIndex = (currentPhrase.length : Int) then
    { st1 with typeSpeed := 2000, isDeleting := true }
  else if st1.isDeleting ∧ st1.charIndex = 0 then
    { st1 with
      isDeleting := false
      phraseIndex := (st1.phraseIndex + 1) % phrases.length
      typeSpeed := 400 }
  else st1

/-- The state of lines 191-194 before the first call, the element showing
`text`. -/
def typewriterStart (text : List Char) : Typewriter :=
  { phraseIndex := 0, charIndex := 0, isDeleting := false, typeSpeed := 80, textContent := text }

/-- The length of phrase `p`. -/
def phraseLength (p : Nat) : Nat := (phrases.getD p []).length

/-- The bounds the loop keeps: a valid phrase index, and a character index
below the phrase length while typing and from 1 to the phrase length while
deleting. -/
def Typewriter.Inv (st : Typewriter) : Prop :=
  st.phraseIndex < phrases.length
  ∧ (st.isDeleting = false → 0 ≤ st.charIndex ∧ st.charIndex < (phraseLength st.phraseIndex : Int))
  ∧ (st.isDeleting = true → 1 ≤ st.charIndex ∧ st.charIndex ≤ (phraseLength st.phraseIndex : Int))

end TypewriterModel

/-! ## Theorems -/

section Binary64Proofs

theorem roundHalfEven_cases (z : ℚ) :
    roundHalfEven z = ⌊z⌋ ∨ roundHalfEven z = ⌊z⌋ + 1 := by
  unfold roundHalfEven
  split_ifs <;> simp

theorem roundHalfEven_intCast (n : ℤ) : roundHalfEven (n : ℚ) = n := by
  unfold roundHalfEven
  simp

theorem floor_le_roundHalfEven (z : ℚ) : ⌊z⌋ ≤ roundHalfEven z := by
  rcases roundHalfEven_cases z with h | h <;> omega

theorem roundHalfEven_le_floor_add_one (z : ℚ) : roundHalfEven z ≤ ⌊z⌋ + 1 := by
  rcases roundHalfEven_cases z with h | h <;> omega

theorem int_le_roundHalfEven (z : ℚ) (n : ℤ) (h : (n : ℚ) ≤ z) : n ≤ roundHalfEven z :=
  (Int.le_floor.mpr h).trans (floor_le_roundHalfEven z)

theorem roundHalfEven_le_int (z : ℚ) (n : ℤ) (h : z ≤ (n : ℚ)) : roundHalfEven z ≤ n := by
  by_cases hlt : z < (n : ℚ)
  · have : ⌊z⌋ < n := Int.floor_lt.mpr hlt
    have := roundHalfEven_le_floor_add_one z
    omega
  · have hz : z = (n : ℚ) := le_antisymm h (not_lt.mp hlt)
    rw [hz, roundHalfEven_intCast]

theorem roundHalfEven_mono (z w : ℚ) (h : z ≤ w) : roundHalfEven z ≤ roundHalfEven w := by
  have hfl : ⌊z⌋ ≤ ⌊w⌋ := Int.floor_mono h
  by_cases heq : ⌊z⌋ = ⌊w⌋
  · unfold roundHalfEven
    rw [heq]
    have hr : z - ⌊w⌋ ≤ w - ⌊w⌋ := by linarith
    split_ifs <;> first | omega | (exfalso; linarith)
  · have h1 := roundHalfEven_le_floor_add_one z
    have h2 := floor_le_roundHalfEven w
    omega

theorem roundHalfEven_sub_le (z : ℚ) : |(roundHalfEven z : ℚ) - z| ≤ 1 / 2 := by
  have h1 := Int.floor_le z
  have h2 := Int.lt_floor_add_one z
  unfold roundHalfEven
  rw [abs_le]
  split_ifs with a b c
  · constructor <;> linarith
  · push_cast
    constructor <;> linarith
  · have : z - ⌊z⌋ = 1 / 2 := le_antisymm (not_lt.mp b) (not_lt.mp a)
    constructor <;> linarith
  · have : z - ⌊z⌋ = 1 / 2 := le_antisymm (not_lt.mp b) (not_lt.mp a)
    push_cast
    constructor <;> linarith

theorem roundHalfEven_eq_zero (z : ℚ) (h0 : 0 ≤ z) (h1 : z < 1 / 2) : roundHalfEven z = 0 := by
  have hf : ⌊z⌋ = 0 := by
    rw [Int.floor_eq_iff]
    constructor
    · simpa using h0
    · norm_num
      linarith
  unfold roundHalfEven
  rw [hf]
  simp only [Int.cast_zero, sub_zero]
  rw [if_pos h1]

theorem two_zpow_pos (e : ℤ) : (0 : ℚ) < 2 ^ e := zpow_pos (by norm_num) e

theorem zpow_log_le (q : ℚ) (hq : 0 < q) : (2 : ℚ) ^ Int.log 2 q ≤ q := by
  have := Int.zpow_log_le_self (b := 2) (by norm_num) hq
  simpa using this

theorem lt_zpow_log_succ (q : ℚ) : q < (2 : ℚ) ^ (Int.log 2 q + 1) := by
  have := Int.lt_zpow_succ_log_self (b := 2) (by norm_num) q
  simpa using this

theorem log_two_zpow (z : ℤ) : Int.log 2 ((2 : ℚ) ^ z) = z := by
  have := Int.log_zpow (R := ℚ) (b := 2) (by norm_num) z
  simpa using this

theorem ulpExponent_ge (q : ℚ) : -1074 ≤ ulpExponent q := le_max_right _ _

theorem ulpExponent_ge_log (q : ℚ) : Int.log 2 q - 52 ≤ ulpExponent q := le_max_left _ _

theorem ulpExponent_mono (a b : ℚ) (ha : 0 < a) (h : a ≤ b) :
    ulpExponent a ≤ ulpExponent b := by
  have := Int.log_mono_right (b := 2) ha h
  unfold ulpExponent
  omega

theorem scaled_div_mul (q : ℚ) (e : ℤ) : q / 2 ^ e * 2 ^ e = q :=
  div_mul_cancel₀ q (ne_of_gt (two_zpow_pos e))

theorem scaled_nonneg (q : ℚ) (e : ℤ) (hq : 0 ≤ q) : 0 ≤ q / 2 ^ e :=
  div_nonneg hq (le_of_lt (two_zpow_pos e))

theorem scaled_lt (q : ℚ) : q / 2 ^ ulpExponent q < 2 ^ (53 : ℕ) := by
  rw [div_lt_iff₀ (two_zpow_pos _)]
  have h1 := lt_zpow_log_succ q
  have h2 : (2 : ℚ) ^ (Int.log 2 q + 1) ≤ 2 ^ (ulpExponent q + 53) :=
    zpow_le_zpow_right₀ (by norm_num) (by have := ulpExponent_ge_log q; omega)
  have h3 : (2 : ℚ) ^ (ulpExponent q + 53) = 2 ^ (53 : ℕ) * 2 ^ ulpExponent q := by
    rw [zpow_add₀ (by norm_num), mul_comm]
    norm_cast
  linarith

theorem roundMagnitude_zero : roundMagnitude 0 = 0 := by
  unfold roundMagnitude
  rw [zero_div]
  have := roundHalfEven_intCast 0
  simp only [Int.cast_zero] at this
  rw [this]
  simp

theorem roundMagnitude_nonneg (q : ℚ) (hq : 0 ≤ q) : 0 ≤ roundMagnitude q := by
  unfold roundMagnitude
  have h := int_le_roundHalfEven (q / 2 ^ ulpExponent q) 0 (by simpa using scaled_nonneg q _ hq)
  exact mul_nonneg (by exact_mod_cast h) (le_of_lt (two_zpow_pos _))

theorem roundMagnitude_le_two_mul (q : ℚ) (hq : 0 ≤ q) : roundMagnitude q ≤ 2 * q := by
  have hz := scaled_nonneg q (ulpExponent q) hq
  have hP := two_zpow_pos (ulpExponent q)
  have key : (roundHalfEven (q / 2 ^ ulpExponent q) : ℚ) ≤ 2 * (q / 2 ^ ulpExponent q) := by
    by_cases h : q / 2 ^ ulpExponent q < 1 / 2
    · rw [roundHalfEven_eq_zero _ hz h]
      simpa using hz
    · have := (abs_le.mp (roundHalfEven_sub_le (q / 2 ^ ulpExponent q))).2
      linarith [not_lt.mp h]
  unfold roundMagnitude
  calc (roundHalfEven (q / 2 ^ ulpExponent q) : ℚ) * 2 ^ ulpExponent q
      ≤ 2 * (q / 2 ^ ulpExponent q) * 2 ^ ulpExponent q :=
        mul_le_mul_of_nonneg_right key (le_of_lt hP)
    _ = 2 * q := by rw [mul_assoc, scaled_div_mul]

theorem roundMagnitude_sub_le (q : ℚ) :
    |roundMagnitude q - q| ≤ 2 ^ (ulpExponent q - 1) := by
  have hP := two_zpow_pos (ulpExponent q)
  have h := roundHalfEven_sub_le (q / 2 ^ ulpExponent q)
  have e1 : roundMagnitude q - q
      = ((roundHalfEven (q / 2 ^ ulpExponent q) : ℚ) - q / 2 ^ ulpExponent q)
          * 2 ^ ulpExponent q := by
    unfold roundMagnitude
    rw [sub_mul, scaled_div_mul]
  have e2 : (2 : ℚ) ^ (ulpExponent q - 1) = 1 / 2 * 2 ^ ulpExponent q := by
    rw [zpow_sub₀ (by norm_num)]
    simp
    ring
  rw [e1, e2, abs_mul, abs_of_pos hP]
  exact mul_le_mul_of_nonneg_right h (le_of_lt hP)

theorem roundMagnitude_mono (a b : ℚ) (ha : 0 ≤ a) (h : a ≤ b) :
    roundMagnitude a ≤ roundMagnitude b := by
  rcases eq_or_lt_of_le ha with h0 | hpos
  · rw [← h0, roundMagnitude_zero]
    exact roundMagnitude_nonneg b (ha.trans h)
  have hb : 0 < b := lt_of_lt_of_le hpos h
  have hexp := ulpExponent_mono a b hpos h
  rcases eq_or_lt_of_le hexp with heq | hlt
  · unfold roundMagnitude
    rw [heq]
    have hz : a / 2 ^ ulpExponent b ≤ b / 2 ^ ulpExponent b :=
      div_le_div_of_nonneg_right h (le_of_lt (two_zpow_pos _))
    exact mul_le_mul_of_nonneg_right (by exact_mod_cast roundHalfEven_mono _ _ hz)
      (le_of_lt (two_zpow_pos _))
  · have hgeb := ulpExponent_ge a
    have hbe : ulpExponent b = Int.log 2 b - 52 := by
      unfold ulpExponent at hlt hgeb ⊢
      omega
    have hPb : (2 : ℚ) ^ (ulpExponent b + 52) ≤ b := by
      have := zpow_log_le b hb
      rw [hbe]
      simpa using this
    have haP : a ≤ (2 : ℚ) ^ (ulpExponent b + 52) := by
      have h1 := lt_zpow_log_succ a
      have h2 : (2 : ℚ) ^ (Int.log 2 a + 1) ≤ 2 ^ (ulpExponent b + 52) :=
        zpow_le_zpow_right₀ (by norm_num) (by have := ulpExponent_ge_log a; omega)
      linarith
    obtain ⟨k, hk⟩ : ∃ k : ℕ, ulpExponent b + 52 - ulpExponent a = (k : ℤ) :=
      ⟨(ulpExponent b + 52 - ulpExponent a).toNat, by omega⟩
    have hsplit : (2 : ℚ) ^ (ulpExponent b + 52) = ((2 ^ k : ℤ) : ℚ) * 2 ^ ulpExponent a := by
      have : ulpExponent b + 52 = (k : ℤ) + ulpExponent a := by omega
      rw [this, zpow_add₀ (by norm_num)]
      norm_cast
    have hsplit2 : (2 : ℚ) ^ (ulpExponent b + 52) = ((2 ^ 52 : ℤ) : ℚ) * 2 ^ ulpExponent b := by
      rw [add_comm, zpow_add₀ (by norm_num)]
      norm_cast
    have hA : roundMagnitude a ≤ (2 : ℚ) ^ (ulpExponent b + 52) := by
      unfold roundMagnitude
      rw [hsplit]
      refine mul_le_mul_of_nonneg_right ?_ (le_of_lt (two_zpow_pos _))
      have : a / 2 ^ ulpExponent a ≤ ((2 ^ k : ℤ) : ℚ) := by
        rw [div_le_iff₀ (two_zpow_pos _), ← hsplit]
        exact haP
      exact_mod_cast roundHalfEven_le_int _ _ this
    have hB : (2 : ℚ) ^ (ulpExponent b + 52) ≤ roundMagnitude b := by
      unfold roundMagnitude
      rw [hsplit2]
      refine mul_le_mul_of_nonneg_right ?_ (le_of_lt (two_zpow_pos _))
      have : ((2 ^ 52 : ℤ) : ℚ) ≤ b / 2 ^ ulpExponent b := by
        rw [le_div_iff₀ (two_zpow_pos _), ← hsplit2]
        exact hPb
      exact_mod_cast int_le_roundHalfEven _ _ this
    exact hA.trans hB

/-- Every `m * 2 ^ e` with `0 ≤ m ≤ 2 ^ 53` and `e ≥ -1074` is its own rounding. -/
theorem roundMagnitude_of_grid (m : ℕ) (e : ℤ) (hm : m ≤ 2 ^ 53) (he : -1074 ≤ e) :
    roundMagnitude ((m : ℚ) * 2 ^ e) = (m : ℚ) * 2 ^ e := by
  rcases Nat.eq_zero_or_pos m with h0 | hpos
  · rw [h0]
    simp [roundMagnitude_zero]
  have hq : (0 : ℚ) < (m : ℚ) * 2 ^ e := mul_pos (by exact_mod_cast hpos) (two_zpow_pos e)
  have hint : ∀ n : ℤ, (m : ℚ) * 2 ^ e / 2 ^ ulpExponent ((m : ℚ) * 2 ^ e) = (n : ℚ) →
      roundMagnitude ((m : ℚ) * 2 ^ e) = (m : ℚ) * 2 ^ e := by
    intro n hn
    unfold roundMagnitude
    rw [hn, roundHalfEven_intCast, ← hn, scaled_div_mul]
  by_cases hcase : ulpExponent ((m : ℚ) * 2 ^ e) ≤ e
  · obtain ⟨k, hk⟩ : ∃ k : ℕ, e - ulpExponent ((m : ℚ) * 2 ^ e) = (k : ℤ) :=
      ⟨(e - ulpExponent ((m : ℚ) * 2 ^ e)).toNat, by omega⟩
    apply hint ((m : ℤ) * 2 ^ k)
    rw [div_eq_iff (ne_of_gt (two_zpow_pos _))]
    have : e = (k : ℤ) + ulpExponent ((m : ℚ) * 2 ^ e) := by omega
    conv_lhs => rw [this, zpow_add₀ (by norm_num : (2 : ℚ) ≠ 0), zpow_natCast]
    push_cast
    ring
  · have hlog : e + 53 ≤ Int.log 2 ((m : ℚ) * 2 ^ e) := by
      unfold ulpExponent at hcase
      omega
    have hle : (2 : ℚ) ^ (e + 53) ≤ (m : ℚ) * 2 ^ e := by
      have h1 := zpow_log_le _ hq
      have h2 : (2 : ℚ) ^ (e + 53) ≤ 2 ^ Int.log 2 ((m : ℚ) * 2 ^ e) :=
        zpow_le_zpow_right₀ (by norm_num) hlog
      linarith
    have hpow : (2 : ℚ) ^ (e + 53) = ((2 ^ 53 : ℕ) : ℚ) * 2 ^ e := by
      rw [add_comm, zpow_add₀ (by norm_num)]
      norm_cast
    have hm2 : ((2 ^ 53 : ℕ) : ℚ) ≤ (m : ℚ) := by
      rw [hpow] at hle
      exact le_of_mul_le_mul_right hle (two_zpow_pos e)
    have hmeq : m = 2 ^ 53 := le_antisymm hm (by exact_mod_cast hm2)
    have hval : (m : ℚ) * 2 ^ e = 2 ^ (e + 53) := by
      rw [hpow, hmeq]
    have hulp : ulpExponent ((m : ℚ) * 2 ^ e) = e + 1 := by
      unfold ulpExponent
      rw [hval, log_two_zpow]
      omega
    apply hint (2 ^ 52)
    rw [hulp, hval, ← zpow_sub₀ (by norm_num)]
    have : e + 53 - (e + 1) = ((52 : ℕ) : ℤ) := by omega
    rw [this, zpow_natCast]
    norm_cast

theorem roundMagnitude_idem (q : ℚ) (hq : 0 ≤ q) :
    roundMagnitude (roundMagnitude q) = roundMagnitude q := by
  have hz := scaled_nonneg q (ulpExponent q) hq
  have h0 : 0 ≤ roundHalfEven (q / 2 ^ ulpExponent q) :=
    int_le_roundHalfEven _ 0 (by simpa using hz)
  have h1 : roundHalfEven (q / 2 ^ ulpExponent q) ≤ 2 ^ 53 := by
    apply roundHalfEven_le_int
    have := scaled_lt q
    push_cast
    linarith
  obtain ⟨m, hm⟩ : ∃ m : ℕ, roundHalfEven (q / 2 ^ ulpExponent q) = (m : ℤ) :=
    ⟨(roundHalfEven (q / 2 ^ ulpExponent q)).toNat, by omega⟩
  have hval : roundMagnitude q = (m : ℚ) * 2 ^ ulpExponent q := by
    unfold roundMagnitude
    rw [hm]
    norm_cast
  rw [hval]
  exact roundMagnitude_of_grid m _ (by omega) (ulpExponent_ge q)

theorem round64_zero : round64 0 = 0 := by
  simp [round64, roundMagnitude_zero]

theorem round64_of_nonneg (q : ℚ) (hq : 0 ≤ q) : round64 q = roundMagnitude q := by
  simp [round64, hq]

theorem round64_neg (q : ℚ) : round64 (-q) = -round64 q := by
  rcases lt_trichotomy q 0 with h | h | h
  · have h1 : ¬ (0 ≤ q) := not_le.mpr h
    have h2 : 0 ≤ -q := by linarith
    simp [round64, h1, h2]
  · rw [h]
    simp [round64_zero]
  · have h1 : ¬ (0 ≤ -q) := by
      intro hc
      linarith
    have h2 : 0 ≤ q := le_of_lt h
    simp [round64, h1, h2]

theorem round64_nonneg (q : ℚ) (hq : 0 ≤ q) : 0 ≤ round64 q := by
  rw [round64_of_nonneg q hq]
  exact roundMagnitude_nonneg q hq

theorem round64_nonpos (q : ℚ) (hq : q ≤ 0) : round64 q ≤ 0 := by
  have h := round64_nonneg (-q) (by linarith)
  rw [round64_neg] at h
  linarith

theorem round64_mono (a b : ℚ) (h : a ≤ b) : round64 a ≤ round64 b := by
  rcases le_or_lt 0 a with ha | ha
  · rw [round64_of_nonneg a ha, round64_of_nonneg b (ha.trans h)]
    exact roundMagnitude_mono a b ha h
  · rcases le_or_lt 0 b with hb | hb
    · exact (round64_nonpos a (le_of_lt ha)).trans (round64_nonneg b hb)
    · have h1 := roundMagnitude_mono (-b) (-a) (by linarith) (by linarith)
      have ea : round64 a = -roundMagnitude (-a) := by
        simp [round64, not_le.mpr ha]
      have eb : round64 b = -roundMagnitude (-b) := by
        simp [round64, not_le.mpr hb]
      rw [ea, eb]
      linarith

theorem round64_idem (q : ℚ) : round64 (round64 q) = round64 q := by
  rcases le_or_lt 0 q with hq | hq
  · rw [round64_of_nonneg q hq, round64_of_nonneg _ (roundMagnitude_nonneg q hq)]
    exact roundMagnitude_idem q hq
  · have e : round64 q = -roundMagnitude (-q) := by
      simp [round64, not_le.mpr hq]
    have h0 : 0 ≤ -q := by linarith
    rw [e, round64_neg, round64_of_nonneg _ (roundMagnitude_nonneg _ h0),
      roundMagnitude_idem _ h0]

/-- Every `m * 2 ^ e` with `|m| ≤ 2 ^ 53` and `e ≥ -1074` is a fixed point of the rounding. -/
theorem round64_of_grid (m : ℤ) (e : ℤ) (hm : |m| ≤ 2 ^ 53) (he : -1074 ≤ e) :
    round64 ((m : ℚ) * 2 ^ e) = (m : ℚ) * 2 ^ e := by
  have hnat : ∀ n : ℕ, n ≤ 2 ^ 53 → round64 ((n : ℚ) * 2 ^ e) = (n : ℚ) * 2 ^ e := by
    intro n hn
    rw [round64_of_nonneg _ (mul_nonneg (Nat.cast_nonneg n) (le_of_lt (two_zpow_pos e)))]
    exact roundMagnitude_of_grid n e hn he
  rcases le_or_lt 0 m with h | h
  · obtain ⟨n, rfl⟩ := Int.eq_ofNat_of_zero_le h
    have hn : n ≤ 2 ^ 53 := by
      rw [abs_of_nonneg h] at hm
      exact_mod_cast hm
    simpa using hnat n hn
  · obtain ⟨n, hn⟩ := Int.eq_ofNat_of_zero_le (by omega : 0 ≤ -m)
    have hn2 : n ≤ 2 ^ 53 := by
      rw [abs_of_neg h, hn] at hm
      exact_mod_cast hm
    have hm2 : (m : ℚ) = -(n : ℚ) := by
      have : m = -(n : ℤ) := by omega
      rw [this]
      push_cast
      ring
    rw [hm2, neg_mul, round64_neg, hnat n hn2]

theorem round64_intCast (m : ℤ) (hm : |m| ≤ 2 ^ 53) : round64 (m : ℚ) = m := by
  have h := round64_of_grid m 0 hm (by norm_num)
  simpa using h

theorem round64_abs_sub_le (q : ℚ) :
    |round64 q - q| ≤ 2 ^ (ulpExponent |q| - 1) := by
  rcases le_or_lt 0 q with hq | hq
  · rw [round64_of_nonneg q hq, abs_of_nonneg hq]
    exact roundMagnitude_sub_le q
  · have e : round64 q = -roundMagnitude (-q) := by
      simp [round64, not_le.mpr hq]
    rw [e, abs_of_neg hq]
    have h := roundMagnitude_sub_le (-q)
    have e2 : -roundMagnitude (-q) - q = -(roundMagnitude (-q) - -q) := by ring
    rw [e2, abs_neg]
    exact h

/-- Rounding error of a value of magnitude at most `2 ^ k`, for a normal exponent `k`. -/
theorem round64_error (q : ℚ) (k : ℤ) (hk : -1022 ≤ k) (hq : |q| ≤ 2 ^ k) :
    |round64 q - q| ≤ 2 ^ (k - 53) := by
  rcases eq_or_lt_of_le (abs_nonneg q) with h0 | h0
  · have hq0 : q = 0 := abs_eq_zero.mp h0.symm
    rw [hq0, round64_zero]
    simpa using le_of_lt (two_zpow_pos (k - 53))
  · refine (round64_abs_sub_le q).trans ?_
    apply zpow_le_zpow_right₀ (by norm_num)
    have h : Int.log 2 |q| ≤ Int.log 2 ((2 : ℚ) ^ k) := Int.log_mono_right h0 hq
    rw [log_two_zpow] at h
    unfold ulpExponent
    omega

theorem log_eq_of_bounds (q : ℚ) (L : ℤ) (h1 : (2 : ℚ) ^ L ≤ q) (h2 : q < (2 : ℚ) ^ (L + 1)) :
    Int.log 2 q = L := by
  have hq : 0 < q := lt_of_lt_of_le (two_zpow_pos L) h1
  have a : L ≤ Int.log 2 q := by
    have := (Int.zpow_le_iff_le_log (b := 2) (by norm_num) hq (x := L)).mp
    apply this
    simpa using h1
  have b : Int.log 2 q < L + 1 := by
    have := (Int.lt_zpow_iff_log_lt (b := 2) (by norm_num) hq (x := L + 1)).mp
    apply this
    simpa using h2
  omega

/-- Rounding of a positive normal value whose binade `2 ^ L ≤ q < 2 ^ (L + 1)` is known. -/
theorem round64_eval (q : ℚ) (L : ℤ) (hL : -1022 ≤ L) (h1 : (2 : ℚ) ^ L ≤ q)
    (h2 : q < (2 : ℚ) ^ (L + 1)) :
    round64 q = (roundHalfEven (q / 2 ^ (L - 52)) : ℚ) * 2 ^ (L - 52) := by
  have hq : 0 < q := lt_of_lt_of_le (two_zpow_pos L) h1
  have hu : ulpExponent q = L - 52 := by
    unfold ulpExponent
    rw [log_eq_of_bounds q L h1 h2]
    omega
  rw [round64_of_nonneg q (le_of_lt hq)]
  unfold roundMagnitude
  rw [hu]

theorem roundHalfEven_of_floor (z : ℚ) (f : ℤ) (hf : ⌊z⌋ = f) :
    roundHalfEven z = if z - f < 1 / 2 then f else if 1 / 2 < z - f then f + 1
      else if f % 2 = 0 then f else f + 1 := by
  unfold roundHalfEven
  rw [hf]

/-- The literal `0.05` denotes the binary64 value `3602879701896397 / 2 ^ 56`. -/
theorem round64_literal : round64 (0.05 : ℚ) = 3602879701896397 / 2 ^ 56 := by
  rw [round64_eval (0.05 : ℚ) (-5) (by norm_num) (by norm_num) (by norm_num)]
  rw [roundHalfEven_of_floor _ 7205759403792793 (by rw [Int.floor_eq_iff]; norm_num)]
  norm_num

end Binary64Proofs

section SmoothStepProofs

/-- The rounded increment of one smoothing step toward a target not below the
value: it is non-negative and at most a quarter of the gap. -/
theorem smoothIncrement_bounds (v t : ℚ) (h : v ≤ t) :
    0 ≤ round64 (round64 (t - v) * round64 0.05)
    ∧ round64 (round64 (t - v) * round64 0.05) ≤ (t - v) / 4 := by
  have hD : 0 ≤ t - v := by linarith
  have hd0 : 0 ≤ round64 (t - v) := round64_nonneg _ hD
  have hd1 : round64 (t - v) ≤ 2 * (t - v) := by
    rw [round64_of_nonneg _ hD]
    exact roundMagnitude_le_two_mul _ hD
  rw [round64_literal]
  have hp0 : 0 ≤ round64 (t - v) * (3602879701896397 / 2 ^ 56) := by positivity
  refine ⟨round64_nonneg _ hp0, ?_⟩
  have he := roundMagnitude_le_two_mul _ hp0
  rw [round64_of_nonneg _ hp0]
  have hc : round64 (t - v) * (3602879701896397 / 2 ^ 56 : ℚ)
      ≤ 2 * (t - v) * (3602879701896397 / 2 ^ 56) :=
    mul_le_mul_of_nonneg_right hd1 (by norm_num)
  linarith

theorem smoothStep_neg (v t : ℚ) :
    smoothStep round64 (-v) (-t) = -smoothStep round64 v t := by
  unfold smoothStep
  have h1 : -t - -v = -(t - v) := by ring
  rw [h1, round64_neg, neg_mul, round64_neg, ← neg_add, round64_neg]

theorem smoothStep_between_of_le (v t : ℚ) (hv : round64 v = v) (ht : round64 t = t)
    (h : v ≤ t) : v ≤ smoothStep round64 v t ∧ smoothStep round64 v t ≤ t := by
  obtain ⟨h0, h1⟩ := smoothIncrement_bounds v t h
  unfold smoothStep
  constructor
  · have := round64_mono v (v + round64 (round64 (t - v) * round64 0.05)) (by linarith)
    rwa [hv] at this
  · have := round64_mono (v + round64 (round64 (t - v) * round64 0.05)) t (by linarith)
    rwa [ht] at this

theorem smoothStep_between_of_ge (v t : ℚ) (hv : round64 v = v) (ht : round64 t = t)
    (h : t ≤ v) : t ≤ smoothStep round64 v t ∧ smoothStep round64 v t ≤ v := by
  have hv2 : round64 (-v) = -v := by rw [round64_neg, hv]
  have ht2 : round64 (-t) = -t := by rw [round64_neg, ht]
  have := smoothStep_between_of_le (-v) (-t) hv2 ht2 (by linarith)
  rw [smoothStep_neg] at this
  constructor <;> linarith [this.1, this.2]

theorem smoothStep_between (v t : ℚ) (hv : round64 v = v) (ht : round64 t = t) :
    min v t ≤ smoothStep round64 v t ∧ smoothStep round64 v t ≤ max v t := by
  rcases le_total v t with h | h
  · rw [min_eq_left h, max_eq_right h]
    exact smoothStep_between_of_le v t hv ht h
  · rw [min_eq_right h, max_eq_left h]
    exact smoothStep_between_of_ge v t hv ht h

theorem smoothStep_dist_le (v t : ℚ) (hv : round64 v = v) (ht : round64 t = t) :
    |t - smoothStep round64 v t| ≤ |t - v| := by
  rcases le_total v t with h | h
  · obtain ⟨h1, h2⟩ := smoothStep_between_of_le v t hv ht h
    rw [abs_of_nonneg (by linarith), abs_of_nonneg (by linarith)]
    linarith
  · obtain ⟨h1, h2⟩ := smoothStep_between_of_ge v t hv ht h
    rw [abs_of_nonpos (by linarith), abs_of_nonpos (by linarith)]
    linarith

theorem smoothStep_dist_lt (v t : ℚ) (hv : round64 v = v) (ht : round64 t = t)
    (hne : smoothStep round64 v t ≠ v) :
    |t - smoothStep round64 v t| < |t - v| := by
  rcases le_total v t with h | h
  · obtain ⟨h1, h2⟩ := smoothStep_between_of_le v t hv ht h
    rw [abs_of_nonneg (by linarith), abs_of_nonneg (by linarith)]
    have : v < smoothStep round64 v t := lt_of_le_of_ne h1 (Ne.symm hne)
    linarith
  · obtain ⟨h1, h2⟩ := smoothStep_between_of_ge v t hv ht h
    rw [abs_of_nonpos (by linarith), abs_of_nonpos (by linarith)]
    have : smoothStep round64 v t < v := lt_of_le_of_ne h2 hne
    linarith

theorem smoothStep_round64 (v t : ℚ) :
    round64 (smoothStep round64 v t) = smoothStep round64 v t := by
  unfold smoothStep
  exact round64_idem _

theorem smoothStep_abs_le_one (v t : ℚ) (hv : round64 v = v) (ht : round64 t = t)
    (hv1 : |v| ≤ 1) (ht1 : |t| ≤ 1) : |smoothStep round64 v t| ≤ 1 := by
  obtain ⟨h1, h2⟩ := smoothStep_between v t hv ht
  rw [abs_le] at hv1 ht1 ⊢
  constructor
  · exact le_trans (le_min hv1.1 ht1.1) h1
  · exact le_trans h2 (max_le hv1.2 ht1.2)

/-- One rounded smoothing step differs from the exact value `v + 0.05 * (t - v)`
by at most `2 ^ -52`, for values in `[-1, 1]` with `v ≤ t`. -/
theorem smoothStep_error_of_le (v t : ℚ)
    (hv1 : |v| ≤ 1) (ht1 : |t| ≤ 1) (h : v ≤ t) :
    |smoothStep round64 v t - (v + 0.05 * (t - v))| ≤ 1 / 2 ^ 52 := by
  obtain ⟨hi0, hi1⟩ := smoothIncrement_bounds v t h
  rw [abs_le] at hv1 ht1
  have hD : |t - v| ≤ (2 : ℚ) ^ (1 : ℤ) := by
    rw [abs_le]
    constructor <;> norm_num <;> linarith
  have e1 := round64_error (t - v) 1 (by norm_num) hD
  have hd2 : round64 (t - v) ≤ 2 := by
    have := round64_mono (t - v) 2 (by linarith)
    rwa [show round64 (2 : ℚ) = 2 from by simpa using round64_intCast 2 (by norm_num)] at this
  have hd0 : 0 ≤ round64 (t - v) := round64_nonneg _ (by linarith)
  have hP : |round64 (t - v) * round64 0.05| ≤ (2 : ℚ) ^ (-3 : ℤ) := by
    rw [round64_literal, abs_of_nonneg (by positivity)]
    norm_num
    linarith
  have e2 := round64_error (round64 (t - v) * round64 0.05) (-3) (by norm_num) hP
  have hS : |v + round64 (round64 (t - v) * round64 0.05)| ≤ (2 : ℚ) ^ (0 : ℤ) := by
    rw [abs_le]
    constructor <;> norm_num <;> linarith
  have e3 := round64_error (v + round64 (round64 (t - v) * round64 0.05)) 0 (by norm_num) hS
  unfold smoothStep
  rw [round64_literal] at e2 e3 hi0 hi1 ⊢
  rw [abs_le] at e1 e2 e3 ⊢
  norm_num at e1 e2 e3 ⊢
  constructor <;> linarith [e1.1, e1.2, e2.1, e2.2, e3.1, e3.2]

theorem smoothStep_error (v t : ℚ)
    (hv1 : |v| ≤ 1) (ht1 : |t| ≤ 1) :
    |smoothStep round64 v t - (v + 0.05 * (t - v))| ≤ 1 / 2 ^ 52 := by
  rcases le_total v t with h | h
  · exact smoothStep_error_of_le v t hv1 ht1 h
  · have := smoothStep_error_of_le (-v) (-t) (by rwa [abs_neg]) (by rwa [abs_neg])
      (by linarith)
    rw [smoothStep_neg] at this
    have e : -smoothStep round64 v t - (-v + 0.05 * (-t - -v))
        = -(smoothStep round64 v t - (v + 0.05 * (t - v))) := by ring
    rwa [e, abs_neg] at this

/-- The distance to the target after one rounded step is within `2 ^ -52` of
0.95 times the distance before it. -/
theorem smoothStep_dist_error (v t : ℚ) (hv1 : |v| ≤ 1) (ht1 : |t| ≤ 1) :
    abs (|t - smoothStep round64 v t| - 0.95 * |t - v|) ≤ 1 / 2 ^ 52 := by
  have h := smoothStep_error v t hv1 ht1
  have e : (0.95 : ℚ) * |t - v| = |0.95 * (t - v)| := by
    rw [abs_mul, abs_of_pos (by norm_num : (0 : ℚ) < 0.95)]
  rw [e]
  refine (abs_abs_sub_abs_le_abs_sub _ _).trans ?_
  have e2 : t - smoothStep round64 v t - 0.95 * (t - v)
      = -(smoothStep round64 v t - (v + 0.05 * (t - v))) := by ring
  rw [e2, abs_neg]
  exact h

end SmoothStepProofs

section Binary64Examples

/-- The update stalls short of the target 1 at `4503599627370491 / 2 ^ 52`. -/
theorem smoothStep_stall :
    smoothStep round64 (4503599627370491 / 2 ^ 52) 1 = 4503599627370491 / 2 ^ 52 := by
  have e1 : round64 ((1 : ℚ) - 4503599627370491 / 2 ^ 52) = 5 / 2 ^ 52 := by
    have h := round64_of_grid 5 (-52) (by norm_num) (by norm_num)
    have e : ((5 : ℤ) : ℚ) * 2 ^ (-52 : ℤ) = 1 - 4503599627370491 / 2 ^ 52 := by norm_num
    rw [e] at h
    rw [h]
    norm_num
  have e2 : round64 ((5 / 2 ^ 52 : ℚ) * (3602879701896397 / 2 ^ 56)) = 1 / 2 ^ 54 := by
    rw [round64_eval _ (-54) (by norm_num) (by norm_num) (by norm_num)]
    rw [roundHalfEven_of_floor _ 4503599627370496 (by rw [Int.floor_eq_iff]; norm_num)]
    norm_num
  have e3 : round64 ((4503599627370491 / 2 ^ 52 : ℚ) + 1 / 2 ^ 54)
      = 4503599627370491 / 2 ^ 52 := by
    rw [round64_eval _ (-1) (by norm_num) (by norm_num) (by norm_num)]
    rw [roundHalfEven_of_floor _ 9007199254740982 (by rw [Int.floor_eq_iff]; norm_num)]
    norm_num
  unfold smoothStep
  rw [round64_literal, e1, e2, e3]

theorem round64_three_tenths : round64 (0.3 : ℚ) = 5404319552844595 / 2 ^ 54 := by
  rw [round64_eval _ (-2) (by norm_num) (by norm_num) (by norm_num)]
  rw [roundHalfEven_of_floor _ 5404319552844595 (by rw [Int.floor_eq_iff]; norm_num)]
  norm_num

/-- One step from the binary64 value of `0.3` toward the target 1. -/
theorem smoothStep_three_tenths :
    smoothStep round64 (5404319552844595 / 2 ^ 54) 1 = 377176468792279 / 2 ^ 50 := by
  have e1 : round64 ((1 : ℚ) - 5404319552844595 / 2 ^ 54) = 3152519739159347 / 2 ^ 52 := by
    rw [round64_eval _ (-1) (by norm_num) (by norm_num) (by norm_num)]
    rw [roundHalfEven_of_floor _ 6305039478318694 (by rw [Int.floor_eq_iff]; norm_num)]
    norm_num
  have e2 : round64 ((3152519739159347 / 2 ^ 52 : ℚ) * (3602879701896397 / 2 ^ 56))
      = 5044031582654955 / 2 ^ 57 := by
    rw [round64_eval _ (-5) (by norm_num) (by norm_num) (by norm_num)]
    rw [roundHalfEven_of_floor _ 5044031582654955 (by rw [Int.floor_eq_iff]; norm_num)]
    norm_num
  have e3 : round64 ((5404319552844595 / 2 ^ 54 : ℚ) + 5044031582654955 / 2 ^ 57)
      = 377176468792279 / 2 ^ 50 := by
    rw [round64_eval _ (-2) (by norm_num) (by norm_num) (by norm_num)]
    rw [roundHalfEven_of_floor _ 6034823500676464 (by rw [Int.floor_eq_iff]; norm_num)]
    norm_num
  unfold smoothStep
  rw [round64_literal, e1, e2, e3]

/-- The largest draw below 1 gives radius exactly 50. -/
theorem particleRadius_top : particleRadius round64 (1 - 1 / 2 ^ 53) = 50 := by
  have e1 : round64 (((1 : ℚ) - 1 / 2 ^ 53) * 30) = 8444249301319679 / 2 ^ 48 := by
    rw [round64_eval _ 4 (by norm_num) (by norm_num) (by norm_num)]
    rw [roundHalfEven_of_floor _ 8444249301319679 (by rw [Int.floor_eq_iff]; norm_num)]
    norm_num
  have e2 : round64 ((20 : ℚ) + 8444249301319679 / 2 ^ 48) = 50 := by
    rw [round64_eval _ 5 (by norm_num) (by norm_num) (by norm_num)]
    rw [roundHalfEven_of_floor _ 7036874417766399 (by rw [Int.floor_eq_iff]; norm_num)]
    norm_num
  unfold particleRadius
  rw [e1, e2]

theorem particleRadius_bounds (u : ℚ) (h0 : 0 ≤ u) (h1 : u < 1) :
    20 ≤ particleRadius round64 u ∧ particleRadius round64 u ≤ 50 := by
  have r0 : round64 (0 : ℚ) = 0 := round64_zero
  have r20 : round64 (20 : ℚ) = 20 := by simpa using round64_intCast 20 (by norm_num)
  have r30 : round64 (30 : ℚ) = 30 := by simpa using round64_intCast 30 (by norm_num)
  have r50 : round64 (50 : ℚ) = 50 := by simpa using round64_intCast 50 (by norm_num)
  have a0 : 0 ≤ round64 (u * 30) := round64_nonneg _ (by linarith)
  have a1 : round64 (u * 30) ≤ 30 := by
    have := round64_mono (u * 30) 30 (by linarith)
    rwa [r30] at this
  unfold particleRadius
  constructor
  · have := round64_mono 20 (20 + round64 (u * 30)) (by linarith)
    rwa [r20] at this
  · have := round64_mono (20 + round64 (u * 30)) 50 (by linarith)
    rwa [r50] at this

end Binary64Examples

section ConnectionProofs
variable {α : Type} [LinearOrderedField α]

theorem innerLoop_eq (M : JSMath α) (count maxConn : Nat) (connDist : α) (posArr : List α)
    (i : Nat) : ∀ (k j : Nat) (acc : ConnAcc α), count - j = k →
      innerLoop M count maxConn connDist posArr i j acc =
        { linePositions := acc.linePositions ++ segmentsOf posArr
            ((rowNear M count connDist posArr i j).take (maxConn - acc.connectionCount))
          connectionCount := acc.connectionCount +
            ((rowNear M count connDist posArr i j).take
              (maxConn - acc.connectionCount)).length } := by
  intro k
  induction k with
  | zero =>
    intro j acc hk
    have hj : ¬ j < count := by omega
    rw [innerLoop]
    simp [hj, rowNear, hk, segmentsOf]
  | succ k ih =>
    intro j acc hk
    have hj : j < count := by omega
    have hrange : List.range' j (count - j) = j :: List.range' (j + 1) (count - (j + 1)) := by
      have : count - j = (count - (j + 1)) + 1 := by omega
      rw [this, List.range'_succ]
    rw [innerLoop]
    by_cases hc : acc.connectionCount < maxConn
    · simp only [hj, hc, and_self, if_true]
      obtain ⟨m, hm⟩ : ∃ m, maxConn - acc.connectionCount = m + 1 := ⟨maxConn - acc.connectionCount - 1, by omega⟩
      by_cases hd : pairDist M posArr i j < connDist
      · rw [if_pos hd, ih (j + 1) _ (by omega)]
        have hrow : rowNear M count connDist posArr i j
            = (i, j) :: rowNear M count connDist posArr i (j + 1) := by
          simp [rowNear, hrange, hd]
        have hm2 : maxConn - (acc.connectionCount + 1) = m := by omega
        simp only [hrow, hm, hm2, List.take_succ_cons, segmentsOf, List.flatMap_cons,
          List.length_cons, List.append_assoc]
        congr 1
        omega
      · rw [if_neg hd, ih (j + 1) _ (by omega)]
        have hrow : rowNear M count connDist posArr i j
            = rowNear M count connDist posArr i (j + 1) := by
          simp [rowNear, hrange, hd]
        rw [hrow]
    · have h0 : maxConn - acc.connectionCount = 0 := by omega
      simp [hc, h0, segmentsOf]

theorem segmentsOf_append (posArr : List α) (a b : List (Nat × Nat)) :
    segmentsOf posArr (a ++ b) = segmentsOf posArr a ++ segmentsOf posArr b := by
  simp [segmentsOf, List.flatMap_append]

theorem segmentsOf_length (posArr : List α) (ps : List (Nat × Nat)) :
    (segmentsOf posArr ps).length = 6 * ps.length := by
  induction ps with
  | nil => simp [segmentsOf]
  | cons p ps ih =>
    have : segmentsOf posArr (p :: ps) = segment posArr p.1 p.2 ++ segmentsOf posArr ps := by
      simp [segmentsOf, List.flatMap_cons]
    rw [this, List.length_append, ih]
    simp [segment]
    omega

theorem outerLoop_eq (M : JSMath α) (count maxConn : Nat) (connDist : α) (posArr : List α) :
    ∀ (k i : Nat) (acc : ConnAcc α), count - i = k →
      outerLoop M count maxConn connDist posArr i acc =
        { linePositions := acc.linePositions ++ segmentsOf posArr
            ((restNear M count connDist posArr i).take (maxConn - acc.connectionCount))
          connectionCount := acc.connectionCount +
            ((restNear M count connDist posArr i).take
              (maxConn - acc.connectionCount)).length } := by
  intro k
  induction k with
  | zero =>
    intro i acc hk
    have hi : ¬ i < count := by omega
    rw [outerLoop]
    simp [hi, restNear, hk, segmentsOf]
  | succ k ih =>
    intro i acc hk
    have hi : i < count := by omega
    have hrange : List.range' i (count - i) = i :: List.range' (i + 1) (count - (i + 1)) := by
      have : count - i = (count - (i + 1)) + 1 := by omega
      rw [this, List.range'_succ]
    have hrest : restNear M count connDist posArr i
        = rowNear M count connDist posArr i (i + 1) ++ restNear M count connDist posArr (i + 1) := by
      simp [restNear, hrange, List.flatMap_cons]
    rw [outerLoop]
    by_cases hc : acc.connectionCount < maxConn
    · simp only [hi, hc, and_self, if_true]
      rw [innerLoop_eq M count maxConn connDist posArr i _ (i + 1) acc rfl,
        ih (i + 1) _ (by omega), hrest, List.take_append_eq_append_take, segmentsOf_append]
      have hlen : maxConn - (acc.connectionCount +
            ((rowNear M count connDist posArr i (i + 1)).take
              (maxConn - acc.connectionCount)).length)
          = maxConn - acc.connectionCount
              - (rowNear M count connDist posArr i (i + 1)).length := by
        rw [List.length_take]
        omega
      simp only [hlen, List.append_assoc, List.length_append, Nat.add_assoc]
    · have h0 : maxConn - acc.connectionCount = 0 := by omega
      simp [hc, h0, segmentsOf]

theorem restNear_zero (M : JSMath α) (count : Nat) (connDist : α) (posArr : List α) :
    restNear M count connDist posArr 0
      = (allPairs count).filter fun p => decide (pairDist M posArr p.1 p.2 < connDist) := by
  simp [restNear, allPairs, rowNear, List.filter_flatMap, List.range_eq_range']

/-- The scan of `updateConnections` computes the specification's pair list. -/
theorem connectionScan_eq (M : JSMath α) (count maxConn : Nat) (connDist : α)
    (posArr : List α) :
    connectionScan M count maxConn connDist posArr =
      { linePositions := segmentsOf posArr (specConnections M count maxConn connDist posArr)
        connectionCount := (specConnections M count maxConn connDist posArr).length } := by
  rw [connectionScan, outerLoop_eq M count maxConn connDist posArr _ 0 _ rfl, restNear_zero]
  simp [specConnections]

theorem mem_allPairs (count : Nat) (p : Nat × Nat) :
    p ∈ allPairs count ↔ p.1 < p.2 ∧ p.2 < count := by
  obtain ⟨i, j⟩ := p
  simp only [allPairs, List.mem_flatMap, List.mem_range, List.mem_map, List.mem_range'_1,
    Prod.mk.injEq]
  constructor
  · rintro ⟨a, ha, b, ⟨hb1, hb2⟩, rfl, rfl⟩
    exact ⟨by omega, by omega⟩
  · rintro ⟨h1, h2⟩
    exact ⟨i, by omega, j, ⟨by omega, by omega⟩, rfl, rfl⟩

theorem allPairs_sorted (count : Nat) :
    (allPairs count).Pairwise fun p q => p.1 < q.1 ∨ (p.1 = q.1 ∧ p.2 < q.2) := by
  rw [allPairs, List.pairwise_flatMap]
  constructor
  · intro i _
    rw [List.pairwise_map]
    exact (List.pairwise_lt_range' (i + 1) (count - (i + 1))).imp fun h => Or.inr ⟨rfl, h⟩
  · refine (List.pairwise_lt_range count).imp ?_
    intro a b hab x hx y hy
    simp only [List.mem_map] at hx hy
    obtain ⟨_, _, rfl⟩ := hx
    obtain ⟨_, _, rfl⟩ := hy
    exact Or.inl hab

theorem mem_specConnections (M : JSMath α) (count maxConn : Nat) (connDist : α)
    (posArr : List α) (p : Nat × Nat)
    (hp : p ∈ specConnections M count maxConn connDist posArr) :
    p.1 < p.2 ∧ p.2 < count ∧ pairDist M posArr p.1 p.2 < connDist := by
  have h := List.mem_of_mem_take hp
  rw [List.mem_filter, mem_allPairs] at h
  exact ⟨h.1.1, h.1.2, by simpa using h.2⟩

/-- C1: for every position buffer and every viewport width (device tier), the
scan of `updateConnections` emits a coordinate list of length
`6 * connectionCount` with `connectionCount` at most the tier's cap, the cap
being 20 below width 480, 50 below width 768 and 150 otherwise. -/
theorem connectionScan_within_cap (M : JSMath α) (innerWidth : α) (count : Nat)
    (posArr : List α) :
    (connectionScan M count (MAX_CONNECTIONS innerWidth) (CONNECTION_DISTANCE innerWidth)
        posArr).linePositions.length
      = 6 * (connectionScan M count (MAX_CONNECTIONS innerWidth)
          (CONNECTION_DISTANCE innerWidth) posArr).connectionCount
    ∧ (connectionScan M count (MAX_CONNECTIONS innerWidth) (CONNECTION_DISTANCE innerWidth)
        posArr).connectionCount ≤ MAX_CONNECTIONS innerWidth
    ∧ MAX_CONNECTIONS innerWidth
      = (if innerWidth < 480 then 20 else if innerWidth < 768 then 50 else 150) := by
  rw [connectionScan_eq]
  refine ⟨segmentsOf_length _ _, ?_, ?_⟩
  · simp only [specConnections, List.length_take]
    exact Nat.min_le_left _ _
  · simp [MAX_CONNECTIONS, isSmallMobile, isMobileDevice]

/-- C3: the scan of `updateConnections` emits exactly the segments of the first
`maxConn` pairs of the list of all pairs `i < j < count` in lexicographic index
order filtered by `distance < connDist`; that list of all pairs is complete and
strictly increasing in index order; when no more than `maxConn` pairs pass the
test all of them are connected, and otherwise the `maxConn` earliest are. -/
theorem connectionScan_refines_spec (M : JSMath α) (count maxConn : Nat) (connDist : α)
    (posArr : List α) :
    connectionScan M count maxConn connDist posArr =
      { linePositions := segmentsOf posArr (specConnections M count maxConn connDist posArr)
        connectionCount := (specConnections M count maxConn connDist posArr).length }
    ∧ (∀ p : Nat × Nat, p ∈ allPairs count ↔ p.1 < p.2 ∧ p.2 < count)
    ∧ (allPairs count).Pairwise (fun p q => p.1 < q.1 ∨ (p.1 = q.1 ∧ p.2 < q.2))
    ∧ (((allPairs count).filter
          fun p => decide (pairDist M posArr p.1 p.2 < connDist)).length ≤ maxConn →
        specConnections M count maxConn connDist posArr
          = (allPairs count).filter fun p => decide (pairDist M posArr p.1 p.2 < connDist))
    ∧ (maxConn ≤ ((allPairs count).filter
          fun p => decide (pairDist M posArr p.1 p.2 < connDist)).length →
        (specConnections M count maxConn connDist posArr).length = maxConn
        ∧ specConnections M count maxConn connDist posArr
          <+: (allPairs count).filter
            fun p => decide (pairDist M posArr p.1 p.2 < connDist)) := by
  refine ⟨connectionScan_eq M count maxConn connDist posArr, mem_allPairs count,
    allPairs_sorted count, ?_, ?_⟩
  · intro h
    exact List.take_of_length_le h
  · intro h
    refine ⟨?_, List.take_prefix _ _⟩
    simp only [specConnections, List.length_take]
    exact Nat.min_eq_left h

end ConnectionProofs

section RealConnections

/-- C2: over the reals, the segments emitted by the scan of `updateConnections`
are those of a list of pairs `(i, j)` with `i < j < count`, each segment being
the current buffer positions of `i` and `j`, and the Euclidean distance of the
two positions is strictly below the tier threshold, which is 10 below width 480
and 8 otherwise. -/
theorem connectionScan_segments_near (innerWidth : ℝ) (count : Nat) (posArr : List ℝ) :
    (connectionScan realMath count (MAX_CONNECTIONS innerWidth)
        (CONNECTION_DISTANCE innerWidth) posArr).linePositions
      = (specConnections realMath count (MAX_CONNECTIONS innerWidth)
          (CONNECTION_DISTANCE innerWidth) posArr).flatMap
          (fun p => [(positionAt posArr p.1).x, (positionAt posArr p.1).y,
                     (positionAt posArr p.1).z, (positionAt posArr p.2).x,
                     (positionAt posArr p.2).y, (positionAt posArr p.2).z])
    ∧ (∀ p ∈ specConnections realMath count (MAX_CONNECTIONS innerWidth)
          (CONNECTION_DISTANCE innerWidth) posArr,
        p.1 < p.2 ∧ p.2 < count ∧
        Real.sqrt (((positionAt posArr p.1).x - (positionAt posArr p.2).x) ^ 2
          + ((positionAt posArr p.1).y - (positionAt posArr p.2).y) ^ 2
          + ((positionAt posArr p.1).z - (positionAt posArr p.2).z) ^ 2)
          < CONNECTION_DISTANCE innerWidth)
    ∧ CONNECTION_DISTANCE innerWidth = (if innerWidth < 480 then 10 else 8) := by
  refine ⟨?_, ?_, ?_⟩
  · rw [connectionScan_eq]
    rfl
  · intro p hp
    obtain ⟨h1, h2, h3⟩ := mem_specConnections _ _ _ _ _ p hp
    refine ⟨h1, h2, ?_⟩
    have : pairDist realMath posArr p.1 p.2
        = Real.sqrt (((positionAt posArr p.1).x - (positionAt posArr p.2).x) ^ 2
          + ((positionAt posArr p.1).y - (positionAt posArr p.2).y) ^ 2
          + ((positionAt posArr p.1).z - (positionAt posArr p.2).z) ^ 2) := by
      simp only [pairDist, realMath, positionAt, sq]
    rw [← this]
    exact h3
  · simp [CONNECTION_DISTANCE, isSmallMobile]

/-- C3 at a concrete input: three particles on a line at distance 1 from each
other, threshold 8, cap 1. All three pairs are near, and the only segment is
that of the first pair in index order, (0, 1); the pair (1, 2), equally near,
is not connected. -/
theorem connectionScan_refines_spec_witness :
    (connectionScan realMath 3 1 8 [0, 0, 0, 1, 0, 0, 2, 0, 0]).linePositions
      = [0, 0, 0, 1, 0, 0]
    ∧ (connectionScan realMath 3 1 8 [0, 0, 0, 1, 0, 0, 2, 0, 0]).connectionCount = 1
    ∧ pairDist realMath [0, 0, 0, 1, 0, 0, 2, 0, 0] 1 2 < 8 := by
  have hall : allPairs 3 = [(0, 1), (0, 2), (1, 2)] := by decide
  have hnear : pairDist realMath [0, 0, 0, 1, 0, 0, 2, 0, 0] 0 1 < 8 := by
    simp [pairDist, rd, realMath]
  have hnear2 : pairDist realMath [0, 0, 0, 1, 0, 0, 2, 0, 0] 1 2 < 8 := by
    have h1 : ((1 : ℝ) - 2) * (1 - 2) = 1 := by norm_num
    simp [pairDist, rd, realMath, h1]
  have hspec : specConnections realMath 3 1 8 [0, 0, 0, 1, 0, 0, 2, 0, 0] = [(0, 1)] := by
    simp only [specConnections, hall, List.filter_cons, hnear, decide_True, if_true,
      List.take_succ_cons, List.take_zero]
  rw [(connectionScan_refines_spec realMath 3 1 8 [0, 0, 0, 1, 0, 0, 2, 0, 0]).1, hspec]
  refine ⟨?_, ?_, hnear2⟩
  · simp [segmentsOf, segment, rd]
  · simp

end RealConnections

section BufferProofs
variable {α : Type} [LinearOrderedField α]

theorem rd_set (l : List α) (k j : Nat) (v : α) :
    rd (l.set k v) j = if k = j ∧ k < l.length then v else rd l j := by
  simp only [rd, List.getD_eq_getElem?_getD, List.getElem?_set]
  by_cases h : k = j
  · subst h
    by_cases hk : k < l.length
    · simp [hk]
    · simp [hk, List.getElem?_eq_none (Nat.le_of_not_lt hk)]
  · simp [h]

theorem rd_set3_other (l : List α) (i k : Nat) (x y z : α) (h : k < i * 3 ∨ i * 3 + 2 < k) :
    rd (((l.set (i * 3) x).set (i * 3 + 1) y).set (i * 3 + 2) z) k = rd l k := by
  rw [rd_set, rd_set, rd_set, if_neg (by omega), if_neg (by omega), if_neg (by omega)]

theorem rd_set3_same (l : List α) (i : Nat) (x y z : α) (h : i * 3 + 2 < l.length) :
    rd (((l.set (i * 3) x).set (i * 3 + 1) y).set (i * 3 + 2) z) (i * 3) = x
    ∧ rd (((l.set (i * 3) x).set (i * 3 + 1) y).set (i * 3 + 2) z) (i * 3 + 1) = y
    ∧ rd (((l.set (i * 3) x).set (i * 3 + 1) y).set (i * 3 + 2) z) (i * 3 + 2) = z := by
  refine ⟨?_, ?_, ?_⟩
  · rw [rd_set, rd_set, rd_set, if_neg (by omega), if_neg (by omega), if_pos ⟨rfl, by omega⟩]
  · rw [rd_set, rd_set, if_neg (by omega), if_pos ⟨rfl, by simp; omega⟩]
  · rw [rd_set, if_pos ⟨rfl, by simp; omega⟩]

theorem colorAt_set3_same (l : List α) (i : Nat) (c : Color α) (h : i * 3 + 2 < l.length) :
    colorAt (((l.set (i * 3) c.r).set (i * 3 + 1) c.g).set (i * 3 + 2) c.b) i = c := by
  obtain ⟨h1, h2, h3⟩ := rd_set3_same l i c.r c.g c.b h
  simp only [colorAt, h1, h2, h3]

theorem colorAt_set3_other (l : List α) (i j : Nat) (x y z : α) (h : i ≠ j) :
    colorAt (((l.set (j * 3) x).set (j * 3 + 1) y).set (j * 3 + 2) z) i = colorAt l i := by
  simp only [colorAt]
  rw [rd_set3_other l j _ x y z (by omega), rd_set3_other l j _ x y z (by omega),
    rd_set3_other l j _ x y z (by omega)]

theorem positionAt_set3_same (l : List α) (i : Nat) (v : Vec3 α) (h : i * 3 + 2 < l.length) :
    positionAt (((l.set (i * 3) v.x).set (i * 3 + 1) v.y).set (i * 3 + 2) v.z) i = v := by
  obtain ⟨h1, h2, h3⟩ := rd_set3_same l i v.x v.y v.z h
  simp only [positionAt, h1, h2, h3]

theorem positionAt_set3_other (l : List α) (i j : Nat) (x y z : α) (h : i ≠ j) :
    positionAt (((l.set (j * 3) x).set (j * 3 + 1) y).set (j * 3 + 2) z) i
      = positionAt l i := by
  simp only [positionAt]
  rw [rd_set3_other l j _ x y z (by omega), rd_set3_other l j _ x y z (by omega),
    rd_set3_other l j _ x y z (by omega)]

theorem accent_accentSlot (palette : ThemeColors α) (u : α) :
    (if u < 0.4 then palette.particle1
      else if u < 0.75 then palette.particle2 else palette.particle3)
      = palette.accent (accentSlot u) := by
  unfold ThemeColors.accent accentSlot
  split_ifs <;> simp_all

/-- What the initialisation loop has written after its first `n` iterations. -/
theorem initParticles_loop (M : JSMath α) (rand : Nat → α) (palette : ThemeColors α)
    (count : Nat) : ∀ n : Nat, n ≤ count →
      ((List.range n).foldl (initParticle M rand palette) (emptyBuffers count)).draws = 8 * n
      ∧ ((List.range n).foldl (initParticle M rand palette)
          (emptyBuffers count)).positions.length = count * 3
      ∧ ((List.range n).foldl (initParticle M rand palette)
          (emptyBuffers count)).colors.length = count * 3
      ∧ ((List.range n).foldl (initParticle M rand palette)
          (emptyBuffers count)).sizes.length = count
      ∧ ((List.range n).foldl (initParticle M rand palette)
          (emptyBuffers count)).velocities.length = n
      ∧ ∀ i < n,
        positionAt ((List.range n).foldl (initParticle M rand palette)
            (emptyBuffers count)).positions i
          = particlePosition M (rand (8 * i)) (rand (8 * i + 1)) (rand (8 * i + 2))
        ∧ colorAt ((List.range n).foldl (initParticle M rand palette)
            (emptyBuffers count)).colors i
          = palette.accent (accentSlot (rand (8 * i + 3))) := by
  intro n
  induction n with
  | zero =>
    intro _
    simp [emptyBuffers]
  | succ n ih =>
    intro hn
    obtain ⟨hd, hp, hc, hs, hv, hall⟩ := ih (by omega)
    rw [List.range_succ, List.foldl_append]
    simp only [List.foldl_cons, List.foldl_nil]
    generalize (List.range n).foldl (initParticle M rand palette) (emptyBuffers count) = st
      at hd hp hc hs hv hall
    refine ⟨?_, ?_, ?_, ?_, ?_, ?_⟩
    · simp only [initParticle, hd]; omega
    · simp only [initParticle, List.length_set, hp]
    · simp only [initParticle, List.length_set, hc]
    · simp only [initParticle, List.length_set, hs]
    · simp only [initParticle, List.length_append, hv, List.length_singleton]
    · intro i hi
      by_cases hin : i = n
      · subst hin
        constructor
        · simp only [initParticle, hd]
          exact positionAt_set3_same _ _ _ (by omega)
        · simp only [initParticle, hd, accent_accentSlot]
          exact colorAt_set3_same _ _ _ (by omega)
      · obtain ⟨h1, h2⟩ := hall i (by omega)
        constructor
        · simp only [initParticle]
          rw [positionAt_set3_other _ _ _ _ _ _ hin, h1]
        · simp only [initParticle]
          rw [colorAt_set3_other _ _ _ _ _ _ hin, h2]

end BufferProofs

section FrameProofs
variable {α : Type} [LinearOrderedField α]

theorem updateConnections_views (M : JSMath α) (s : Scene α) :
    (updateConnections M s).tierView = s.tierView
    ∧ (updateConnections M s).colorView = s.colorView
    ∧ (updateConnections M s).colorNeedsUpdate = s.colorNeedsUpdate
    ∧ (updateConnections M s).positions = s.positions
    ∧ (updateConnections M s).mouse = s.mouse := by
  unfold updateConnections
  dsimp only
  split_ifs <;> exact ⟨rfl, rfl, rfl, rfl, rfl⟩

omit [LinearOrderedField α] in
theorem modifyMesh_views (s : Scene α) (id : MeshId) (f : Mesh α → Mesh α)
    (hf : ∀ m, (f m).materialColor = m.materialColor) :
    (s.modifyMesh id f).tierView = s.tierView
    ∧ (s.modifyMesh id f).colorView = s.colorView
    ∧ (s.modifyMesh id f).colorNeedsUpdate = s.colorNeedsUpdate
    ∧ (s.modifyMesh id f).positions = s.positions
    ∧ (s.modifyMesh id f).mouse = s.mouse := by
  cases id <;> simp only [Scene.modifyMesh, Scene.tierView, Scene.colorView, hf, and_self]
  cases s.torusKnot <;> simp [hf]

theorem animateGeometry_views (M : JSMath α) (time : α) (mouse : Mouse α) (s : Scene α)
    (g : FloatingGeometry α) :
    (animateGeometry M time mouse s g).tierView = s.tierView
    ∧ (animateGeometry M time mouse s g).colorView = s.colorView
    ∧ (animateGeometry M time mouse s g).colorNeedsUpdate = s.colorNeedsUpdate
    ∧ (animateGeometry M time mouse s g).positions = s.positions
    ∧ (animateGeometry M time mouse s g).mouse = s.mouse :=
  modifyMesh_views s g.mesh _ (fun _ => rfl)

theorem foldl_animateGeometry_views (M : JSMath α) (time : α) (mouse : Mouse α)
    (gs : List (FloatingGeometry α)) : ∀ s : Scene α,
    (gs.foldl (animateGeometry M time mouse) s).tierView = s.tierView
    ∧ (gs.foldl (animateGeometry M time mouse) s).colorView = s.colorView
    ∧ (gs.foldl (animateGeometry M time mouse) s).colorNeedsUpdate = s.colorNeedsUpdate
    ∧ (gs.foldl (animateGeometry M time mouse) s).positions = s.positions
    ∧ (gs.foldl (animateGeometry M time mouse) s).mouse = s.mouse := by
  induction gs with
  | nil => intro s; exact ⟨rfl, rfl, rfl, rfl, rfl⟩
  | cons g gs ih =>
    intro s
    obtain ⟨h1, h2, h3, h4, h5⟩ := ih (animateGeometry M time mouse s g)
    obtain ⟨k1, k2, k3, k4, k5⟩ := animateGeometry_views M time mouse s g
    simp only [List.foldl_cons]
    exact ⟨h1.trans k1, h2.trans k2, h3.trans k3, h4.trans k4, h5.trans k5⟩

theorem foldl_animateParticle_length (M : JSMath α) (time : α) (mouse : Mouse α)
    (velocities : List (Velocity α)) (is : List Nat) : ∀ posArr : List α,
    (is.foldl (animateParticle M time mouse velocities) posArr).length = posArr.length := by
  induction is with
  | nil => intro posArr; rfl
  | cons i is ih =>
    intro posArr
    simp only [List.foldl_cons, ih, animateParticle, List.length_set]

theorem animateBody_views (M : JSMath α) (s : Scene α) :
    (animateBody M s).tierView = s.tierView
    ∧ (animateBody M s).colorView = s.colorView
    ∧ (animateBody M s).colorNeedsUpdate = s.colorNeedsUpdate
    ∧ (animateBody M s).positions.length = s.positions.length
    ∧ (animateBody M s).mouse = smoothMouse M.fl s.mouse := by
  unfold animateBody
  dsimp only
  refine ⟨(foldl_animateGeometry_views _ _ _ _ _).1.trans rfl,
    (foldl_animateGeometry_views _ _ _ _ _).2.1.trans rfl,
    (foldl_animateGeometry_views _ _ _ _ _).2.2.1.trans rfl, ?_,
    (foldl_animateGeometry_views _ _ _ _ _).2.2.2.2.trans rfl⟩
  rw [(foldl_animateGeometry_views _ _ _ _ _).2.2.2.1]
  exact foldl_animateParticle_length _ _ _ _ _ _

/-- A frame update writes no colour and none of the tier constants, keeps the
length of the position array, and moves the smoothed pointer by the fixed
ratio. -/
theorem animate_views (M : JSMath α) (s : Scene α) :
    (animate M s).tierView = s.tierView
    ∧ (animate M s).colorView = s.colorView
    ∧ (animate M s).colorNeedsUpdate = s.colorNeedsUpdate
    ∧ (animate M s).positions.length = s.positions.length
    ∧ (animate M s).mouse = smoothMouse M.fl s.mouse := by
  have hb := animateBody_views M s
  have hu := updateConnections_views M (animateBody M s)
  have hboth : (updateConnections M (animateBody M s)).tierView = s.tierView
      ∧ (updateConnections M (animateBody M s)).colorView = s.colorView
      ∧ (updateConnections M (animateBody M s)).colorNeedsUpdate = s.colorNeedsUpdate
      ∧ (updateConnections M (animateBody M s)).positions.length = s.positions.length
      ∧ (updateConnections M (animateBody M s)).mouse = smoothMouse M.fl s.mouse :=
    ⟨hu.1.trans hb.1, hu.2.1.trans hb.2.1, hu.2.2.1.trans hb.2.2.1,
      by rw [hu.2.2.2.1]; exact hb.2.2.2.1, hu.2.2.2.2.trans hb.2.2.2.2⟩
  unfold animate
  dsimp only
  split_ifs
  all_goals first | exact hb | exact hboth

theorem initScene_tierView (M : JSMath α) (innerWidth devicePixelRatio : α)
    (dataTheme : Option String) (rand : Nat → α) :
    (initScene M innerWidth devicePixelRatio dataTheme rand).tierView
      = (isMobileDevice innerWidth, isSmallMobile innerWidth, PARTICLE_COUNT innerWidth,
          MAX_CONNECTIONS innerWidth, CONNECTION_DISTANCE innerWidth,
          (initScene M innerWidth devicePixelRatio dataTheme rand).geometries,
          !isSmallMobile innerWidth,
          (initParticles M rand (getThemeColors dataTheme) (PARTICLE_COUNT innerWidth)).velocities,
          (initParticles M rand (getThemeColors dataTheme) (PARTICLE_COUNT innerWidth)).sizes)
    ∧ (initScene M innerWidth devicePixelRatio dataTheme rand).geometries.map (fun g => g.mesh)
      = (if isSmallMobile innerWidth
          then [MeshId.icosahedron, MeshId.torus, MeshId.octahedron, MeshId.dodecahedron]
          else [MeshId.icosahedron, MeshId.torus, MeshId.octahedron, MeshId.dodecahedron,
            MeshId.torusKnot])
    ∧ (initScene M innerWidth devicePixelRatio dataTheme rand).positions
      = (initParticles M rand (getThemeColors dataTheme) (PARTICLE_COUNT innerWidth)).positions
    ∧ (initScene M innerWidth devicePixelRatio dataTheme rand).colors
      = (initParticles M rand (getThemeColors dataTheme) (PARTICLE_COUNT innerWidth)).colors := by
  obtain ⟨h1, h2, _, h4, _⟩ :=
    updateConnections_views M (buildScene M innerWidth devicePixelRatio dataTheme rand)
  have hg : (initScene M innerWidth devicePixelRatio dataTheme rand).geometries
      = (buildScene M innerWidth devicePixelRatio dataTheme rand).geometries := by
    have := h1
    simp only [Scene.tierView, Prod.mk.injEq] at this
    exact this.2.2.2.2.2.1
  refine ⟨?_, ?_, ?_, ?_⟩
  · rw [hg]
    refine h1.trans ?_
    simp only [Scene.tierView, buildScene, Prod.mk.injEq, true_and]
    cases isSmallMobile innerWidth <;> simp
  · rw [hg]
    simp only [buildScene]
    cases isSmallMobile innerWidth <;> simp
  · exact h4
  · have := h2
    simp only [Scene.colorView, Prod.mk.injEq] at this
    exact this.1

/-- C4: for every viewport width the scene the script builds has, below width
480, 150 particles, a connection cap of 20 and four wireframe solids without
torus knot; from 480 to below 768, 300 particles, cap 50 and five solids; from
768 on, 800 particles, cap 150 and five solids; its buffers hold three
coordinates and three colour channels per particle; width 1024 yields
(800, 150, 5) and width 320 yields (150, 20, 4). -/
theorem loadScene_tier_configuration (M : JSMath α) (innerWidth devicePixelRatio : α)
    (dataTheme : Option String) (rand : Nat → α) :
    (innerWidth < 480 →
      (loadScene M innerWidth devicePixelRatio dataTheme rand).tierSummary = (150, 20, 4)
      ∧ (loadScene M innerWidth devicePixelRatio dataTheme rand).torusKnot = none
      ∧ (loadScene M innerWidth devicePixelRatio dataTheme rand).geometries.map (fun g => g.mesh)
        = [MeshId.icosahedron, MeshId.torus, MeshId.octahedron, MeshId.dodecahedron])
    ∧ (480 ≤ innerWidth ∧ innerWidth < 768 →
      (loadScene M innerWidth devicePixelRatio dataTheme rand).tierSummary = (300, 50, 5)
      ∧ (loadScene M innerWidth devicePixelRatio dataTheme rand).torusKnot.isSome = true
      ∧ (loadScene M innerWidth devicePixelRatio dataTheme rand).geometries.map (fun g => g.mesh)
        = [MeshId.icosahedron, MeshId.torus, MeshId.octahedron, MeshId.dodecahedron,
            MeshId.torusKnot])
    ∧ (768 ≤ innerWidth →
      (loadScene M innerWidth devicePixelRatio dataTheme rand).tierSummary = (800, 150, 5)
      ∧ (loadScene M innerWidth devicePixelRatio dataTheme rand).torusKnot.isSome = true
      ∧ (loadScene M innerWidth devicePixelRatio dataTheme rand).geometries.map (fun g => g.mesh)
        = [MeshId.icosahedron, MeshId.torus, MeshId.octahedron, MeshId.dodecahedron,
            MeshId.torusKnot])
    ∧ (loadScene M innerWidth devicePixelRatio dataTheme rand).positions.length
        = (loadScene M innerWidth devicePixelRatio dataTheme rand).PARTICLE_COUNT * 3
    ∧ (loadScene M innerWidth devicePixelRatio dataTheme rand).colors.length
        = (loadScene M innerWidth devicePixelRatio dataTheme rand).PARTICLE_COUNT * 3
    ∧ (loadScene M innerWidth devicePixelRatio dataTheme rand).velocities.length
        = (loadScene M innerWidth devicePixelRatio dataTheme rand).PARTICLE_COUNT
    ∧ (loadScene M 1024 devicePixelRatio dataTheme rand).tierSummary = (800, 150, 5)
    ∧ (loadScene M 320 devicePixelRatio dataTheme rand).tierSummary = (150, 20, 4) := by
  have key : ∀ w : α,
      (loadScene M w devicePixelRatio dataTheme rand).tierSummary
        = (PARTICLE_COUNT w, MAX_CONNECTIONS w, if isSmallMobile w then 4 else 5)
      ∧ (loadScene M w devicePixelRatio dataTheme rand).torusKnot.isSome = !isSmallMobile w
      ∧ (loadScene M w devicePixelRatio dataTheme rand).geometries.map (fun g => g.mesh)
        = (if isSmallMobile w
          then [MeshId.icosahedron, MeshId.torus, MeshId.octahedron, MeshId.dodecahedron]
          else [MeshId.icosahedron, MeshId.torus, MeshId.octahedron, MeshId.dodecahedron,
            MeshId.torusKnot])
      ∧ (loadScene M w devicePixelRatio dataTheme rand).positions.length
        = (loadScene M w devicePixelRatio dataTheme rand).PARTICLE_COUNT * 3
      ∧ (loadScene M w devicePixelRatio dataTheme rand).colors.length
        = (loadScene M w devicePixelRatio dataTheme rand).PARTICLE_COUNT * 3
      ∧ (loadScene M w devicePixelRatio dataTheme rand).velocities.length
        = (loadScene M w devicePixelRatio dataTheme rand).PARTICLE_COUNT := by
    intro w
    obtain ⟨a1, a2, _, a4, _⟩ := animate_views M (initScene M w devicePixelRatio dataTheme rand)
    obtain ⟨i1, i2, i3, i4⟩ := initScene_tierView M w devicePixelRatio dataTheme rand
    obtain ⟨_, lp, lc, _, lv, _⟩ := initParticles_loop M rand (getThemeColors dataTheme)
      (PARTICLE_COUNT w) (PARTICLE_COUNT w) le_rfl
    rw [i1] at a1
    simp only [Scene.tierView, Prod.mk.injEq] at a1
    simp only [Scene.colorView, Prod.mk.injEq] at a2
    obtain ⟨_, _, b3, b4, _, b6, b7, b8, _⟩ := a1
    have hgeo : (loadScene M w devicePixelRatio dataTheme rand).geometries.map (fun g => g.mesh)
        = (if isSmallMobile w
          then [MeshId.icosahedron, MeshId.torus, MeshId.octahedron, MeshId.dodecahedron]
          else [MeshId.icosahedron, MeshId.torus, MeshId.octahedron, MeshId.dodecahedron,
            MeshId.torusKnot]) := by
      rw [← i2]
      exact congrArg _ b6
    refine ⟨?_, b7, hgeo, ?_, ?_, ?_⟩
    · have hlen := congrArg List.length hgeo
      rw [List.length_map] at hlen
      simp only [Scene.tierSummary, loadScene, b3, b4, Prod.mk.injEq, true_and]
      rw [show (animate M (initScene M w devicePixelRatio dataTheme rand)).geometries.length
        = _ from hlen]
      cases isSmallMobile w <;> simp
    · simp only [loadScene, b3, a4, i3]
      exact lp
    · simp only [loadScene, b3, a2.1, i4]
      exact lc
    · simp only [loadScene, b3, b8, initParticles]
      exact lv
  have hsmall : ∀ w : α, w < 480 → isSmallMobile w = true ∧ PARTICLE_COUNT w = 150
      ∧ MAX_CONNECTIONS w = 20 := by
    intro w hw
    simp [isSmallMobile, PARTICLE_COUNT, MAX_CONNECTIONS, hw]
  have hmid : ∀ w : α, 480 ≤ w → w < 768 → isSmallMobile w = false ∧ PARTICLE_COUNT w = 300
      ∧ MAX_CONNECTIONS w = 50 := by
    intro w h1 h2
    simp [isSmallMobile, isMobileDevice, PARTICLE_COUNT, MAX_CONNECTIONS, h1, h2, not_lt.mpr h1]
  have hbig : ∀ w : α, 768 ≤ w → isSmallMobile w = false ∧ PARTICLE_COUNT w = 800
      ∧ MAX_CONNECTIONS w = 150 := by
    intro w h1
    have h2 : ¬ w < 768 := not_lt.mpr h1
    have h3 : ¬ w < 480 := fun h => h2 (lt_trans h (by norm_num))
    simp [isSmallMobile, isMobileDevice, PARTICLE_COUNT, MAX_CONNECTIONS, h2, h3]
  refine ⟨?_, ?_, ?_, (key innerWidth).2.2.2.1, (key innerWidth).2.2.2.2.1,
    (key innerWidth).2.2.2.2.2, ?_, ?_⟩
  · intro hw
    obtain ⟨k1, k2, k3, _⟩ := key innerWidth
    obtain ⟨s1, s2, s3⟩ := hsmall innerWidth hw
    rw [s1] at k1 k2 k3
    rw [s2, s3] at k1
    exact ⟨by simpa using k1, by simpa using k2, by simpa using k3⟩
  · rintro ⟨h1, h2⟩
    obtain ⟨k1, k2, k3, _⟩ := key innerWidth
    obtain ⟨s1, s2, s3⟩ := hmid innerWidth h1 h2
    rw [s1] at k1 k2 k3
    rw [s2, s3] at k1
    exact ⟨by simpa using k1, by simpa using k2, by simpa using k3⟩
  · intro h1
    obtain ⟨k1, k2, k3, _⟩ := key innerWidth
    obtain ⟨s1, s2, s3⟩ := hbig innerWidth h1
    rw [s1] at k1 k2 k3
    rw [s2, s3] at k1
    exact ⟨by simpa using k1, by simpa using k2, by simpa using k3⟩
  · obtain ⟨k1, _⟩ := key 1024
    obtain ⟨s1, s2, s3⟩ := hbig 1024 (by norm_num)
    rw [s1, s2, s3] at k1
    simpa using k1
  · obtain ⟨k1, _⟩ := key 320
    obtain ⟨s1, s2, s3⟩ := hsmall 320 (by norm_num)
    rw [s1, s2, s3] at k1
    simpa using k1

end FrameProofs

section PointerProofs

theorem iterate_animate_mouse {α : Type} [LinearOrderedField α] (M : JSMath α) (s : Scene α)
    (n : Nat) :
    ((animate M)^[n] s).mouse
      = { x := (fun u => smoothStep M.fl u s.mouse.targetX)^[n] s.mouse.x
          y := (fun u => smoothStep M.fl u s.mouse.targetY)^[n] s.mouse.y
          targetX := s.mouse.targetX
          targetY := s.mouse.targetY } := by
  induction n with
  | zero => rfl
  | succ n ih =>
    rw [Function.iterate_succ_apply', Function.iterate_succ_apply',
      Function.iterate_succ_apply', (animate_views M _).2.2.2.2, ih]
    rfl

/-- Held-target iterates of the rounded step stay binary64 values in `[-1, 1]`. -/
theorem smoothStep_iterate_range (v t : ℚ) (hv : round64 v = v) (ht : round64 t = t)
    (hv1 : |v| ≤ 1) (ht1 : |t| ≤ 1) (n : Nat) :
    round64 ((fun u => smoothStep round64 u t)^[n] v) = (fun u => smoothStep round64 u t)^[n] v
    ∧ |(fun u => smoothStep round64 u t)^[n] v| ≤ 1 := by
  induction n with
  | zero => exact ⟨hv, hv1⟩
  | succ n ih =>
    rw [Function.iterate_succ_apply']
    exact ⟨smoothStep_round64 _ _, smoothStep_abs_le_one _ _ ih.1 ht ih.2 ht1⟩

/-- Above the rounding floor `5 / 2 ^ 50` a step strictly reduces the distance. -/
theorem smoothStep_dist_lt_of_far (v t : ℚ) (hv1 : |v| ≤ 1) (ht1 : |t| ≤ 1)
    (h : 5 / 2 ^ 50 < |t - v|) : |t - smoothStep round64 v t| < |t - v| := by
  have e := smoothStep_dist_error v t hv1 ht1
  rw [abs_le] at e
  norm_num at e h ⊢
  linarith [e.2]

theorem normalized64_iterate (M : JSMath ℚ) (s : Scene ℚ) (n : Nat) (hM : M.fl = round64)
    (hs : s.mouse.Normalized64) : ((animate M)^[n] s).mouse.Normalized64 := by
  obtain ⟨hx, hy, htx, hty, bx, byy, btx, bty⟩ := hs
  rw [iterate_animate_mouse, hM]
  have rx := smoothStep_iterate_range _ _ hx htx bx btx n
  have ry := smoothStep_iterate_range _ _ hy hty byy bty n
  exact ⟨rx.1, ry.1, htx, hty, rx.2, ry.2, btx, bty⟩

/-- C5, as stated, fails.  With the target held at 1 and the smoothed value at
the binary64 value `4503599627370491 / 2 ^ 52` (five spacings below 1), the
binary64 update of line 383 returns the same value: the distance to the target
does not decrease although the target is not reached.  The same happens in the
state the script starts in, where the smoothed value equals the target. -/
theorem pointer_smoothing_stall_counterexample :
    round64 (4503599627370491 / 2 ^ 52) = 4503599627370491 / 2 ^ 52
    ∧ round64 1 = 1
    ∧ (smoothMouse round64
        { x := 4503599627370491 / 2 ^ 52, y := 0, targetX := 1, targetY := 0 }).x
      = 4503599627370491 / 2 ^ 52
    ∧ ¬ (|(1 : ℚ) - (smoothMouse round64
          { x := 4503599627370491 / 2 ^ 52, y := 0, targetX := 1, targetY := 0 }).x|
        < |(1 : ℚ) - 4503599627370491 / 2 ^ 52|)
    ∧ ¬ (|(initialMouse : Mouse ℚ).targetX - (smoothMouse round64 (initialMouse : Mouse ℚ)).x|
        < |(initialMouse : Mouse ℚ).targetX - (initialMouse : Mouse ℚ).x|) := by
  have hgrid : round64 (4503599627370491 / 2 ^ 52) = 4503599627370491 / 2 ^ 52 := by
    have h := round64_of_grid 4503599627370491 (-52) (by norm_num) (by norm_num)
    have e : ((4503599627370491 : ℤ) : ℚ) * 2 ^ (-52 : ℤ) = 4503599627370491 / 2 ^ 52 := by
      norm_num
    rwa [e] at h
  have hone : round64 (1 : ℚ) = 1 := by simpa using round64_intCast 1 (by norm_num)
  have hstall : (smoothMouse round64
        { x := 4503599627370491 / 2 ^ 52, y := 0, targetX := 1, targetY := 0 }).x
      = 4503599627370491 / 2 ^ 52 := smoothStep_stall
  have hzero : (smoothMouse round64 (initialMouse : Mouse ℚ)).x = 0 := by
    show smoothStep round64 0 0 = 0
    unfold smoothStep
    simp [round64_zero]
  refine ⟨hgrid, hone, hstall, ?_, ?_⟩
  · rw [hstall]
    exact lt_irrefl _
  · rw [hzero]
    simp [initialMouse]

/-- C5, amended: with a binary64 host, a pointer state of binary64 values in
`[-1, 1]` and the target held, frame `n + 1` keeps the target, leaves the
pointer state in that range, and on each axis its distance to the target is
not larger than after frame `n`; the distance is strictly smaller whenever the
frame changes the smoothed value, and in particular whenever the distance
before the frame exceeds `5 / 2 ^ 50`. -/
theorem pointer_smoothing_monotone (M : JSMath ℚ) (s : Scene ℚ) (n : Nat)
    (hM : M.fl = round64) (hs : s.mouse.Normalized64) :
    ((animate M)^[n + 1] s).mouse.targetX = s.mouse.targetX
    ∧ ((animate M)^[n + 1] s).mouse.targetY = s.mouse.targetY
    ∧ ((animate M)^[n + 1] s).mouse.Normalized64
    ∧ |s.mouse.targetX - ((animate M)^[n + 1] s).mouse.x|
        ≤ |s.mouse.targetX - ((animate M)^[n] s).mouse.x|
    ∧ |s.mouse.targetY - ((animate M)^[n + 1] s).mouse.y|
        ≤ |s.mouse.targetY - ((animate M)^[n] s).mouse.y|
    ∧ (((animate M)^[n + 1] s).mouse.x ≠ ((animate M)^[n] s).mouse.x →
        |s.mouse.targetX - ((animate M)^[n + 1] s).mouse.x|
          < |s.mouse.targetX - ((animate M)^[n] s).mouse.x|)
    ∧ (((animate M)^[n + 1] s).mouse.y ≠ ((animate M)^[n] s).mouse.y →
        |s.mouse.targetY - ((animate M)^[n + 1] s).mouse.y|
          < |s.mouse.targetY - ((animate M)^[n] s).mouse.y|)
    ∧ (5 / 2 ^ 50 < |s.mouse.targetX - ((animate M)^[n] s).mouse.x| →
        |s.mouse.targetX - ((animate M)^[n + 1] s).mouse.x|
          < |s.mouse.targetX - ((animate M)^[n] s).mouse.x|)
    ∧ (5 / 2 ^ 50 < |s.mouse.targetY - ((animate M)^[n] s).mouse.y| →
        |s.mouse.targetY - ((animate M)^[n + 1] s).mouse.y|
          < |s.mouse.targetY - ((animate M)^[n] s).mouse.y|) := by
  have hnext := normalized64_iterate M s (n + 1) hM hs
  obtain ⟨hx, hy, htx, hty, bx, byy, btx, bty⟩ := hs
  have rx := smoothStep_iterate_range _ _ hx htx bx btx n
  have ry := smoothStep_iterate_range _ _ hy hty byy bty n
  have e1 := iterate_animate_mouse M s (n + 1)
  have e0 := iterate_animate_mouse M s n
  rw [hM] at e1 e0
  refine ⟨by rw [e1], by rw [e1], hnext, ?_, ?_, ?_, ?_, ?_, ?_⟩
  all_goals rw [e1, e0]
  all_goals simp only [Function.iterate_succ_apply']
  · exact smoothStep_dist_le _ _ rx.1 htx
  · exact smoothStep_dist_le _ _ ry.1 hty
  · exact smoothStep_dist_lt _ _ rx.1 htx
  · exact smoothStep_dist_lt _ _ ry.1 hty
  · exact smoothStep_dist_lt_of_far _ _ rx.2 btx
  · exact smoothStep_dist_lt_of_far _ _ ry.2 bty

/-- C5, amended, at a concrete input: the loaded desktop scene of a binary64
host with the smoothed pointer at the centre and the target moved to the
corner (1, 1); the first frame brings the smoothed pointer strictly closer. -/
theorem pointer_smoothing_monotone_witness :
    sampleHost.fl = round64
    ∧ ({ loadScene sampleHost 1024 1 none (fun _ => 1 / 2) with
          mouse := { x := 0, y := 0, targetX := 1, targetY := 1 } } : Scene ℚ).mouse.Normalized64
    ∧ |(1 : ℚ) - ((animate sampleHost)^[0 + 1]
          { loadScene sampleHost 1024 1 none (fun _ => 1 / 2) with
            mouse := { x := 0, y := 0, targetX := 1, targetY := 1 } }).mouse.x|
        < |(1 : ℚ) - 0| := by
  have hone : round64 (1 : ℚ) = 1 := by simpa using round64_intCast 1 (by norm_num)
  have hs : ({ loadScene sampleHost 1024 1 none (fun _ => 1 / 2) with
          mouse := { x := 0, y := 0, targetX := 1, targetY := 1 } } : Scene ℚ).mouse.Normalized64 :=
    ⟨round64_zero, round64_zero, hone, hone, by norm_num, by norm_num, by norm_num,
      by norm_num⟩
  exact ⟨rfl, hs,
    (pointer_smoothing_monotone sampleHost
      { loadScene sampleHost 1024 1 none (fun _ => 1 / 2) with
        mouse := { x := 0, y := 0, targetX := 1, targetY := 1 } } 0 rfl hs).2.2.2.2.2.2.2.1
      (by norm_num)⟩

end PointerProofs

section ShellProofs

theorem particlePosition_radius (uRadius uTheta uPhi : ℝ) :
    (particlePosition realMath uRadius uTheta uPhi).x ^ 2
      + (particlePosition realMath uRadius uTheta uPhi).y ^ 2
      + ((particlePosition realMath uRadius uTheta uPhi).z + 15) ^ 2
      = (20 + uRadius * 30) ^ 2 := by
  simp only [particlePosition, particleRadius, realMath, id]
  have hθ := Real.sin_sq_add_cos_sq (uTheta * Real.pi * 2)
  have hφ := Real.sin_sq_add_cos_sq (Real.arccos (2 * uPhi - 1))
  calc ((20 + uRadius * 30) * Real.sin (Real.arccos (2 * uPhi - 1))
          * Real.cos (uTheta * Real.pi * 2)) ^ 2
        + ((20 + uRadius * 30) * Real.sin (Real.arccos (2 * uPhi - 1))
          * Real.sin (uTheta * Real.pi * 2)) ^ 2
        + ((20 + uRadius * 30) * Real.cos (Real.arccos (2 * uPhi - 1)) - 15 + 15) ^ 2
      = (20 + uRadius * 30) ^ 2
          * (Real.sin (Real.arccos (2 * uPhi - 1)) ^ 2
              * (Real.sin (uTheta * Real.pi * 2) ^ 2 + Real.cos (uTheta * Real.pi * 2) ^ 2)
            + Real.cos (Real.arccos (2 * uPhi - 1)) ^ 2) := by ring
    _ = (20 + uRadius * 30) ^ 2 := by rw [hθ, mul_one, hφ, mul_one]

/-- C6, as stated, fails.  For the radius draw `1 - 1 / 2 ^ 53`, the largest
binary64 value below 1, the binary64 product `u * 30` is `30 - 1 / 2 ^ 48` and
the sum `20 + u * 30` lies halfway between two binary64 values and rounds to
50: the radius of line 101 is exactly 50, not below 50. -/
theorem initial_radius_counterexample :
    (0 : ℚ) ≤ 1 - 1 / 2 ^ 53
    ∧ (1 - 1 / 2 ^ 53 : ℚ) < 1
    ∧ round64 (1 - 1 / 2 ^ 53) = 1 - 1 / 2 ^ 53
    ∧ round64 ((1 - 1 / 2 ^ 53) * 30) = 30 - 1 / 2 ^ 48
    ∧ particleRadius round64 (1 - 1 / 2 ^ 53) = 50
    ∧ ¬ (particleRadius round64 (1 - 1 / 2 ^ 53) < 50) := by
  have hgrid : round64 (1 - 1 / 2 ^ 53) = 1 - 1 / 2 ^ 53 := by
    have h := round64_of_grid 9007199254740991 (-53) (by norm_num) (by norm_num)
    have e : ((9007199254740991 : ℤ) : ℚ) * 2 ^ (-53 : ℤ) = 1 - 1 / 2 ^ 53 := by norm_num
    rwa [e] at h
  have hprod : round64 (((1 : ℚ) - 1 / 2 ^ 53) * 30) = 30 - 1 / 2 ^ 48 := by
    rw [round64_eval _ 4 (by norm_num) (by norm_num) (by norm_num)]
    rw [roundHalfEven_of_floor _ 8444249301319679 (by rw [Int.floor_eq_iff]; norm_num)]
    norm_num
  refine ⟨by norm_num, by norm_num, hgrid, hprod, particleRadius_top, ?_⟩
  rw [particleRadius_top]
  exact lt_irrefl _

/-- C6, amended: with a binary64 host, for random draws in [0, 1), every
particle index below the particle count and its radius draw `u`, the position the
initialisation writes is the one computed from the particle's radius, theta
and phi draws, its coordinates are the rounded products of lines 105-107 with
the radius `fl (20 + fl (u * 30))` of line 101, and that radius satisfies
`20 ≤ radius ≤ 50`.  In exact real arithmetic (no rounding) the same formulas
put the point on the sphere of radius `20 + 30 u` around `(0, 0, -15)`, with
`20 ≤ 20 + 30 u < 50`. -/
theorem initial_radius_in_band (M : JSMath ℚ) (innerWidth devicePixelRatio : ℚ)
    (dataTheme : Option String) (rand : Nat → ℚ) (i : Nat)
    (hM : M.fl = round64) (hrand : ∀ k, 0 ≤ rand k ∧ rand k < 1)
    (hi : i < PARTICLE_COUNT innerWidth) :
    positionAt (initScene M innerWidth devicePixelRatio dataTheme rand).positions i
      = particlePosition M (rand (8 * i)) (rand (8 * i + 1)) (rand (8 * i + 2))
    ∧ particlePosition M (rand (8 * i)) (rand (8 * i + 1)) (rand (8 * i + 2))
      = { x := round64 (round64 (particleRadius round64 (rand (8 * i))
                * M.sin (M.acos (round64 (round64 (2 * rand (8 * i + 2)) - 1))))
              * M.cos (round64 (round64 (rand (8 * i + 1) * M.PI) * 2)))
          y := round64 (round64 (particleRadius round64 (rand (8 * i))
                * M.sin (M.acos (round64 (round64 (2 * rand (8 * i + 2)) - 1))))
              * M.sin (round64 (round64 (rand (8 * i + 1) * M.PI) * 2)))
          z := round64 (round64 (particleRadius round64 (rand (8 * i))
                * M.cos (M.acos (round64 (round64 (2 * rand (8 * i + 2)) - 1)))) - 15) }
    ∧ particleRadius round64 (rand (8 * i))
      = round64 (20 + round64 (rand (8 * i) * 30))
    ∧ 20 ≤ particleRadius round64 (rand (8 * i))
    ∧ particleRadius round64 (rand (8 * i)) ≤ 50
    ∧ ∀ (width ratio : ℝ) (theme : Option String) (draws : Nat → ℝ) (j : Nat),
        j < PARTICLE_COUNT width → 0 ≤ draws (8 * j) → draws (8 * j) < 1 →
        (positionAt (initScene realMath width ratio theme draws).positions j).x ^ 2
          + (positionAt (initScene realMath width ratio theme draws).positions j).y ^ 2
          + ((positionAt (initScene realMath width ratio theme draws).positions j).z + 15) ^ 2
          = (20 + draws (8 * j) * 30) ^ 2
        ∧ 20 ≤ 20 + draws (8 * j) * 30
        ∧ 20 + draws (8 * j) * 30 < 50 := by
  have hpos : positionAt (initScene M innerWidth devicePixelRatio dataTheme rand).positions i
      = particlePosition M (rand (8 * i)) (rand (8 * i + 1)) (rand (8 * i + 2)) := by
    rw [(initScene_tierView M innerWidth devicePixelRatio dataTheme rand).2.2.1]
    exact ((initParticles_loop M rand (getThemeColors dataTheme)
      (PARTICLE_COUNT innerWidth) (PARTICLE_COUNT innerWidth) le_rfl).2.2.2.2.2 i hi).1
  have hb := particleRadius_bounds (rand (8 * i)) (hrand (8 * i)).1 (hrand (8 * i)).2
  refine ⟨hpos, ?_, rfl, hb.1, hb.2, ?_⟩
  · simp only [particlePosition, hM]
  · intro width ratio theme draws j hj hj0 hj1
    have hposR : positionAt (initScene realMath width ratio theme draws).positions j
        = particlePosition realMath (draws (8 * j)) (draws (8 * j + 1)) (draws (8 * j + 2)) := by
      rw [(initScene_tierView realMath width ratio theme draws).2.2.1]
      exact ((initParticles_loop realMath draws (getThemeColors theme)
        (PARTICLE_COUNT width) (PARTICLE_COUNT width) le_rfl).2.2.2.2.2 j hj).1
    refine ⟨?_, by linarith, by linarith⟩
    rw [hposR]
    exact particlePosition_radius _ _ _

/-- C6, amended, at a concrete input: a desktop viewport, a binary64 host,
every draw equal to 1/2, the first particle. -/
theorem initial_radius_in_band_witness :
    sampleHost.fl = round64
    ∧ (∀ k : Nat, (0 : ℚ) ≤ (fun _ => (1 / 2 : ℚ)) k ∧ (fun _ => (1 / 2 : ℚ)) k < 1)
    ∧ 0 < PARTICLE_COUNT (1024 : ℚ)
    ∧ 20 ≤ particleRadius round64 ((fun _ => (1 / 2 : ℚ)) (8 * 0))
    ∧ particleRadius round64 ((fun _ => (1 / 2 : ℚ)) (8 * 0)) ≤ 50 := by
  have hr : ∀ k : Nat, (0 : ℚ) ≤ (fun _ => (1 / 2 : ℚ)) k ∧ (fun _ => (1 / 2 : ℚ)) k < 1 := by
    intro k
    norm_num
  have hc : 0 < PARTICLE_COUNT (1024 : ℚ) := by
    norm_num [PARTICLE_COUNT, isSmallMobile, isMobileDevice]
  have h := initial_radius_in_band sampleHost 1024 1 none (fun _ => (1 / 2 : ℚ)) 0 rfl hr hc
  exact ⟨rfl, hr, hc, h.2.2.2.1, h.2.2.2.2.1⟩

end ShellProofs

section ThemeProofs
variable {α : Type} [LinearOrderedField α]

/-- What the recolouring loop of `updateThreeTheme` has written after its
first `n` iterations. -/
theorem recolor_loop (rand : Nat → α) (palette : ThemeColors α) (colors0 : List α) :
    ∀ n : Nat,
      ((List.range n).foldl (recolorParticle rand palette) (colors0, 0)).2 = n
      ∧ ((List.range n).foldl (recolorParticle rand palette) (colors0, 0)).1.length
          = colors0.length
      ∧ (∀ i < n, i * 3 + 2 < colors0.length →
          colorAt ((List.range n).foldl (recolorParticle rand palette) (colors0, 0)).1 i
            = palette.accent (accentSlot (rand i)))
      ∧ (∀ i, n ≤ i →
          colorAt ((List.range n).foldl (recolorParticle rand palette) (colors0, 0)).1 i
            = colorAt colors0 i) := by
  intro n
  induction n with
  | zero => simp
  | succ n ih =>
    obtain ⟨hd, hl, hlt, hge⟩ := ih
    rw [List.range_succ, List.foldl_append]
    simp only [List.foldl_cons, List.foldl_nil]
    generalize (List.range n).foldl (recolorParticle rand palette) (colors0, 0) = st
      at hd hl hlt hge
    refine ⟨?_, ?_, ?_, ?_⟩
    · simp only [recolorParticle, hd]
    · simp only [recolorParticle, List.length_set, hl]
    · intro i hi hlen
      by_cases hin : i = n
      · subst hin
        simp only [recolorParticle, hd, accent_accentSlot]
        exact colorAt_set3_same _ _ _ (by omega)
      · simp only [recolorParticle]
        rw [colorAt_set3_other _ _ _ _ _ _ hin]
        exact hlt i (by omega) hlen
    · intro i hi
      simp only [recolorParticle]
      rw [colorAt_set3_other _ _ _ _ _ _ (by omega)]
      exact hge i (by omega)

omit [LinearOrderedField α] in
theorem accent_mem (palette : ThemeColors α) (slot : Nat) :
    palette.accent slot ∈ [palette.particle1, palette.particle2, palette.particle3] := by
  unfold ThemeColors.accent
  split_ifs <;> simp

theorem updateConnections_wellFormed (M : JSMath α) (s : Scene α) (h : s.WellFormed) :
    (updateConnections M s).WellFormed := by
  obtain ⟨h1, h2, _, h4, _⟩ := updateConnections_views M s
  simp only [Scene.tierView, Scene.colorView, Prod.mk.injEq] at h1 h2
  obtain ⟨_, _, t3, _, _, _, _, t8, t9⟩ := h1
  unfold Scene.WellFormed at h ⊢
  rw [h4, h2.1, t3, t8, t9]
  exact h

theorem buildScene_wellFormed (M : JSMath α) (innerWidth devicePixelRatio : α)
    (dataTheme : Option String) (rand : Nat → α) :
    (buildScene M innerWidth devicePixelRatio dataTheme rand).WellFormed := by
  obtain ⟨_, lp, lc, ls, lv, _⟩ := initParticles_loop M rand (getThemeColors dataTheme)
    (PARTICLE_COUNT innerWidth) (PARTICLE_COUNT innerWidth) le_rfl
  exact ⟨lp, lc, lv, ls⟩

theorem initScene_wellFormed (M : JSMath α) (innerWidth devicePixelRatio : α)
    (dataTheme : Option String) (rand : Nat → α) :
    (initScene M innerWidth devicePixelRatio dataTheme rand).WellFormed :=
  updateConnections_wellFormed M _ (buildScene_wellFormed M innerWidth devicePixelRatio
    dataTheme rand)

theorem animate_wellFormed (M : JSMath α) (s : Scene α) (h : s.WellFormed) :
    (animate M s).WellFormed := by
  obtain ⟨h1, h2, _, h4, _⟩ := animate_views M s
  simp only [Scene.tierView, Scene.colorView, Prod.mk.injEq] at h1 h2
  obtain ⟨_, _, t3, _, _, _, _, t8, t9⟩ := h1
  unfold Scene.WellFormed at h ⊢
  rw [h4, h2.1, t3, t8, t9]
  exact h

theorem loadScene_wellFormed (M : JSMath α) (innerWidth devicePixelRatio : α)
    (dataTheme : Option String) (rand : Nat → α) :
    (loadScene M innerWidth devicePixelRatio dataTheme rand).WellFormed :=
  animate_wellFormed M _ (initScene_wellFormed M innerWidth devicePixelRatio dataTheme rand)

theorem updateThreeTheme_wellFormed (dataTheme : Option String) (rand : Nat → α)
    (s : Scene α) (h : s.WellFormed) : (updateThreeTheme dataTheme rand s).WellFormed := by
  obtain ⟨h1, h2, h3, h4⟩ := h
  refine ⟨h1, ?_, h3, h4⟩
  simp only [updateThreeTheme]
  rw [(recolor_loop rand (getThemeColors dataTheme) s.colors s.PARTICLE_COUNT).2.1]
  exact h2

theorem updateThreeTheme_colorAt (dataTheme : Option String) (rand : Nat → α)
    (s : Scene α) (h : s.WellFormed) (i : Nat) (hi : i < s.PARTICLE_COUNT) :
    colorAt (updateThreeTheme dataTheme rand s).colors i
      = (getThemeColors dataTheme : ThemeColors α).accent (accentSlot (rand i)) := by
  simp only [updateThreeTheme]
  refine (recolor_loop rand (getThemeColors dataTheme) s.colors s.PARTICLE_COUNT).2.2.1 i hi ?_
  rw [h.2.1]
  omega

theorem initScene_colorAt (M : JSMath α) (innerWidth devicePixelRatio : α)
    (dataTheme : Option String) (rand : Nat → α) (i : Nat)
    (hi : i < PARTICLE_COUNT innerWidth) :
    colorAt (initScene M innerWidth devicePixelRatio dataTheme rand).colors i
      = (getThemeColors dataTheme : ThemeColors α).accent (accentSlot (rand (8 * i + 3))) := by
  rw [(initScene_tierView M innerWidth devicePixelRatio dataTheme rand).2.2.2]
  exact ((initParticles_loop M rand (getThemeColors dataTheme)
    (PARTICLE_COUNT innerWidth) (PARTICLE_COUNT innerWidth) le_rfl).2.2.2.2.2 i hi).2

theorem accentSlot_eq_one (u : α) : accentSlot u = 1 ↔ u < 0.4 := by
  unfold accentSlot
  split_ifs with a b
  · simp [a]
  · simp [a]
  · simp [a]

theorem accentSlot_eq_two (u : α) : accentSlot u = 2 ↔ 0.4 ≤ u ∧ u < 0.75 := by
  unfold accentSlot
  split_ifs with a b
  · simp
    intro h
    exact absurd a (not_lt.mpr h)
  · simp
    exact ⟨le_of_not_lt a, b⟩
  · simp
    intro _
    exact le_of_not_lt b

theorem accentSlot_eq_three (u : α) : accentSlot u = 3 ↔ 0.75 ≤ u := by
  have e4 : (0.4 : α) < 0.75 := by norm_num
  unfold accentSlot
  split_ifs with a b
  · simp
    exact lt_trans a e4
  · simp
    exact b
  · simp
    exact le_of_not_lt b

/-- C7: the initial colouring gives particle `i` the accent colour of the slot
of its colour draw (the fourth of its eight draws), and the theme update gives
it the accent colour of the slot of its one draw, on the palette of the
current theme; the slot of a draw `u` in [0, 1) is 1 on `[0, 0.4)`, 2 on
`[0.4, 0.75)` and 3 on `[0.75, 1)`, intervals of length 0.40, 0.35 and 0.25;
and the colour of a slot is one of the palette's three accent colours. -/
theorem particle_color_slots (M : JSMath α) (innerWidth devicePixelRatio : α)
    (dataTheme : Option String) (rand : Nat → α) (s : Scene α) (i : Nat) (u : α) :
    (i < PARTICLE_COUNT innerWidth →
      colorAt (initScene M innerWidth devicePixelRatio dataTheme rand).colors i
        = (getThemeColors dataTheme : ThemeColors α).accent (accentSlot (rand (8 * i + 3))))
    ∧ (s.WellFormed → i < s.PARTICLE_COUNT →
      colorAt (updateThreeTheme dataTheme rand s).colors i
        = (getThemeColors dataTheme : ThemeColors α).accent (accentSlot (rand i)))
    ∧ (0 ≤ u → u < 1 →
        (accentSlot u = 1 ↔ u ∈ Set.Ico (0 : α) (0 + 0.40))
        ∧ (accentSlot u = 2 ↔ u ∈ Set.Ico (0.4 : α) (0.4 + 0.35))
        ∧ (accentSlot u = 3 ↔ u ∈ Set.Ico (0.75 : α) (0.75 + 0.25)))
    ∧ (accentSlot u = 1 ∨ accentSlot u = 2 ∨ accentSlot u = 3)
    ∧ (getThemeColors dataTheme : ThemeColors α).accent (accentSlot u)
        ∈ [(getThemeColors dataTheme : ThemeColors α).particle1,
            (getThemeColors dataTheme : ThemeColors α).particle2,
            (getThemeColors dataTheme : ThemeColors α).particle3] := by
  refine ⟨initScene_colorAt M innerWidth devicePixelRatio dataTheme rand i,
    fun h hi => updateThreeTheme_colorAt dataTheme rand s h i hi, ?_, ?_, accent_mem _ _⟩
  · intro h0 h1
    have e1 : (0 : α) + 0.40 = 0.4 := by norm_num
    have e2 : (0.4 : α) + 0.35 = 0.75 := by norm_num
    have e3 : (0.75 : α) + 0.25 = 1 := by norm_num
    rw [e1, e2, e3, accentSlot_eq_one, accentSlot_eq_two, accentSlot_eq_three]
    simp only [Set.mem_Ico]
    exact ⟨⟨fun h => ⟨h0, h⟩, fun h => h.2⟩, trivial, ⟨fun h => ⟨h, h1⟩, fun h => h.1⟩⟩
  · unfold accentSlot
    split_ifs <;> simp

/-- C7 at a concrete input: the loaded desktop scene, every draw equal to 1/2
(slot 2), the first particle. -/
theorem particle_color_slots_witness :
    (loadScene realMath 1024 1 none (fun _ => (1 / 2 : ℝ))).WellFormed
    ∧ 0 < (loadScene realMath 1024 1 none (fun _ => (1 / 2 : ℝ))).PARTICLE_COUNT
    ∧ colorAt (updateThreeTheme (some "light") (fun _ => (1 / 2 : ℝ))
        (loadScene realMath 1024 1 none (fun _ => (1 / 2 : ℝ)))).colors 0
      = (getThemeColors (some "light") : ThemeColors ℝ).accent (accentSlot (1 / 2 : ℝ)) := by
  have hwf := loadScene_wellFormed realMath 1024 1 none (fun _ => (1 / 2 : ℝ))
  have hpos : 0 < (loadScene realMath 1024 1 none (fun _ => (1 / 2 : ℝ))).PARTICLE_COUNT := by
    have h := (animate_views realMath (initScene realMath 1024 1 none (fun _ => (1 / 2 : ℝ)))).1
    rw [(initScene_tierView realMath 1024 1 none (fun _ => (1 / 2 : ℝ))).1] at h
    simp only [Scene.tierView, Prod.mk.injEq] at h
    rw [loadScene, h.2.2.1]
    norm_num [PARTICLE_COUNT, isSmallMobile, isMobileDevice]
  exact ⟨hwf, hpos,
    (particle_color_slots realMath 1024 1 (some "light") (fun _ => (1 / 2 : ℝ))
      (loadScene realMath 1024 1 none (fun _ => (1 / 2 : ℝ))) 0 (1 / 2 : ℝ)).2.1 hwf hpos⟩

theorem updateThreeTheme_solidColors (dataTheme : Option String) (rand : Nat → α)
    (s : Scene α) :
    (updateThreeTheme dataTheme rand s).solidColors
      = (getThemeColors dataTheme : ThemeColors α).solidMapping s.torusKnot.isSome := by
  simp only [updateThreeTheme, Scene.solidColors, ThemeColors.solidMapping]
  cases s.torusKnot <;> simp

theorem initScene_colorView (M : JSMath α) (innerWidth devicePixelRatio : α)
    (dataTheme : Option String) (rand : Nat → α) :
    (initScene M innerWidth devicePixelRatio dataTheme rand).solidColors
      = (getThemeColors dataTheme : ThemeColors α).solidMapping (!isSmallMobile innerWidth)
    ∧ (initScene M innerWidth devicePixelRatio dataTheme rand).lineMaterialColor
      = (getThemeColors dataTheme : ThemeColors α).particle1 := by
  have h := (updateConnections_views M
    (buildScene M innerWidth devicePixelRatio dataTheme rand)).2.1
  simp only [Scene.colorView, Prod.mk.injEq] at h
  obtain ⟨_, c1, c2, c3, c4, c5, c6⟩ := h
  refine ⟨?_, ?_⟩
  · simp only [Scene.solidColors, initScene, c1, c2, c3, c4, c5]
    simp only [buildScene, ThemeColors.solidMapping]
    cases isSmallMobile innerWidth <;> simp
  · simp only [initScene, c6]
    rfl

theorem iterate_animate_views (M : JSMath α) (s : Scene α) (n : Nat) :
    ((animate M)^[n] s).tierView = s.tierView
    ∧ ((animate M)^[n] s).colorView = s.colorView
    ∧ (s.WellFormed → ((animate M)^[n] s).WellFormed) := by
  induction n with
  | zero => exact ⟨rfl, rfl, id⟩
  | succ n ih =>
    rw [Function.iterate_succ_apply']
    obtain ⟨h1, h2, h3⟩ := ih
    obtain ⟨a1, a2, _⟩ := animate_views M ((animate M)^[n] s)
    exact ⟨a1.trans h1, a2.trans h2, fun h => animate_wellFormed M _ (h3 h)⟩

/-- C8: for either theme, after `updateThreeTheme` the icosahedron carries the
new palette's `wireframe` colour, the torus `particle2`, the octahedron
`particle3`, the dodecahedron `particle1` and the torus knot, when the scene
has one, `particle2`; the solids are the same four or five as before; the
colours are those of the light palette when the attribute is `light` and of the
dark palette when it is `dark`; and they are the same whatever the random
draws and the scene's previous colours. -/
theorem theme_update_solid_colors (dataTheme : Option String) (rand rand2 : Nat → α)
    (s s2 : Scene α) :
    (updateThreeTheme dataTheme rand s).icosahedron.materialColor
      = (getThemeColors dataTheme : ThemeColors α).wireframe
    ∧ (updateThreeTheme dataTheme rand s).torus.materialColor
      = (getThemeColors dataTheme : ThemeColors α).particle2
    ∧ (updateThreeTheme dataTheme rand s).octahedron.materialColor
      = (getThemeColors dataTheme : ThemeColors α).particle3
    ∧ (updateThreeTheme dataTheme rand s).dodecahedron.materialColor
      = (getThemeColors dataTheme : ThemeColors α).particle1
    ∧ (∀ m ∈ (updateThreeTheme dataTheme rand s).torusKnot,
        m.materialColor = (getThemeColors dataTheme : ThemeColors α).particle2)
    ∧ (updateThreeTheme dataTheme rand s).torusKnot.isSome = s.torusKnot.isSome
    ∧ (updateThreeTheme dataTheme rand s).geometries = s.geometries
    ∧ (getThemeColors (some "light") : ThemeColors α)
      = { particle1 := Color.ofHex 0x0066ff, particle2 := Color.ofHex 0x7c3aed,
          particle3 := Color.ofHex 0xec4899, wireframe := Color.ofHex 0x0066ff,
          ambient := 0xe2e5ef }
    ∧ (getThemeColors (some "dark") : ThemeColors α)
      = { particle1 := Color.ofHex 0x00d4ff, particle2 := Color.ofHex 0xa855f7,
          particle3 := Color.ofHex 0xf472b6, wireframe := Color.ofHex 0x00d4ff,
          ambient := 0x111128 }
    ∧ (s2.torusKnot.isSome = s.torusKnot.isSome →
        (updateThreeTheme dataTheme rand2 s2).solidColors
          = (updateThreeTheme dataTheme rand s).solidColors) := by
  refine ⟨rfl, rfl, rfl, rfl, ?_, ?_, rfl, ?_, ?_, ?_⟩
  · intro m hm
    simp only [updateThreeTheme, Option.mem_def, Option.map_eq_some'] at hm
    obtain ⟨m0, _, rfl⟩ := hm
    rfl
  · simp only [updateThreeTheme, Option.isSome_map']
  · simp [getThemeColors, isDarkTheme]
  · simp [getThemeColors, isDarkTheme]
  · intro h
    rw [updateThreeTheme_solidColors, updateThreeTheme_solidColors, h]

/-- C9: `updateThreeTheme` leaves the particle count, the positions, the
`velocities` (anchors) and the sizes as they were and keeps the length of the
colour array; putting the old colour array, dirty flag, solids and line colour
back gives the old scene, and each solid keeps everything but its material
colour. -/
theorem theme_update_frame (dataTheme : Option String) (rand : Nat → α) (s : Scene α) :
    (updateThreeTheme dataTheme rand s).PARTICLE_COUNT = s.PARTICLE_COUNT
    ∧ (updateThreeTheme dataTheme rand s).positions = s.positions
    ∧ (updateThreeTheme dataTheme rand s).velocities = s.velocities
    ∧ (updateThreeTheme dataTheme rand s).sizes = s.sizes
    ∧ (updateThreeTheme dataTheme rand s).colors.length = s.colors.length
    ∧ (updateThreeTheme dataTheme rand s).colorNeedsUpdate = true
    ∧ { updateThreeTheme dataTheme rand s with
          colors := s.colors
          colorNeedsUpdate := s.colorNeedsUpdate
          icosahedron := s.icosahedron
          torus := s.torus
          octahedron := s.octahedron
          dodecahedron := s.dodecahedron
          torusKnot := s.torusKnot
          lineMaterialColor := s.lineMaterialColor } = s
    ∧ { (updateThreeTheme dataTheme rand s).icosahedron with
          materialColor := s.icosahedron.materialColor } = s.icosahedron
    ∧ { (updateThreeTheme dataTheme rand s).torus with
          materialColor := s.torus.materialColor } = s.torus
    ∧ { (updateThreeTheme dataTheme rand s).octahedron with
          materialColor := s.octahedron.materialColor } = s.octahedron
    ∧ { (updateThreeTheme dataTheme rand s).dodecahedron with
          materialColor := s.dodecahedron.materialColor } = s.dodecahedron
    ∧ (updateThreeTheme dataTheme rand s).torusKnot.map
          (fun m => (m.position, m.rotation, m.opacity))
        = s.torusKnot.map (fun m => (m.position, m.rotation, m.opacity)) := by
  refine ⟨rfl, rfl, rfl, rfl, ?_, rfl, rfl, rfl, rfl, rfl, rfl, ?_⟩
  · simp only [updateThreeTheme]
    exact (recolor_loop rand (getThemeColors dataTheme) s.colors s.PARTICLE_COUNT).2.1
  · simp only [updateThreeTheme]
    cases s.torusKnot <;> simp

/-- C10: initialisation and theme update read the same palette function with
the same slot assignment: for one theme, after initialisation and any number
of frames (one for the loaded page), the solids carry the fixed mapping on that
theme's palette and the lines its `particle1`; `updateThreeTheme` leaves the
solid and line colours equal to these; and before and after it every
particle's colour is one of the theme's three accent colours. -/
theorem theme_update_after_init (M : JSMath α) (innerWidth devicePixelRatio : α)
    (dataTheme : Option String) (rand rand2 : Nat → α) (n i : Nat) :
    loadScene M innerWidth devicePixelRatio dataTheme rand
      = (animate M)^[1] (initScene M innerWidth devicePixelRatio dataTheme rand)
    ∧ ((animate M)^[n] (initScene M innerWidth devicePixelRatio dataTheme rand)).solidColors
      = (getThemeColors dataTheme : ThemeColors α).solidMapping (!isSmallMobile innerWidth)
    ∧ ((animate M)^[n] (initScene M innerWidth devicePixelRatio dataTheme rand)).lineMaterialColor
      = (getThemeColors dataTheme : ThemeColors α).particle1
    ∧ (updateThreeTheme dataTheme rand2
        ((animate M)^[n] (initScene M innerWidth devicePixelRatio dataTheme rand))).solidColors
      = ((animate M)^[n] (initScene M innerWidth devicePixelRatio dataTheme rand)).solidColors
    ∧ (updateThreeTheme dataTheme rand2
        ((animate M)^[n]
          (initScene M innerWidth devicePixelRatio dataTheme rand))).lineMaterialColor
      = ((animate M)^[n]
          (initScene M innerWidth devicePixelRatio dataTheme rand)).lineMaterialColor
    ∧ (i < PARTICLE_COUNT innerWidth →
        colorAt ((animate M)^[n]
            (initScene M innerWidth devicePixelRatio dataTheme rand)).colors i
          ∈ [(getThemeColors dataTheme : ThemeColors α).particle1,
              (getThemeColors dataTheme : ThemeColors α).particle2,
              (getThemeColors dataTheme : ThemeColors α).particle3]
        ∧ colorAt (updateThreeTheme dataTheme rand2 ((animate M)^[n]
            (initScene M innerWidth devicePixelRatio dataTheme rand))).colors i
          ∈ [(getThemeColors dataTheme : ThemeColors α).particle1,
              (getThemeColors dataTheme : ThemeColors α).particle2,
              (getThemeColors dataTheme : ThemeColors α).particle3]) := by
  obtain ⟨t, c, w⟩ := iterate_animate_views M
    (initScene M innerWidth devicePixelRatio dataTheme rand) n
  have hwf := w (initScene_wellFormed M innerWidth devicePixelRatio dataTheme rand)
  obtain ⟨i1, i2⟩ := initScene_colorView M innerWidth devicePixelRatio dataTheme rand
  have hcount : ((animate M)^[n]
      (initScene M innerWidth devicePixelRatio dataTheme rand)).PARTICLE_COUNT
      = PARTICLE_COUNT innerWidth := by
    have := t
    rw [(initScene_tierView M innerWidth devicePixelRatio dataTheme rand).1] at this
    simp only [Scene.tierView, Prod.mk.injEq] at this
    exact this.2.2.1
  have hknot : ((animate M)^[n]
      (initScene M innerWidth devicePixelRatio dataTheme rand)).torusKnot.isSome
      = !isSmallMobile innerWidth := by
    have := t
    rw [(initScene_tierView M innerWidth devicePixelRatio dataTheme rand).1] at this
    simp only [Scene.tierView, Prod.mk.injEq] at this
    exact this.2.2.2.2.2.2.1
  simp only [Scene.colorView, Prod.mk.injEq] at c
  obtain ⟨c0, c1, c2, c3, c4, c5, c6⟩ := c
  have hsolid : ((animate M)^[n]
      (initScene M innerWidth devicePixelRatio dataTheme rand)).solidColors
      = (getThemeColors dataTheme : ThemeColors α).solidMapping (!isSmallMobile innerWidth) := by
    rw [← i1]
    simp only [Scene.solidColors, c1, c2, c3, c4, c5]
  refine ⟨rfl, hsolid, c6.trans i2, ?_, ?_, ?_⟩
  · rw [updateThreeTheme_solidColors, hsolid, hknot]
  · exact (c6.trans i2).symm
  · intro hi
    constructor
    · rw [c0, initScene_colorAt M innerWidth devicePixelRatio dataTheme rand i hi]
      exact accent_mem _ _
    · rw [updateThreeTheme_colorAt dataTheme rand2 _ hwf i (by rw [hcount]; exact hi)]
      exact accent_mem _ _

end ThemeProofs

section ClockProofs
variable {α : Type} [LinearOrderedField α]

theorem updateConnections_clock (M : JSMath α) (s : Scene α) :
    (updateConnections M s).clockView = s.clockView := by
  unfold updateConnections
  dsimp only
  split_ifs <;> rfl

omit [LinearOrderedField α] in
theorem modifyMesh_clock (s : Scene α) (id : MeshId) (f : Mesh α → Mesh α) :
    (s.modifyMesh id f).clockView = s.clockView := by
  cases id <;> rfl

theorem foldl_animateGeometry_clock (M : JSMath α) (time : α) (mouse : Mouse α)
    (gs : List (FloatingGeometry α)) : ∀ s : Scene α,
    (gs.foldl (animateGeometry M time mouse) s).clockView = s.clockView := by
  induction gs with
  | nil => intro s; rfl
  | cons g gs ih =>
    intro s
    simp only [List.foldl_cons]
    exact (ih _).trans (modifyMesh_clock s g.mesh _)

theorem animateBody_clock (M : JSMath α) (s : Scene α) :
    (animateBody M s).clockView
      = (s.frameCount + 1, s.time + 0.01, s.time + 0.01, s.rendererPixelRatio, s.uPixelRatio,
          s.cameraPositionY, s.cameraPositionZ, s.particlesPositionY,
          (smoothMouse M.fl s.mouse).y * 0.2, (smoothMouse M.fl s.mouse).x * 0.3, true) := by
  unfold animateBody
  dsimp only
  exact (foldl_animateGeometry_clock _ _ _ _ _).trans rfl

theorem animateBody_frameCount (M : JSMath α) (s : Scene α) :
    (animateBody M s).frameCount = s.frameCount + 1
    ∧ (animateBody M s).isMobileDevice = s.isMobileDevice := by
  have h := animateBody_clock M s
  have t := (animateBody_views M s).1
  simp only [Scene.clockView, Scene.tierView, Prod.mk.injEq] at h t
  exact ⟨h.1, t.1⟩

/-- The branch `animate` takes is the one `recomputesConnections` names. -/
theorem animate_eq (M : JSMath α) (s : Scene α) :
    animate M s
      = if recomputesConnections s = true then updateConnections M (animateBody M s)
        else animateBody M s := by
  obtain ⟨hf, hm⟩ := animateBody_frameCount M s
  unfold animate recomputesConnections connectionInterval
  dsimp only
  rw [hf, hm]
  by_cases h : (s.frameCount + 1) % (if s.isMobileDevice = true then 90 else 30) = 0
  · simp only [h, if_true, decide_True]
  · simp only [h, if_false, decide_False, Bool.false_eq_true]

theorem animate_clock (M : JSMath α) (s : Scene α) :
    (animate M s).clockView
      = (s.frameCount + 1, s.time + 0.01, s.time + 0.01, s.rendererPixelRatio, s.uPixelRatio,
          s.cameraPositionY, s.cameraPositionZ, s.particlesPositionY,
          (smoothMouse M.fl s.mouse).y * 0.2, (smoothMouse M.fl s.mouse).x * 0.3, true) := by
  rw [animate_eq]
  split_ifs
  · rw [updateConnections_clock]
    exact animateBody_clock M s
  · exact animateBody_clock M s

theorem buildScene_clock (M : JSMath α) (innerWidth devicePixelRatio : α)
    (dataTheme : Option String) (rand : Nat → α) :
    (initScene M innerWidth devicePixelRatio dataTheme rand).clockView
      = (0, 0, 0, min devicePixelRatio (if isMobileDevice innerWidth then 1.5 else 2),
          min devicePixelRatio 2, 0, 30, 0, 0, 0, false) := by
  unfold initScene
  rw [updateConnections_clock]
  rfl

theorem iterate_animate_frameCount (M : JSMath α) (s : Scene α) (n : Nat) :
    ((animate M)^[n] s).frameCount = s.frameCount + n
    ∧ ((animate M)^[n] s).isMobileDevice = s.isMobileDevice
    ∧ ((animate M)^[n] s).rendererPixelRatio = s.rendererPixelRatio
    ∧ ((animate M)^[n] s).uPixelRatio = s.uPixelRatio := by
  induction n with
  | zero => exact ⟨rfl, rfl, rfl, rfl⟩
  | succ n ih =>
    rw [Function.iterate_succ_apply']
    have h := animate_clock M ((animate M)^[n] s)
    have t := (animate_views M ((animate M)^[n] s)).1
    simp only [Scene.clockView, Scene.tierView, Prod.mk.injEq] at h t
    obtain ⟨i1, i2, i3, i4⟩ := ih
    refine ⟨?_, t.1.trans i2, h.2.2.2.1.trans i3, h.2.2.2.2.1.trans i4⟩
    rw [h.1, i1]
    omega

/-- C11: the scroll listener leaves the scene (camera Y and particle-cloud Y
included) as it is when the scroll offset is at least 1.5 times the viewport
height; below that it sets camera Y to `-0.005 * offset` and particle-cloud Y
to `0.01 * offset` and changes nothing else; the offset is `window.scrollY`,
read through its alias when it is zero. -/
theorem scroll_parallax (windowScrollY pageYOffset innerHeight : α) (s : Scene α) :
    (1.5 * innerHeight ≤ scrollOffset windowScrollY pageYOffset →
      onScroll windowScrollY pageYOffset innerHeight s = s)
    ∧ (scrollOffset windowScrollY pageYOffset < 1.5 * innerHeight →
      (onScroll windowScrollY pageYOffset innerHeight s).cameraPositionY
        = -0.005 * scrollOffset windowScrollY pageYOffset
      ∧ (onScroll windowScrollY pageYOffset innerHeight s).particlesPositionY
        = 0.01 * scrollOffset windowScrollY pageYOffset
      ∧ { onScroll windowScrollY pageYOffset innerHeight s with
            cameraPositionY := s.cameraPositionY
            particlesPositionY := s.particlesPositionY } = s)
    ∧ (windowScrollY ≠ 0 → scrollOffset windowScrollY pageYOffset = windowScrollY)
    ∧ scrollOffset windowScrollY windowScrollY = windowScrollY := by
  have hc : (1.5 : α) * innerHeight = innerHeight * 1.5 := mul_comm _ _
  refine ⟨?_, ?_, ?_, ?_⟩
  · intro h
    rw [hc] at h
    simp only [onScroll, if_neg (not_lt.mpr h)]
  · intro h
    rw [hc] at h
    have e : onScroll windowScrollY pageYOffset innerHeight s
        = { s with
            cameraPositionY := -scrollOffset windowScrollY pageYOffset * 0.005
            particlesPositionY := scrollOffset windowScrollY pageYOffset * 0.01 } := by
      simp only [onScroll, if_pos h]
    rw [e]
    refine ⟨?_, ?_, rfl⟩
    · show -scrollOffset windowScrollY pageYOffset * 0.005 = _
      ring
    · show scrollOffset windowScrollY pageYOffset * 0.01 = _
      ring
  · intro h
    simp [scrollOffset, h]
  · simp [scrollOffset]

/-- C11 at a concrete input: the loaded desktop scene, viewport height 800;
scrolled to 300 the camera is at -1.5 and the cloud at 3, and a later scroll
event at 1200 = 1.5 * 800 leaves both there. -/
theorem scroll_parallax_witness :
    (300 : ℝ) < 1.5 * 800
    ∧ (onScroll 300 300 800 (loadScene realMath 1024 1 none (fun _ => 1 / 2))).cameraPositionY
        = -0.005 * scrollOffset (300 : ℝ) 300
    ∧ (1.5 : ℝ) * 800 ≤ scrollOffset 1200 1200
    ∧ onScroll 1200 1200 800
          (onScroll 300 300 800 (loadScene realMath 1024 1 none (fun _ => 1 / 2)))
        = onScroll 300 300 800 (loadScene realMath 1024 1 none (fun _ => 1 / 2)) := by
  have h1 : scrollOffset (300 : ℝ) 300 < 1.5 * 800 := by
    norm_num [scrollOffset]
  have h2 : (1.5 : ℝ) * 800 ≤ scrollOffset 1200 1200 := by
    norm_num [scrollOffset]
  exact ⟨by norm_num,
    ((scroll_parallax 300 300 800 (loadScene realMath 1024 1 none (fun _ => 1 / 2))).2.1
      h1).1,
    h2,
    (scroll_parallax 1200 1200 800
      (onScroll 300 300 800 (loadScene realMath 1024 1 none (fun _ => 1 / 2)))).1 h2⟩

theorem pixel_ratio_facts (M : JSMath α) (innerWidth devicePixelRatio : α)
    (dataTheme : Option String) (rand : Nat → α) (n : Nat) (newWidth newRatio : α)
    (s : Scene α) :
    ((animate M)^[n]
        (initScene M innerWidth devicePixelRatio dataTheme rand)).rendererPixelRatio
      = min devicePixelRatio (if innerWidth < 768 then 1.5 else 2)
    ∧ ((animate M)^[n] (initScene M innerWidth devicePixelRatio dataTheme rand)).uPixelRatio
      = min devicePixelRatio 2
    ∧ (handleResize newWidth newRatio s).rendererPixelRatio
      = min newRatio (if newWidth < 768 then 1.5 else 2)
    ∧ (handleResize newWidth newRatio s).uPixelRatio
      = min newRatio (if newWidth < 768 then 1.5 else 2) := by
  obtain ⟨_, _, h3, h4⟩ := iterate_animate_frameCount M
    (initScene M innerWidth devicePixelRatio dataTheme rand) n
  have hb := buildScene_clock M innerWidth devicePixelRatio dataTheme rand
  simp only [Scene.clockView, Prod.mk.injEq] at hb
  refine ⟨?_, h4.trans hb.2.2.2.2.1, rfl, rfl⟩
  rw [h3, hb.2.2.2.1]
  simp [isMobileDevice]

end ClockProofs

section PixelRatio

/-- C15 at the failing input, a viewport 375 wide with device pixel ratio 3:
the loaded scene has renderer pixel ratio 1.5 = min(3, 1.5) but `uPixelRatio`
2 = min(3, 2), and `handleResize` at the same width and ratio sets both to
1.5. -/
theorem pixel_ratio_init_mismatch :
    (loadScene realMath 375 3 none (fun _ => 1 / 2)).rendererPixelRatio = 1.5
    ∧ (loadScene realMath 375 3 none (fun _ => 1 / 2)).uPixelRatio = 2
    ∧ min (3 : ℝ) (if (375 : ℝ) < 768 then 1.5 else 2) = 1.5
    ∧ (handleResize 375 3
        (loadScene realMath 375 3 none (fun _ => 1 / 2))).rendererPixelRatio = 1.5
    ∧ (handleResize 375 3 (loadScene realMath 375 3 none (fun _ => 1 / 2))).uPixelRatio
        = 1.5 := by
  obtain ⟨h1, h2, h3, h4⟩ := pixel_ratio_facts realMath 375 3 none (fun _ => 1 / 2) 1 375 3
    (loadScene realMath 375 3 none (fun _ => 1 / 2))
  have e : min (3 : ℝ) (if (375 : ℝ) < 768 then 1.5 else 2) = 1.5 := by norm_num
  have e2 : min (3 : ℝ) 2 = 2 := by norm_num
  rw [e] at h1 h3 h4
  rw [e2] at h2
  exact ⟨h1, h2, e, h3, h4⟩

end PixelRatio

section ScheduleProofs
variable {α : Type} [LinearOrderedField α]

theorem recomputes_iff (M : JSMath α) (innerWidth devicePixelRatio : α)
    (dataTheme : Option String) (rand : Nat → α) (n : Nat) :
    ((animate M)^[n] (initScene M innerWidth devicePixelRatio dataTheme rand)).frameCount = n
    ∧ connectionInterval
        ((animate M)^[n] (initScene M innerWidth devicePixelRatio dataTheme rand))
      = (if innerWidth < 768 then 90 else 30)
    ∧ (recomputesConnections
        ((animate M)^[n] (initScene M innerWidth devicePixelRatio dataTheme rand)) = true
      ↔ (n + 1) % (if innerWidth < 768 then 90 else 30) = 0) := by
  obtain ⟨h1, h2, _, _⟩ := iterate_animate_frameCount M
    (initScene M innerWidth devicePixelRatio dataTheme rand) n
  have hb := buildScene_clock M innerWidth devicePixelRatio dataTheme rand
  have ht := (initScene_tierView M innerWidth devicePixelRatio dataTheme rand).1
  simp only [Scene.clockView, Scene.tierView, Prod.mk.injEq] at hb ht
  have hf : ((animate M)^[n]
      (initScene M innerWidth devicePixelRatio dataTheme rand)).frameCount = n := by
    rw [h1, hb.1]
    omega
  have hk : connectionInterval
      ((animate M)^[n] (initScene M innerWidth devicePixelRatio dataTheme rand))
      = (if innerWidth < 768 then 90 else 30) := by
    simp only [connectionInterval, h2, ht.1, isMobileDevice, decide_eq_true_eq]
  refine ⟨hf, hk, ?_⟩
  simp only [recomputesConnections, hf, hk, decide_eq_true_eq]

/-- C16: with frames counted from 1 at the first call of `animate`, frame
`n + 1` (the call on the scene reached after `n` frames) recomputes the
connections exactly when `n + 1` is a multiple of `K`, where `K` is 90 for a
width below 768 at initialisation and 30 otherwise; after a recomputation the
next one is exactly `K` frames later, and two recomputations are at least 30
frames apart. -/
theorem connection_recompute_schedule (M : JSMath α) (innerWidth devicePixelRatio : α)
    (dataTheme : Option String) (rand : Nat → α) (n m : Nat) :
    ((animate M)^[n] (initScene M innerWidth devicePixelRatio dataTheme rand)).frameCount = n
    ∧ animate M ((animate M)^[n] (initScene M innerWidth devicePixelRatio dataTheme rand))
      = (if recomputesConnections
            ((animate M)^[n] (initScene M innerWidth devicePixelRatio dataTheme rand)) = true
          then updateConnections M (animateBody M
            ((animate M)^[n] (initScene M innerWidth devicePixelRatio dataTheme rand)))
          else animateBody M
            ((animate M)^[n] (initScene M innerWidth devicePixelRatio dataTheme rand)))
    ∧ (recomputesConnections
        ((animate M)^[n] (initScene M innerWidth devicePixelRatio dataTheme rand)) = true
      ↔ (if innerWidth < 768 then 90 else 30) ∣ n + 1)
    ∧ (recomputesConnections
        ((animate M)^[n] (initScene M innerWidth devicePixelRatio dataTheme rand)) = true →
      recomputesConnections
        ((animate M)^[n + (if innerWidth < 768 then 90 else 30)]
          (initScene M innerWidth devicePixelRatio dataTheme rand)) = true
      ∧ ∀ j, 0 < j → j < (if innerWidth < 768 then 90 else 30) →
        recomputesConnections
          ((animate M)^[n + j]
            (initScene M innerWidth devicePixelRatio dataTheme rand)) = false)
    ∧ (n < m →
      recomputesConnections
        ((animate M)^[n] (initScene M innerWidth devicePixelRatio dataTheme rand)) = true →
      recomputesConnections
        ((animate M)^[m] (initScene M innerWidth devicePixelRatio dataTheme rand)) = true →
      30 ≤ m - n) := by
  have key := fun k => (recomputes_iff M innerWidth devicePixelRatio dataTheme rand k).2.2
  refine ⟨(recomputes_iff M innerWidth devicePixelRatio dataTheme rand n).1,
    animate_eq M _, ?_, ?_, ?_⟩
  · rw [key n, Nat.dvd_iff_mod_eq_zero]
  · intro h
    rw [key n] at h
    constructor
    · rw [key]
      split_ifs at h ⊢ <;> omega
    · intro j hj0 hjK
      rw [← Bool.not_eq_true, key]
      split_ifs at h hjK ⊢ <;> omega
  · intro hnm h1 h2
    rw [key n] at h1
    rw [key m] at h2
    split_ifs at h1 h2 <;> omega

/-- C16 at a concrete input: on a desktop viewport frame 30 recomputes the
connections and frame 29 does not. -/
theorem connection_recompute_schedule_witness :
    recomputesConnections
        ((animate realMath)^[29] (initScene realMath 1024 1 none (fun _ => 1 / 2))) = true
    ∧ recomputesConnections
        ((animate realMath)^[28] (initScene realMath 1024 1 none (fun _ => 1 / 2))) = false := by
  have k : (if (1024 : ℝ) < 768 then 90 else 30) = 30 := by norm_num
  have h29 := (connection_recompute_schedule realMath 1024 1 none
    (fun _ => (1 / 2 : ℝ)) 29 29).2.2.1
  have h28 := (connection_recompute_schedule realMath 1024 1 none
    (fun _ => (1 / 2 : ℝ)) 28 28).2.2.1
  rw [k] at h29 h28
  refine ⟨h29.mpr (by norm_num), ?_⟩
  rw [← Bool.not_eq_true, h28]
  norm_num

end ScheduleProofs

section ParticleMotion
variable {α : Type} [LinearOrderedField α]

theorem animateParticle_same (M : JSMath α) (time : α) (mouse : Mouse α)
    (velocities : List (Velocity α)) (posArr : List α) (i : Nat)
    (h : i * 3 + 2 < posArr.length) :
    positionAt (animateParticle M time mouse velocities posArr i) i
      = { x := (velocities.getD i Velocity.zero).originalX
            + M.sin (time + (i : α) * 0.01) * 0.3 + mouse.x * 2
          y := (velocities.getD i Velocity.zero).originalY
            + M.cos (time + (i : α) * 0.015) * 0.3 + mouse.y * 2
          z := (velocities.getD i Velocity.zero).originalZ
            + M.sin (time * 0.5 + (i : α) * 0.02) * 0.2 } := by
  have h0 : i * 3 < posArr.length := by omega
  have h1 : i * 3 + 1 < posArr.length := by omega
  simp only [animateParticle, positionAt, rd_set, List.length_set]
  simp [h, h0, h1]

theorem animateParticle_other (M : JSMath α) (time : α) (mouse : Mouse α)
    (velocities : List (Velocity α)) (posArr : List α) (i j : Nat) (h : i ≠ j) :
    positionAt (animateParticle M time mouse velocities posArr j) i = positionAt posArr i := by
  simp only [animateParticle, positionAt, rd_set, List.length_set]
  have a1 : ¬ (j * 3 = i * 3) := by omega
  have a2 : ¬ (j * 3 + 1 = i * 3) := by omega
  have a3 : ¬ (j * 3 + 2 = i * 3) := by omega
  have a4 : ¬ (j * 3 = i * 3 + 1) := by omega
  have a5 : ¬ (j * 3 + 1 = i * 3 + 1) := by omega
  have a6 : ¬ (j * 3 + 2 = i * 3 + 1) := by omega
  have a7 : ¬ (j * 3 = i * 3 + 2) := by omega
  have a8 : ¬ (j * 3 + 1 = i * 3 + 2) := by omega
  have a9 : ¬ (j * 3 + 2 = i * 3 + 2) := by omega
  simp only [a1, a2, a3, a4, a5, a6, a7, a8, a9, false_and, if_false]
theorem foldl_animateParticle_positionAt (M : JSMath α) (time : α) (mouse : Mouse α)
    (velocities : List (Velocity α)) (posArr : List α) : ∀ n : Nat,
    (∀ i < n, i * 3 + 2 < posArr.length →
      positionAt ((List.range n).foldl (animateParticle M time mouse velocities) posArr) i
        = { x := (velocities.getD i Velocity.zero).originalX
              + M.sin (time + (i : α) * 0.01) * 0.3 + mouse.x * 2
            y := (velocities.getD i Velocity.zero).originalY
              + M.cos (time + (i : α) * 0.015) * 0.3 + mouse.y * 2
            z := (velocities.getD i Velocity.zero).originalZ
              + M.sin (time * 0.5 + (i : α) * 0.02) * 0.2 })
    ∧ (∀ i, n ≤ i →
      positionAt ((List.range n).foldl (animateParticle M time mouse velocities) posArr) i
        = positionAt posArr i) := by
  intro n
  induction n with
  | zero => simp
  | succ n ih =>
    obtain ⟨hlt, hge⟩ := ih
    rw [List.range_succ, List.foldl_append]
    simp only [List.foldl_cons, List.foldl_nil]
    have hlen := foldl_animateParticle_length M time mouse velocities (List.range n) posArr
    refine ⟨?_, ?_⟩
    · intro i hi hb
      by_cases hin : i = n
      · subst hin
        exact animateParticle_same M time mouse velocities _ i (by rw [hlen]; exact hb)
      · rw [animateParticle_other M time mouse velocities _ i n hin]
        exact hlt i (by omega) hb
    · intro i hi
      rw [animateParticle_other M time mouse velocities _ i n (by omega)]
      exact hge i (by omega)

theorem animate_positions (M : JSMath α) (s : Scene α) :
    (animate M s).positions
      = (List.range s.PARTICLE_COUNT).foldl
          (animateParticle M (s.time + 0.01) (smoothMouse M.fl s.mouse) s.velocities) s.positions
    ∧ (animate M s).time = s.time + 0.01
    ∧ (animate M s).mouse = smoothMouse M.fl s.mouse := by
  have hc := animate_clock M s
  simp only [Scene.clockView, Prod.mk.injEq] at hc
  refine ⟨?_, hc.2.1, (animate_views M s).2.2.2.2⟩
  have hb : (animateBody M s).positions
      = (List.range s.PARTICLE_COUNT).foldl
          (animateParticle M (s.time + 0.01) (smoothMouse M.fl s.mouse) s.velocities)
          s.positions := by
    unfold animateBody
    dsimp only
    exact (foldl_animateGeometry_views _ _ _ _ _).2.2.2.1.trans rfl
  rw [animate_eq]
  split_ifs
  · rw [(updateConnections_views M _).2.2.2.1, hb]
  · exact hb

/-- The position a frame writes for particle `i`, in the frame's own time and
smoothed pointer and the particle's anchor. -/
theorem animate_positionAt (M : JSMath α) (s : Scene α) (i : Nat) (hwf : s.WellFormed)
    (hi : i < s.PARTICLE_COUNT) :
    positionAt (animate M s).positions i
      = { x := (s.velocities.getD i Velocity.zero).originalX
            + 0.3 * M.sin ((animate M s).time + 0.01 * (i : α)) + 2 * (animate M s).mouse.x
          y := (s.velocities.getD i Velocity.zero).originalY
            + 0.3 * M.cos ((animate M s).time + 0.015 * (i : α)) + 2 * (animate M s).mouse.y
          z := (s.velocities.getD i Velocity.zero).originalZ
            + 0.2 * M.sin (0.5 * (animate M s).time + 0.02 * (i : α)) } := by
  obtain ⟨hp, ht, hm⟩ := animate_positions M s
  rw [hp, ht, hm]
  rw [(foldl_animateParticle_positionAt M (s.time + 0.01) (smoothMouse M.fl s.mouse) s.velocities
    s.positions s.PARTICLE_COUNT).1 i hi (by rw [hwf.1]; omega)]
  simp only [mul_comm]

end ParticleMotion

section ParticleMotionReal

/-- C13: over the reals, for a scene with well-sized buffers and a particle
index below the particle count, the position a frame writes is
`anchor + (0.3 sin(t + 0.01 i) + 2 mx, 0.3 cos(t + 0.015 i) + 2 my,
0.2 sin(0.5 t + 0.02 i))` in the frame's time `t` and smoothed pointer
`(mx, my)`; each coordinate is within 0.3, 0.3 and 0.2 of the anchor plus the
pointer offset `(2 mx, 2 my, 0)`; and a second scene with the same time,
pointer and anchor, whatever its positions and stored velocities, gets the
same position. -/
theorem particle_frame_position (s s2 : Scene ℝ) (i : Nat) (hwf : s.WellFormed)
    (hi : i < s.PARTICLE_COUNT) :
    (positionAt (animate realMath s).positions i).x
      = (s.velocities.getD i Velocity.zero).originalX
        + 0.3 * Real.sin ((animate realMath s).time + 0.01 * (i : ℝ))
        + 2 * (animate realMath s).mouse.x
    ∧ (positionAt (animate realMath s).positions i).y
      = (s.velocities.getD i Velocity.zero).originalY
        + 0.3 * Real.cos ((animate realMath s).time + 0.015 * (i : ℝ))
        + 2 * (animate realMath s).mouse.y
    ∧ (positionAt (animate realMath s).positions i).z
      = (s.velocities.getD i Velocity.zero).originalZ
        + 0.2 * Real.sin (0.5 * (animate realMath s).time + 0.02 * (i : ℝ))
    ∧ |(positionAt (animate realMath s).positions i).x
        - ((s.velocities.getD i Velocity.zero).originalX
            + 2 * (animate realMath s).mouse.x)| ≤ 0.3
    ∧ |(positionAt (animate realMath s).positions i).y
        - ((s.velocities.getD i Velocity.zero).originalY
            + 2 * (animate realMath s).mouse.y)| ≤ 0.3
    ∧ |(positionAt (animate realMath s).positions i).z
        - (s.velocities.getD i Velocity.zero).originalZ| ≤ 0.2
    ∧ (s2.WellFormed → i < s2.PARTICLE_COUNT → s2.time = s.time → s2.mouse = s.mouse →
        (s2.velocities.getD i Velocity.zero).originalX
          = (s.velocities.getD i Velocity.zero).originalX →
        (s2.velocities.getD i Velocity.zero).originalY
          = (s.velocities.getD i Velocity.zero).originalY →
        (s2.velocities.getD i Velocity.zero).originalZ
          = (s.velocities.getD i Velocity.zero).originalZ →
        positionAt (animate realMath s2).positions i
          = positionAt (animate realMath s).positions i) := by
  have hP := animate_positionAt realMath s i hwf hi
  have hx : (positionAt (animate realMath s).positions i).x
      = (s.velocities.getD i Velocity.zero).originalX
        + 0.3 * Real.sin ((animate realMath s).time + 0.01 * (i : ℝ))
        + 2 * (animate realMath s).mouse.x := by rw [hP]; rfl
  have hy : (positionAt (animate realMath s).positions i).y
      = (s.velocities.getD i Velocity.zero).originalY
        + 0.3 * Real.cos ((animate realMath s).time + 0.015 * (i : ℝ))
        + 2 * (animate realMath s).mouse.y := by rw [hP]; rfl
  have hz : (positionAt (animate realMath s).positions i).z
      = (s.velocities.getD i Velocity.zero).originalZ
        + 0.2 * Real.sin (0.5 * (animate realMath s).time + 0.02 * (i : ℝ)) := by
    rw [hP]; rfl
  have bound : ∀ (c v : ℝ), 0 ≤ c → |v| ≤ 1 → |c * v| ≤ c := by
    intro c v hc hv
    rw [abs_mul, abs_of_nonneg hc]
    calc c * |v| ≤ c * 1 := mul_le_mul_of_nonneg_left hv hc
      _ = c := mul_one c
  refine ⟨hx, hy, hz, ?_, ?_, ?_, ?_⟩
  · rw [hx]
    have e : ∀ a b c : ℝ, a + b + c - (a + c) = b := by intro a b c; ring
    rw [e]
    exact bound 0.3 _ (by norm_num) (Real.abs_sin_le_one _)
  · rw [hy]
    have e : ∀ a b c : ℝ, a + b + c - (a + c) = b := by intro a b c; ring
    rw [e]
    exact bound 0.3 _ (by norm_num) (Real.abs_cos_le_one _)
  · rw [hz]
    have e : ∀ a b : ℝ, a + b - a = b := by intro a b; ring
    rw [e]
    exact bound 0.2 _ (by norm_num) (Real.abs_sin_le_one _)
  · intro hwf2 hi2 ht hm ax ay az
    rw [hP, animate_positionAt realMath s2 i hwf2 hi2]
    obtain ⟨_, t1, m1⟩ := animate_positions realMath s
    obtain ⟨_, t2, m2⟩ := animate_positions realMath s2
    rw [t1, t2, m1, m2, ht, hm, ax, ay, az]

/-- C13 at a concrete input: the desktop scene as built, every draw equal to
1/2, the first particle, first frame. -/
theorem particle_frame_position_witness :
    (initScene realMath 1024 1 none (fun _ => 1 / 2)).WellFormed
    ∧ 0 < (initScene realMath 1024 1 none (fun _ => 1 / 2)).PARTICLE_COUNT
    ∧ |(positionAt (animate realMath
          (initScene realMath 1024 1 none (fun _ => 1 / 2))).positions 0).z
        - ((initScene realMath 1024 1 none (fun _ => 1 / 2)).velocities.getD 0
            Velocity.zero).originalZ| ≤ 0.2 := by
  have hwf := initScene_wellFormed realMath 1024 1 none (fun _ => (1 / 2 : ℝ))
  have hpos : 0 < (initScene realMath 1024 1 none (fun _ => (1 / 2 : ℝ))).PARTICLE_COUNT := by
    have h := (initScene_tierView realMath 1024 1 none (fun _ => (1 / 2 : ℝ))).1
    simp only [Scene.tierView, Prod.mk.injEq] at h
    rw [h.2.2.1]
    norm_num [PARTICLE_COUNT, isSmallMobile, isMobileDevice]
  exact ⟨hwf, hpos,
    (particle_frame_position (initScene realMath 1024 1 none (fun _ => 1 / 2))
      (initScene realMath 1024 1 none (fun _ => 1 / 2)) 0 hwf hpos).2.2.2.2.2.1⟩

end ParticleMotionReal

section SolidMotion
variable {α : Type} [LinearOrderedField α]

theorem animateGeometry_eq (M : JSMath α) (time : α) (mouse : Mouse α) (s : Scene α)
    (g : FloatingGeometry α) :
    animateGeometry M time mouse s g = s.modifyMesh g.mesh (floatMesh M time mouse g) := rfl

omit [LinearOrderedField α] in
theorem mesh_modifyMesh (s : Scene α) (id id2 : MeshId) (f : Mesh α → Mesh α) :
    (s.modifyMesh id f).mesh id2 = if id = id2 then (s.mesh id2).map f else s.mesh id2 := by
  cases id <;> cases id2 <;> simp [Scene.modifyMesh, Scene.mesh]

omit [LinearOrderedField α] in
theorem geometries_modifyMesh (s : Scene α) (id : MeshId) (f : Mesh α → Mesh α) :
    (s.modifyMesh id f).geometries = s.geometries := by
  cases id <;> rfl

theorem foldl_animateGeometry_mesh (M : JSMath α) (time : α) (mouse : Mouse α)
    (gs : List (FloatingGeometry α)) : ∀ s : Scene α, (gs.map fun g => g.mesh).Nodup →
    (∀ g ∈ gs, (gs.foldl (animateGeometry M time mouse) s).mesh g.mesh
        = (s.mesh g.mesh).map (floatMesh M time mouse g))
    ∧ (∀ id, id ∉ (gs.map fun g => g.mesh) →
        (gs.foldl (animateGeometry M time mouse) s).mesh id = s.mesh id) := by
  induction gs with
  | nil =>
    intro s _
    simp
  | cons g0 gs ih =>
    intro s hnd
    rw [List.map_cons, List.nodup_cons] at hnd
    obtain ⟨h0, hrest⟩ := hnd
    obtain ⟨i1, i2⟩ := ih (animateGeometry M time mouse s g0) hrest
    simp only [List.foldl_cons]
    refine ⟨?_, ?_⟩
    · intro g hg
      rw [List.mem_cons] at hg
      rcases hg with rfl | hg
      · rw [i2 _ h0, animateGeometry_eq, mesh_modifyMesh, if_pos rfl]
      · rw [i1 g hg, animateGeometry_eq, mesh_modifyMesh]
        have hne : g0.mesh ≠ g.mesh := by
          intro e
          exact h0 (e ▸ List.mem_map_of_mem (fun g => g.mesh) hg)
        rw [if_neg hne]
    · intro id hid
      rw [List.map_cons, List.mem_cons, not_or] at hid
      rw [i2 id hid.2, animateGeometry_eq, mesh_modifyMesh, if_neg (Ne.symm hid.1)]

theorem updateConnections_mesh (M : JSMath α) (s : Scene α) (id : MeshId) :
    (updateConnections M s).mesh id = s.mesh id := by
  unfold updateConnections
  dsimp only
  split_ifs <;> cases id <;> rfl

/-- The mesh of a `geometries` entry after one frame. -/
theorem animate_mesh (M : JSMath α) (s : Scene α) (hok : s.SolidsOk)
    (g : FloatingGeometry α) (hg : g ∈ s.geometries) :
    (animate M s).mesh g.mesh
      = (s.mesh g.mesh).map (floatMesh M (animate M s).time (animate M s).mouse g) := by
  obtain ⟨_, ht, hm⟩ := animate_positions M s
  rw [ht, hm]
  have hb : (animateBody M s).mesh g.mesh
      = (s.mesh g.mesh).map (floatMesh M (s.time + 0.01) (smoothMouse M.fl s.mouse) g) := by
    unfold animateBody
    dsimp only
    rw [(foldl_animateGeometry_mesh M _ _ s.geometries _ hok.1).1 g hg]
    cases g.mesh <;> rfl
  rw [animate_eq]
  split_ifs
  · rw [updateConnections_mesh, hb]
  · exact hb

theorem animate_solidsOk (M : JSMath α) (s : Scene α) (hok : s.SolidsOk) :
    (animate M s).SolidsOk := by
  have ht := (animate_views M s).1
  simp only [Scene.tierView, Prod.mk.injEq] at ht
  obtain ⟨_, _, _, _, _, hgeo, _, _, _⟩ := ht
  refine ⟨by rw [hgeo]; exact hok.1, ?_⟩
  intro g hg
  rw [hgeo] at hg
  rw [animate_mesh M s hok g hg, Option.isSome_map']
  exact hok.2 g hg

omit [LinearOrderedField α] in
theorem setPointerTarget_solidsOk (t : α × α) (s : Scene α) (hok : s.SolidsOk) :
    (setPointerTarget t s).SolidsOk := by
  refine ⟨hok.1, ?_⟩
  intro g hg
  have := hok.2 g hg
  cases hm : g.mesh <;> simp only [hm, Scene.mesh, setPointerTarget] at this ⊢ <;> exact this

theorem initScene_solidsOk (M : JSMath α) (innerWidth devicePixelRatio : α)
    (dataTheme : Option String) (rand : Nat → α) :
    (initScene M innerWidth devicePixelRatio dataTheme rand).SolidsOk
    ∧ (initScene M innerWidth devicePixelRatio dataTheme rand).geometries
      = (buildScene M innerWidth devicePixelRatio dataTheme rand).geometries
    ∧ ∀ g ∈ (initScene M innerWidth devicePixelRatio dataTheme rand).geometries,
        0 < g.floatAmplitude := by
  have ht := (updateConnections_views M
    (buildScene M innerWidth devicePixelRatio dataTheme rand)).1
  simp only [Scene.tierView, Prod.mk.injEq] at ht
  obtain ⟨_, _, _, _, _, hgeo, hknot, _, _⟩ := ht
  have hgeo2 : (initScene M innerWidth devicePixelRatio dataTheme rand).geometries
      = (buildScene M innerWidth devicePixelRatio dataTheme rand).geometries := hgeo
  have hknot2 : (initScene M innerWidth devicePixelRatio dataTheme rand).torusKnot.isSome
      = (buildScene M innerWidth devicePixelRatio dataTheme rand).torusKnot.isSome := hknot
  refine ⟨⟨?_, ?_⟩, hgeo2, ?_⟩
  · rw [hgeo2]
    simp only [buildScene]
    cases isSmallMobile innerWidth <;> simp
  · intro g hg
    rw [hgeo2] at hg
    cases hm : g.mesh
    case torusKnot =>
      simp only [Scene.mesh, hknot2]
      simp only [buildScene] at hg ⊢
      cases hs : isSmallMobile innerWidth
      · simp
      · simp only [hs] at hg
        simp at hg
        rcases hg with rfl | rfl | rfl | rfl <;> simp at hm
    all_goals rfl
  · intro g hg
    rw [hgeo2] at hg
    simp only [buildScene] at hg
    cases hs : isSmallMobile innerWidth <;> simp only [hs] at hg <;> simp at hg
    · rcases hg with rfl | rfl | rfl | rfl | rfl <;> norm_num
    · rcases hg with rfl | rfl | rfl | rfl <;> norm_num

omit [LinearOrderedField α] in
theorem setPointerTarget_mesh (t : α × α) (s : Scene α) (id : MeshId) :
    (setPointerTarget t s).mesh id = s.mesh id
    ∧ (setPointerTarget t s).geometries = s.geometries := by
  cases id <;> exact ⟨rfl, rfl⟩

theorem animate_geometries (M : JSMath α) (s : Scene α) :
    (animate M s).geometries = s.geometries := by
  have ht := (animate_views M s).1
  simp only [Scene.tierView, Prod.mk.injEq] at ht
  exact ht.2.2.2.2.2.1

/-- The horizontal position of a solid after a run of frames. -/
theorem runFrames_position_x (M : JSMath α) (g : FloatingGeometry α) :
    ∀ (targets : List (α × α)) (s : Scene α) (m : Mesh α), s.SolidsOk → g ∈ s.geometries →
      s.mesh g.mesh = some m →
      ((runFrames M targets s).mesh g.mesh).map (fun r => r.position.x)
        = some (m.position.x + 0.02 * (smoothedXs M targets s).sum) := by
  intro targets
  induction targets with
  | nil =>
    intro s m _ _ hm
    simp [runFrames, smoothedXs, hm]
  | cons t ts ih =>
    intro s m hok hg hm
    have hok1 := setPointerTarget_solidsOk t s hok
    have hok2 := animate_solidsOk M _ hok1
    have hg1 : g ∈ (setPointerTarget t s).geometries := by
      rw [(setPointerTarget_mesh t s g.mesh).2]
      exact hg
    have hg2 : g ∈ (animate M (setPointerTarget t s)).geometries := by
      rw [animate_geometries]
      exact hg1
    have hm2 : (animate M (setPointerTarget t s)).mesh g.mesh
        = some (floatMesh M (animate M (setPointerTarget t s)).time
            (animate M (setPointerTarget t s)).mouse g m) := by
      rw [animate_mesh M _ hok1 g hg1, (setPointerTarget_mesh t s g.mesh).1, hm]
      rfl
    have := ih (animate M (setPointerTarget t s)) _ hok2 hg2 hm2
    simp only [runFrames, List.foldl_cons, smoothedXs, List.sum_cons] at this ⊢
    rw [this]
    simp only [floatMesh, Option.some.injEq]
    ring

end SolidMotion

section SolidMotionReal

/-- C14: over the reals, for a scene whose `geometries` entries refer to
distinct meshes, one frame turns the mesh `m` of an entry `g` into the mesh
with each rotation axis increased by `g.rotSpeed`, vertical position
`originalY + sin(time * floatSpeed * 100) * floatAmplitude + 0.02 * my` (within
`floatAmplitude + 0.02 * |my|` of `originalY`), horizontal position the
previous one plus `0.02 * mx`, and depth unchanged, `time` and `(mx, my)` being
the frame's time and smoothed pointer; after a run of frames the horizontal
position is the initial one plus 0.02 times the sum of the smoothed pointer x
of those frames. -/
theorem floating_solid_motion (s : Scene ℝ) (g : FloatingGeometry ℝ) (m : Mesh ℝ)
    (targets : List (ℝ × ℝ)) (hok : s.SolidsOk) (hg : g ∈ s.geometries)
    (hm : s.mesh g.mesh = some m) :
    (animate realMath s).mesh g.mesh
      = some { m with
          rotation :=
            { x := m.rotation.x + g.rotSpeed.x
              y := m.rotation.y + g.rotSpeed.y
              z := m.rotation.z + g.rotSpeed.z }
          position :=
            { x := m.position.x + 0.02 * (animate realMath s).mouse.x
              y := g.originalY
                + Real.sin ((animate realMath s).time * g.floatSpeed * 100) * g.floatAmplitude
                + 0.02 * (animate realMath s).mouse.y
              z := m.position.z } }
    ∧ (0 ≤ g.floatAmplitude →
        |g.originalY
            + Real.sin ((animate realMath s).time * g.floatSpeed * 100) * g.floatAmplitude
            + 0.02 * (animate realMath s).mouse.y - g.originalY|
          ≤ g.floatAmplitude + 0.02 * |(animate realMath s).mouse.y|)
    ∧ ((runFrames realMath targets s).mesh g.mesh).map (fun r => r.position.x)
        = some (m.position.x + 0.02 * (smoothedXs realMath targets s).sum)
    ∧ (smoothedXs realMath targets s).length = targets.length
    ∧ setPointerTarget (s.mouse.targetX, s.mouse.targetY) s = s := by
  refine ⟨?_, ?_, runFrames_position_x realMath g targets s m hok hg hm, ?_, rfl⟩
  · rw [animate_mesh realMath s hok g hg, hm]
    simp only [Option.map_some', floatMesh, realMath, Option.some.injEq, mul_comm]
  · intro ha
    have e : ∀ a b c : ℝ, a + b + c - a = b + c := by intro a b c; ring
    rw [e]
    calc |Real.sin ((animate realMath s).time * g.floatSpeed * 100) * g.floatAmplitude
            + 0.02 * (animate realMath s).mouse.y|
        ≤ |Real.sin ((animate realMath s).time * g.floatSpeed * 100) * g.floatAmplitude|
            + |0.02 * (animate realMath s).mouse.y| := abs_add _ _
      _ = |Real.sin ((animate realMath s).time * g.floatSpeed * 100)| * g.floatAmplitude
            + 0.02 * |(animate realMath s).mouse.y| := by
          rw [abs_mul, abs_mul, abs_of_nonneg ha, abs_of_pos (by norm_num : (0 : ℝ) < 0.02)]
      _ ≤ 1 * g.floatAmplitude + 0.02 * |(animate realMath s).mouse.y| := by
          have := mul_le_mul_of_nonneg_right
            (Real.abs_sin_le_one ((animate realMath s).time * g.floatSpeed * 100)) ha
          linarith
      _ = g.floatAmplitude + 0.02 * |(animate realMath s).mouse.y| := by rw [one_mul]
  · clear hm hg hok
    induction targets generalizing s with
    | nil => rfl
    | cons t ts ih => simp only [smoothedXs, List.length_cons, ih]

/-- C14 at a concrete input: the icosahedron of the desktop scene as built,
over two frames with the pointer target moved to the corner (1, 1). -/
theorem floating_solid_motion_witness :
    (initScene realMath 1024 1 none (fun _ => 1 / 2)).SolidsOk
    ∧ ({ mesh := MeshId.icosahedron, rotSpeed := { x := 0.003, y := 0.005, z := 0.002 },
          floatSpeed := 0.0008, floatAmplitude := 2, originalY := 5 } : FloatingGeometry ℝ)
        ∈ (initScene realMath 1024 1 none (fun _ => 1 / 2)).geometries
    ∧ ((runFrames realMath [(1, 1), (1, 1)]
          (initScene realMath 1024 1 none (fun _ => 1 / 2))).mesh MeshId.icosahedron).map
          (fun r => r.position.x)
        = some ((initScene realMath 1024 1 none (fun _ => 1 / 2)).icosahedron.position.x
            + 0.02 * (smoothedXs realMath [(1, 1), (1, 1)]
                (initScene realMath 1024 1 none (fun _ => 1 / 2))).sum) := by
  obtain ⟨hok, hgeo, _⟩ := initScene_solidsOk realMath 1024 1 none (fun _ => (1 / 2 : ℝ))
  have hg : (⟨MeshId.icosahedron, ⟨0.003, 0.005, 0.002⟩, 0.0008, 2, 5⟩ : FloatingGeometry ℝ)
      ∈ (initScene realMath 1024 1 none (fun _ => 1 / 2)).geometries := by
    rw [hgeo]
    simp [buildScene]
  exact ⟨hok, hg,
    (floating_solid_motion (initScene realMath 1024 1 none (fun _ => 1 / 2))
      ⟨MeshId.icosahedron, ⟨0.003, 0.005, 0.002⟩, 0.0008, 2, 5⟩
      (initScene realMath 1024 1 none (fun _ => 1 / 2)).icosahedron
      [(1, 1), (1, 1)] hok hg rfl).2.2.1⟩

end SolidMotionReal

section SmoothingProofs

/-- After `n` held-target steps the distance is within `5 / 2 ^ 50` of
`0.95 ^ n` times the initial distance. -/
theorem smoothStep_iterate_dist (v t : ℚ) (hv : round64 v = v) (ht : round64 t = t)
    (hv1 : |v| ≤ 1) (ht1 : |t| ≤ 1) (n : Nat) :
    abs (|t - (fun u => smoothStep round64 u t)^[n] v| - 0.95 ^ n * |t - v|)
      ≤ 5 / 2 ^ 50 * (1 - 0.95 ^ n) := by
  induction n with
  | zero => simp
  | succ n ih =>
    have r := smoothStep_iterate_range v t hv ht hv1 ht1 n
    have e := smoothStep_dist_error ((fun u => smoothStep round64 u t)^[n] v) t r.2 ht1
    rw [Function.iterate_succ_apply', pow_succ]
    rw [abs_le] at ih e ⊢
    norm_num at ih e ⊢
    constructor <;> linarith [ih.1, ih.2, e.1, e.2]

theorem smoothStep_iterate_dist_bound (v t : ℚ) (hv : round64 v = v) (ht : round64 t = t)
    (hv1 : |v| ≤ 1) (ht1 : |t| ≤ 1) (n : Nat) :
    abs (|t - (fun u => smoothStep round64 u t)^[n] v| - 0.95 ^ n * |t - v|) ≤ 5 / 2 ^ 50 := by
  refine (smoothStep_iterate_dist v t hv ht hv1 ht1 n).trans ?_
  have h : (0 : ℚ) ≤ 0.95 ^ n := by positivity
  have h2 : (0 : ℚ) ≤ 5 / 2 ^ 50 := by norm_num
  nlinarith

/-- C18, as stated, fails.  From the binary64 value of `0.3` with target 1 the
binary64 update of line 383 yields `377176468792279 / 2 ^ 50`, which is not
`s + 0.05 * (t - s)`, and the new distance to the target,
`748723438050345 / 2 ^ 50`, is not 0.95 times the old one. -/
theorem pointer_smoothing_ratio_counterexample :
    round64 (0.3 : ℚ) = 5404319552844595 / 2 ^ 54
    ∧ (smoothMouse round64
        { x := 5404319552844595 / 2 ^ 54, y := 0, targetX := 1, targetY := 0 }).x
      = 377176468792279 / 2 ^ 50
    ∧ (377176468792279 / 2 ^ 50 : ℚ) ≠ smoothAxis (5404319552844595 / 2 ^ 54) 1
    ∧ |(1 : ℚ) - 377176468792279 / 2 ^ 50| = 748723438050345 / 2 ^ 50
    ∧ |(1 : ℚ) - 377176468792279 / 2 ^ 50| ≠ 0.95 * |(1 : ℚ) - 5404319552844595 / 2 ^ 54| := by
  refine ⟨round64_three_tenths, smoothStep_three_tenths, ?_, ?_, ?_⟩
  · unfold smoothAxis
    norm_num
  · rw [abs_of_nonneg (by norm_num)]
    norm_num
  · rw [abs_of_nonneg (by norm_num), abs_of_nonneg (by norm_num)]
    norm_num

/-- C18, amended: with a binary64 host and a pointer state of binary64 values
in `[-1, 1]`, a frame keeps the target `t` and replaces each smoothed
coordinate `s` by the rounded value
`fl (s + fl (fl (t - s) * fl 0.05))`, where `fl 0.05` is
`3602879701896397 / 2 ^ 56`; the new value is within `1 / 2 ^ 52` of
`s + 0.05 * (t - s)`, lies between `s` and `t`, the new pointer state is again
in that range, the new distance to `t` is within `1 / 2 ^ 52` of 0.95 times the
old one, and after `n` frames without pointer events the distance is within
`5 / 2 ^ 50` of `0.95 ^ n` times the initial one. -/
theorem pointer_smoothing_rounded_contraction (M : JSMath ℚ) (s : Scene ℚ) (n : Nat)
    (hM : M.fl = round64) (hs : s.mouse.Normalized64) :
    (animate M s).mouse
      = { x := round64 (s.mouse.x
              + round64 (round64 (s.mouse.targetX - s.mouse.x) * round64 0.05))
          y := round64 (s.mouse.y
              + round64 (round64 (s.mouse.targetY - s.mouse.y) * round64 0.05))
          targetX := s.mouse.targetX
          targetY := s.mouse.targetY }
    ∧ round64 (0.05 : ℚ) = 3602879701896397 / 2 ^ 56
    ∧ |(animate M s).mouse.x - smoothAxis s.mouse.x s.mouse.targetX| ≤ 1 / 2 ^ 52
    ∧ |(animate M s).mouse.y - smoothAxis s.mouse.y s.mouse.targetY| ≤ 1 / 2 ^ 52
    ∧ min s.mouse.x s.mouse.targetX ≤ (animate M s).mouse.x
    ∧ (animate M s).mouse.x ≤ max s.mouse.x s.mouse.targetX
    ∧ min s.mouse.y s.mouse.targetY ≤ (animate M s).mouse.y
    ∧ (animate M s).mouse.y ≤ max s.mouse.y s.mouse.targetY
    ∧ (animate M s).mouse.Normalized64
    ∧ abs (|s.mouse.targetX - (animate M s).mouse.x| - 0.95 * |s.mouse.targetX - s.mouse.x|)
        ≤ 1 / 2 ^ 52
    ∧ abs (|s.mouse.targetY - (animate M s).mouse.y| - 0.95 * |s.mouse.targetY - s.mouse.y|)
        ≤ 1 / 2 ^ 52
    ∧ abs (|s.mouse.targetX - ((animate M)^[n] s).mouse.x|
          - 0.95 ^ n * |s.mouse.targetX - s.mouse.x|) ≤ 5 / 2 ^ 50
    ∧ abs (|s.mouse.targetY - ((animate M)^[n] s).mouse.y|
          - 0.95 ^ n * |s.mouse.targetY - s.mouse.y|) ≤ 5 / 2 ^ 50 := by
  have hnext := normalized64_iterate M s 1 hM hs
  obtain ⟨hx, hy, htx, hty, bx, byy, btx, bty⟩ := hs
  have e1 : (animate M s).mouse
      = { x := smoothStep round64 s.mouse.x s.mouse.targetX
          y := smoothStep round64 s.mouse.y s.mouse.targetY
          targetX := s.mouse.targetX
          targetY := s.mouse.targetY } := by
    rw [(animate_views M s).2.2.2.2, hM]
    rfl
  have en := iterate_animate_mouse M s n
  rw [hM] at en
  have bxx := smoothStep_between s.mouse.x s.mouse.targetX hx htx
  have byb := smoothStep_between s.mouse.y s.mouse.targetY hy hty
  refine ⟨e1, round64_literal, ?_, ?_, ?_, ?_, ?_, ?_, hnext, ?_, ?_, ?_, ?_⟩
  · rw [e1]
    exact smoothStep_error _ _ bx btx
  · rw [e1]
    exact smoothStep_error _ _ byy bty
  · rw [e1]
    exact bxx.1
  · rw [e1]
    exact bxx.2
  · rw [e1]
    exact byb.1
  · rw [e1]
    exact byb.2
  · rw [e1]
    exact smoothStep_dist_error _ _ bx btx
  · rw [e1]
    exact smoothStep_dist_error _ _ byy bty
  · rw [en]
    exact smoothStep_iterate_dist_bound _ _ hx htx bx btx n
  · rw [en]
    exact smoothStep_iterate_dist_bound _ _ hy hty byy bty n

/-- C18, amended, at a concrete input: the loaded desktop scene of a binary64
host with the smoothed pointer at the left edge and the target at the right
edge; after one frame the smoothed `x` is still in `[-1, 1]` and within
`1 / 2 ^ 52` of `-9 / 10`. -/
theorem pointer_smoothing_rounded_contraction_witness :
    sampleHost.fl = round64
    ∧ ({ loadScene sampleHost 1024 1 none (fun _ => 1 / 2) with
          mouse := { x := -1, y := 0, targetX := 1, targetY := 0 } } : Scene ℚ).mouse.Normalized64
    ∧ |(animate sampleHost
          { loadScene sampleHost 1024 1 none (fun _ => 1 / 2) with
            mouse := { x := -1, y := 0, targetX := 1, targetY := 0 } }).mouse.x
        - smoothAxis (-1) 1| ≤ 1 / 2 ^ 52
    ∧ smoothAxis (-1 : ℚ) 1 = -9 / 10 := by
  have hone : round64 (1 : ℚ) = 1 := by simpa using round64_intCast 1 (by norm_num)
  have hneg : round64 (-1 : ℚ) = -1 := by rw [round64_neg, hone]
  have hs : ({ loadScene sampleHost 1024 1 none (fun _ => 1 / 2) with
          mouse := { x := -1, y := 0, targetX := 1, targetY := 0 } } : Scene ℚ).mouse.Normalized64 :=
    ⟨hneg, round64_zero, hone, round64_zero, by norm_num, by norm_num, by norm_num,
      by norm_num⟩
  refine ⟨rfl, hs,
    (pointer_smoothing_rounded_contraction sampleHost
      { loadScene sampleHost 1024 1 none (fun _ => 1 / 2) with
        mouse := { x := -1, y := 0, targetX := 1, targetY := 0 } } 1 rfl hs).2.2.1, ?_⟩
  norm_num [smoothAxis]

end SmoothingProofs

section PageProofs
variable {α : Type} [LinearOrderedField α]

omit [LinearOrderedField α] in
theorem toggle_next_cases (current : Option String) :
    (if current = some "dark" then "light" else "dark") = "dark"
    ∨ (if current = some "dark" then "light" else "dark") = "light" := by
  split_ifs
  · exact Or.inr rfl
  · exact Or.inl rfl

theorem themeToggleClick_theme (rand : Nat → α) (p : Page α) :
    (themeToggleClick rand p).dataTheme
      = some (if p.dataTheme = some "dark" then "light" else "dark")
    ∧ (themeToggleClick rand p).storedTheme
      = some (if p.dataTheme = some "dark" then "light" else "dark")
    ∧ (themeToggleClick rand p).themeHook = p.themeHook
    ∧ (themeToggleClick rand p).animationLoop = p.animationLoop
    ∧ (p.themeHook = false → (themeToggleClick rand p).scene = p.scene) := by
  unfold themeToggleClick
  dsimp only
  cases hh : p.themeHook
  · rw [if_neg (by simp)]
    exact ⟨rfl, rfl, rfl, rfl, fun _ => rfl⟩
  · rw [if_pos rfl]
    exact ⟨rfl, rfl, rfl, rfl, fun h2 => absurd h2 (by simp)⟩

/-- C12: when the canvas is missing, or the renderer constructor throws for
want of a graphics context, the scene script leaves the page as it was: on a
fresh page there is no scene closure, no scheduled `animate` and no
`window.updateThreeTheme`; the theme toggle then still sets the attribute and
the stored preference to the other theme and touches nothing else; with canvas
and renderer the script installs all three. -/
theorem scene_unavailable (M : JSMath α) (canvasPresent rendererConstructed : Bool)
    (innerWidth devicePixelRatio : α) (rand rand2 : Nat → α)
    (dataTheme storedTheme : Option String) (p : Page α) :
    (canvasPresent = false ∨ rendererConstructed = false →
      runSceneScript M canvasPresent rendererConstructed innerWidth devicePixelRatio rand p = p)
    ∧ (canvasPresent = false ∨ rendererConstructed = false →
      (runSceneScript M canvasPresent rendererConstructed innerWidth devicePixelRatio rand
          (freshPage dataTheme storedTheme)).scene = none
      ∧ (runSceneScript M canvasPresent rendererConstructed innerWidth devicePixelRatio rand
          (freshPage dataTheme storedTheme)).animationLoop = false
      ∧ (runSceneScript M canvasPresent rendererConstructed innerWidth devicePixelRatio rand
          (freshPage dataTheme storedTheme)).themeHook = false
      ∧ themeToggleClick rand2
          (runSceneScript M canvasPresent rendererConstructed innerWidth devicePixelRatio rand
            (freshPage dataTheme storedTheme))
        = { freshPage dataTheme storedTheme with
            dataTheme := some (if dataTheme = some "dark" then "light" else "dark")
            storedTheme := some (if dataTheme = some "dark" then "light" else "dark") })
    ∧ (p.themeHook = false →
      (themeToggleClick rand2 p).dataTheme
        = some (if p.dataTheme = some "dark" then "light" else "dark")
      ∧ (themeToggleClick rand2 p).storedTheme
        = some (if p.dataTheme = some "dark" then "light" else "dark")
      ∧ (themeToggleClick rand2 p).scene = p.scene
      ∧ (themeToggleClick rand2 p).animationLoop = p.animationLoop
      ∧ (themeToggleClick rand2 p).themeHook = false)
    ∧ (canvasPresent = true → rendererConstructed = true →
      (runSceneScript M canvasPresent rendererConstructed innerWidth devicePixelRatio rand
          p).scene = some (loadScene M innerWidth devicePixelRatio p.dataTheme rand)
      ∧ (runSceneScript M canvasPresent rendererConstructed innerWidth devicePixelRatio rand
          p).animationLoop = true
      ∧ (runSceneScript M canvasPresent rendererConstructed innerWidth devicePixelRatio rand
          p).themeHook = true) := by
  have hfail : ∀ q : Page α, canvasPresent = false ∨ rendererConstructed = false →
      runSceneScript M canvasPresent rendererConstructed innerWidth devicePixelRatio rand q
        = q := by
    intro q h
    unfold runSceneScript
    rcases h with h | h
    · simp [h]
    · cases canvasPresent <;> simp [h]
  refine ⟨hfail p, ?_, ?_, ?_⟩
  · intro h
    rw [hfail _ h]
    refine ⟨rfl, rfl, rfl, ?_⟩
    simp [themeToggleClick, freshPage]
  · intro h
    obtain ⟨t1, t2, t3, t4, t5⟩ := themeToggleClick_theme rand2 p
    exact ⟨t1, t2, t5 h, t4, t3.trans h⟩
  · intro h1 h2
    simp [runSceneScript, h1, h2]

/-- C12 at a concrete input: a page stored as `light`, no canvas. -/
theorem scene_unavailable_witness :
    (false = false ∨ true = false)
    ∧ themeToggleClick (fun _ => (1 / 2 : ℝ))
        (runSceneScript realMath false true 1024 1 (fun _ => 1 / 2)
          (applySavedTheme (freshPage none (some "light"))))
      = { dataTheme := some "dark", storedTheme := some "dark", scene := none,
          animationLoop := false, themeHook := false } := by
  have h := ((scene_unavailable realMath false true 1024 1 (fun _ => (1 / 2 : ℝ))
    (fun _ => (1 / 2 : ℝ)) (some "light") (some "light")
    (freshPage none none)).2.1 (Or.inl rfl)).2.2.2
  refine ⟨Or.inl rfl, ?_⟩
  have e : (applySavedTheme (freshPage none (some "light")) : Page ℝ)
      = freshPage (some "light") (some "light") := by
    simp [applySavedTheme, freshPage]
  rw [e, h]
  simp [freshPage]

/-- C17, as stated, fails: with the value `blue` in storage the attribute at
load is `blue`, neither `dark` nor `light`, and two toggles lead to `dark` and
then `light`, not back to `blue`. -/
theorem theme_not_two_valued_counterexample :
    (applySavedTheme (freshPage none (some "blue") : Page ℚ)).dataTheme = some "blue"
    ∧ ¬ ((applySavedTheme (freshPage none (some "blue") : Page ℚ)).dataTheme = some "dark"
        ∨ (applySavedTheme (freshPage none (some "blue") : Page ℚ)).dataTheme = some "light")
    ∧ (themeToggleClick (fun _ => 0) (themeToggleClick (fun _ => 0)
        (applySavedTheme (freshPage none (some "blue") : Page ℚ)))).dataTheme
      ≠ (applySavedTheme (freshPage none (some "blue") : Page ℚ)).dataTheme := by
  have e : (applySavedTheme (freshPage none (some "blue") : Page ℚ)).dataTheme
      = some "blue" := by
    simp [applySavedTheme, freshPage]
  refine ⟨e, ?_, ?_⟩
  · rw [e]
    decide
  · rw [(themeToggleClick_theme _ _).1, (themeToggleClick_theme _ _).1, e]
    decide

/-- C17, amended: after every toggle click, whatever the page was, the
attribute is `dark` or `light` and the stored preference equals it, also after
a run of one or more clicks; a toggle maps `dark` to `light` and every other
value, `light` included, to `dark`, so two toggles restore a theme that is
`dark` or `light`; at load the attribute is the stored value, `dark` when the
entry is missing or empty, hence `dark` or `light` when the stored value is
missing, empty, `dark` or `light`. -/
theorem theme_two_valued_after_toggle (rand rand2 : Nat → α) (p : Page α)
    (clicks : List (Nat → α)) :
    ((themeToggleClick rand p).dataTheme = some "dark"
      ∨ (themeToggleClick rand p).dataTheme = some "light")
    ∧ (themeToggleClick rand p).storedTheme = (themeToggleClick rand p).dataTheme
    ∧ (p.dataTheme = some "dark" → (themeToggleClick rand p).dataTheme = some "light")
    ∧ (p.dataTheme ≠ some "dark" → (themeToggleClick rand p).dataTheme = some "dark")
    ∧ (p.dataTheme = some "dark" ∨ p.dataTheme = some "light" →
        (themeToggleClick rand2 (themeToggleClick rand p)).dataTheme = p.dataTheme)
    ∧ (((rand :: clicks).foldl (fun q r => themeToggleClick r q) p).dataTheme = some "dark"
      ∨ ((rand :: clicks).foldl (fun q r => themeToggleClick r q) p).dataTheme = some "light")
    ∧ ((rand :: clicks).foldl (fun q r => themeToggleClick r q) p).storedTheme
        = ((rand :: clicks).foldl (fun q r => themeToggleClick r q) p).dataTheme
    ∧ (applySavedTheme p).dataTheme
        = some (match p.storedTheme with
          | some v => if v ≠ "" then v else "dark"
          | none => "dark")
    ∧ (p.storedTheme = none ∨ p.storedTheme = some "" ∨ p.storedTheme = some "dark"
        ∨ p.storedTheme = some "light" →
      (applySavedTheme p).dataTheme = some "dark"
      ∨ (applySavedTheme p).dataTheme = some "light") := by
  have two : ∀ (r : Nat → α) (q : Page α),
      ((themeToggleClick r q).dataTheme = some "dark"
        ∨ (themeToggleClick r q).dataTheme = some "light")
      ∧ (themeToggleClick r q).storedTheme = (themeToggleClick r q).dataTheme := by
    intro r q
    obtain ⟨t1, t2, _⟩ := themeToggleClick_theme r q
    rw [t1, t2]
    refine ⟨?_, rfl⟩
    rcases toggle_next_cases q.dataTheme with h | h
    · exact Or.inl (congrArg some h)
    · exact Or.inr (congrArg some h)
  have run : ∀ (cs : List (Nat → α)) (r : Nat → α) (q : Page α),
      (((r :: cs).foldl (fun q r => themeToggleClick r q) q).dataTheme = some "dark"
        ∨ ((r :: cs).foldl (fun q r => themeToggleClick r q) q).dataTheme = some "light")
      ∧ ((r :: cs).foldl (fun q r => themeToggleClick r q) q).storedTheme
        = ((r :: cs).foldl (fun q r => themeToggleClick r q) q).dataTheme := by
    intro cs
    induction cs with
    | nil =>
      intro r q
      exact two r q
    | cons c cs ih =>
      intro r q
      rw [List.foldl_cons]
      exact ih c (themeToggleClick r q)
  obtain ⟨t1, _, _⟩ := themeToggleClick_theme rand p
  refine ⟨(two rand p).1, (two rand p).2, ?_, ?_, ?_, (run clicks rand p).1,
    (run clicks rand p).2, rfl, ?_⟩
  · intro h
    rw [t1, if_pos h]
  · intro h
    rw [t1, if_neg h]
  · intro h
    rw [(themeToggleClick_theme rand2 _).1, t1]
    rcases h with h | h
    · rw [h]
      decide
    · rw [h]
      decide
  · intro h
    rcases h with h | h | h | h <;> simp [applySavedTheme, h]

/-- C17, amended, at a concrete input: a page stored as `light`. -/
theorem theme_two_valued_after_toggle_witness :
    ((applySavedTheme (freshPage none (some "light") : Page ℝ)).dataTheme = some "dark"
      ∨ (applySavedTheme (freshPage none (some "light") : Page ℝ)).dataTheme = some "light")
    ∧ (themeToggleClick (fun _ => (1 / 2 : ℝ)) (themeToggleClick (fun _ => (1 / 2 : ℝ))
        (applySavedTheme (freshPage none (some "light") : Page ℝ)))).dataTheme
      = (applySavedTheme (freshPage none (some "light") : Page ℝ)).dataTheme := by
  have h : (applySavedTheme (freshPage none (some "light") : Page ℝ)).dataTheme = some "dark"
      ∨ (applySavedTheme (freshPage none (some "light") : Page ℝ)).dataTheme
        = some "light" := by
    right
    simp [applySavedTheme, freshPage]
  exact ⟨h,
    (theme_two_valued_after_toggle (fun _ => (1 / 2 : ℝ)) (fun _ => (1 / 2 : ℝ))
      (applySavedTheme (freshPage none (some "light") : Page ℝ)) []).2.2.2.2.1 h⟩

end PageProofs

section TypewriterProofs

theorem phrases_nonempty : phrases.length = 6 ∧ ∀ q < 6, 0 < phraseLength q := by decide

theorem typewrite_typing (p : Nat) (c : Int) (sp : Nat) (t : List Char)
    (h : c + 1 ≠ (phraseLength p : Int)) :
    typewrite ⟨p, c, false, sp, t⟩
      = ⟨p, c + 1, false, 80, substring0 (phrases.getD p []) (c + 1)⟩ := by
  simp only [phraseLength, List.getD_eq_getElem?_getD] at h
  simp [typewrite, h]

theorem typewrite_typed (p : Nat) (c : Int) (sp : Nat) (t : List Char)
    (h : c + 1 = (phraseLength p : Int)) :
    typewrite ⟨p, c, false, sp, t⟩
      = ⟨p, c + 1, true, 2000, substring0 (phrases.getD p []) (c + 1)⟩ := by
  simp only [phraseLength, List.getD_eq_getElem?_getD] at h
  simp [typewrite, h]

theorem typewrite_deleting (p : Nat) (c : Int) (sp : Nat) (t : List Char)
    (h : c - 1 ≠ 0) :
    typewrite ⟨p, c, true, sp, t⟩
      = ⟨p, c - 1, true, 40, substring0 (phrases.getD p []) (c - 1)⟩ := by
  simp [typewrite, h]

theorem typewrite_deleted (p : Nat) (c : Int) (sp : Nat) (t : List Char)
    (h : c - 1 = 0) :
    typewrite ⟨p, c, true, sp, t⟩
      = ⟨(p + 1) % phrases.length, c - 1, false, 400, substring0 (phrases.getD p []) (c - 1)⟩ := by
  simp [typewrite, h]


theorem typewrite_inv (st : Typewriter) (h : st.Inv) :
    (typewrite st).Inv
    ∧ (typewrite st).textContent
      = (phrases.getD (typewrite st).phraseIndex []).take (typewrite st).charIndex.toNat := by
  obtain ⟨p, c, d, sp, t⟩ := st
  obtain ⟨hp, hf, ht⟩ := h
  obtain ⟨hlen, hne⟩ := phrases_nonempty
  simp only at hp hf ht
  cases d
  · obtain ⟨h0, h1⟩ := hf rfl
    by_cases hc : c + 1 = (phraseLength p : Int)
    · rw [typewrite_typed p c sp t hc]
      refine ⟨⟨hp, ?_, ?_⟩, rfl⟩
      · intro h; cases h
      · intro _
        simp only
        omega
    · rw [typewrite_typing p c sp t hc]
      refine ⟨⟨hp, ?_, ?_⟩, rfl⟩
      · intro _
        simp only
        omega
      · intro h; cases h
  · obtain ⟨h0, h1⟩ := ht rfl
    by_cases hc : c - 1 = 0
    · rw [typewrite_deleted p c sp t hc]
      have hq : (p + 1) % phrases.length < 6 := by
        rw [hlen]
        exact Nat.mod_lt _ (by norm_num)
      refine ⟨⟨by rw [hlen] at hq ⊢; exact hq, ?_, ?_⟩, ?_⟩
      · intro _
        simp only
        have := hne _ hq
        omega
      · intro h; cases h
      · simp only [substring0, hc, Int.toNat_zero, List.take_zero]
    · rw [typewrite_deleting p c sp t hc]
      refine ⟨⟨hp, ?_, ?_⟩, rfl⟩
      · intro h; cases h
      · intro _
        simp only
        omega

theorem typewriterStart_inv (t : List Char) : (typewriterStart t).Inv := by
  have h0 : (0 : Nat) < phrases.length := by decide
  have h1 : (0 : Int) < (phraseLength 0 : Int) := by decide
  refine ⟨h0, ?_, ?_⟩
  · intro _
    exact ⟨le_refl _, h1⟩
  · intro h
    cases h

theorem iterate_typewrite_inv (t : List Char) (n : Nat) :
    (typewrite^[n] (typewriterStart t)).Inv := by
  induction n with
  | zero => exact typewriterStart_inv t
  | succ n ih =>
    rw [Function.iterate_succ_apply']
    exact (typewrite_inv _ ih).1


theorem typing_run (p sp : Nat) (t : List Char) : ∀ k : Nat, k + 1 < phraseLength p →
    typewrite^[k + 1] ⟨p, 0, false, sp, t⟩
      = ⟨p, (k : Int) + 1, false, 80, substring0 (phrases.getD p []) ((k : Int) + 1)⟩ := by
  intro k
  induction k with
  | zero =>
    intro h
    rw [Function.iterate_one, typewrite_typing p 0 sp t (by omega)]
    simp
  | succ k ih =>
    intro h
    rw [Function.iterate_succ_apply', ih (by omega),
      typewrite_typing p ((k : Int) + 1) 80 _ (by omega)]
    simp

theorem typed_full_aux (p sp : Nat) (t : List Char) (m : Nat) (hm : phraseLength p = m + 1) :
    typewrite^[m + 1] ⟨p, 0, false, sp, t⟩
      = ⟨p, (phraseLength p : Int), true, 2000, phrases.getD p []⟩ := by
  have htake : substring0 (phrases.getD p []) (phraseLength p : Int) = phrases.getD p [] := by
    simp [substring0, phraseLength]
  cases m with
  | zero =>
    have e : (0 : Int) + 1 = (phraseLength p : Int) := by omega
    rw [Function.iterate_one, typewrite_typed p 0 sp t e, e, htake]
  | succ k =>
    have e : ((k : Int) + 1) + 1 = (phraseLength p : Int) := by omega
    rw [Function.iterate_succ_apply', typing_run p sp t k (by omega),
      typewrite_typed p ((k : Int) + 1) 80 _ e, e, htake]

theorem typed_full (p sp : Nat) (t : List Char) (hL : 0 < phraseLength p) :
    typewrite^[phraseLength p] ⟨p, 0, false, sp, t⟩
      = ⟨p, (phraseLength p : Int), true, 2000, phrases.getD p []⟩ := by
  obtain ⟨m, hm⟩ : ∃ m, phraseLength p = m + 1 := ⟨phraseLength p - 1, by omega⟩
  have h := typed_full_aux p sp t m hm
  rwa [← hm] at h

theorem deleting_run (p sp : Nat) (t : List Char) : ∀ j : Nat, j + 1 < phraseLength p →
    typewrite^[j + 1] ⟨p, (phraseLength p : Int), true, sp, t⟩
      = ⟨p, (phraseLength p : Int) - ((j : Int) + 1), true, 40,
          substring0 (phrases.getD p []) ((phraseLength p : Int) - ((j : Int) + 1))⟩ := by
  intro j
  induction j with
  | zero =>
    intro h
    rw [Function.iterate_one, typewrite_deleting p _ sp t (by omega)]
    simp
  | succ j ih =>
    intro h
    rw [Function.iterate_succ_apply', ih (by omega),
      typewrite_deleting p _ 40 _ (by omega)]
    have e : (phraseLength p : Int) - ((j : Int) + 1) - 1
        = (phraseLength p : Int) - (((j + 1 : Nat) : Int) + 1) := by omega
    rw [e]

theorem deleted_full_aux (p sp : Nat) (t : List Char) (m : Nat)
    (hm : phraseLength p = m + 1) :
    typewrite^[m + 1] ⟨p, (phraseLength p : Int), true, sp, t⟩
      = ⟨(p + 1) % phrases.length, 0, false, 400, []⟩ := by
  cases m with
  | zero =>
    have e : (phraseLength p : Int) - 1 = 0 := by omega
    rw [Function.iterate_one, typewrite_deleted p _ sp t e, e]
    simp [substring0]
  | succ k =>
    have e : (phraseLength p : Int) - ((k : Int) + 1) - 1 = 0 := by omega
    rw [Function.iterate_succ_apply', deleting_run p sp t k (by omega),
      typewrite_deleted p _ 40 _ e, e]
    simp [substring0]

theorem deleted_full (p sp : Nat) (t : List Char) (hL : 0 < phraseLength p) :
    typewrite^[phraseLength p] ⟨p, (phraseLength p : Int), true, sp, t⟩
      = ⟨(p + 1) % phrases.length, 0, false, 400, []⟩ := by
  obtain ⟨m, hm⟩ : ∃ m, phraseLength p = m + 1 := ⟨phraseLength p - 1, by omega⟩
  have h := deleted_full_aux p sp t m hm
  rwa [← hm] at h

/-- C19: from the start state, after every call of `typewrite` the phrase index
is a valid index into the six phrases, the character index is between 0 and
the length of the current phrase, and the displayed text is the prefix of the
current phrase of that length; from the start of phrase `p` the phrase is typed
one character a call until it is complete, then deleted one character a call
until it is empty, and the index then becomes `(p + 1) % 6`; six such rounds,
276 calls, lead from phrase 0 back to phrase 0. -/
theorem typewriter_cycle (t : List Char) (n p k sp : Nat) :
    phrases.length = 6
    ∧ (typewrite^[n + 1] (typewriterStart t)).phraseIndex < phrases.length
    ∧ 0 ≤ (typewrite^[n + 1] (typewriterStart t)).charIndex
    ∧ (typewrite^[n + 1] (typewriterStart t)).charIndex
        ≤ (phraseLength (typewrite^[n + 1] (typewriterStart t)).phraseIndex : Int)
    ∧ (typewrite^[n + 1] (typewriterStart t)).textContent
        = (phrases.getD (typewrite^[n + 1] (typewriterStart t)).phraseIndex []).take
            (typewrite^[n + 1] (typewriterStart t)).charIndex.toNat
    ∧ ((typewrite^[n + 1] (typewriterStart t)).textContent.length : Int)
        = (typewrite^[n + 1] (typewriterStart t)).charIndex
    ∧ (p < 6 →
        typewrite^[phraseLength p] ⟨p, 0, false, sp, t⟩
          = ⟨p, (phraseLength p : Int), true, 2000, phrases.getD p []⟩
        ∧ typewrite^[phraseLength p + phraseLength p] ⟨p, 0, false, sp, t⟩
          = ⟨(p + 1) % 6, 0, false, 400, []⟩
        ∧ (k + 1 < phraseLength p →
            typewrite^[k + 1] ⟨p, 0, false, sp, t⟩
              = ⟨p, ((k + 1 : Nat) : Int), false, 80, (phrases.getD p []).take (k + 1)⟩
            ∧ typewrite^[phraseLength p + (k + 1)] ⟨p, 0, false, sp, t⟩
              = ⟨p, ((phraseLength p - (k + 1) : Nat) : Int), true, 40,
                  (phrases.getD p []).take (phraseLength p - (k + 1))⟩))
    ∧ typewrite^[276] (typewriterStart t) = ⟨0, 0, false, 400, []⟩ := by
  obtain ⟨hlen, hne⟩ := phrases_nonempty
  have hinv := iterate_typewrite_inv t n
  obtain ⟨⟨i1, i2, i3⟩, htext⟩ := typewrite_inv _ hinv
  have e : typewrite^[n + 1] (typewriterStart t)
      = typewrite (typewrite^[n] (typewriterStart t)) :=
    Function.iterate_succ_apply' typewrite n _
  rw [e]
  generalize typewrite (typewrite^[n] (typewriterStart t)) = st at i1 i2 i3 htext
  have hbound : 0 ≤ st.charIndex ∧ st.charIndex ≤ (phraseLength st.phraseIndex : Int) := by
    cases hd : st.isDeleting
    · obtain ⟨a, b⟩ := i2 hd
      exact ⟨a, le_of_lt b⟩
    · obtain ⟨a, b⟩ := i3 hd
      exact ⟨by omega, b⟩
  have cyc : ∀ (q sq : Nat) (u : List Char), q < 6 →
      typewrite^[phraseLength q + phraseLength q] ⟨q, 0, false, sq, u⟩
        = ⟨(q + 1) % 6, 0, false, 400, []⟩ := by
    intro q sq u hq
    rw [Function.iterate_add_apply, typed_full q sq u (hne q hq),
      deleted_full q 2000 _ (hne q hq), hlen]
  refine ⟨hlen, i1, hbound.1, hbound.2, htext, ?_, ?_, ?_⟩
  · rw [htext, List.length_take]
    have : (phrases.getD st.phraseIndex []).length = phraseLength st.phraseIndex := rfl
    rw [this]
    omega
  · intro hp
    refine ⟨typed_full p sp t (hne p hp), cyc p sp t hp, ?_⟩
    intro hk
    constructor
    · rw [typing_run p sp t k hk]
      simp [substring0]
    · rw [Nat.add_comm, Function.iterate_add_apply, typed_full p sp t (hne p hp),
        deleting_run p 2000 _ k hk]
      have e : (phraseLength p : Int) - ((k : Int) + 1)
          = ((phraseLength p - (k + 1) : Nat) : Int) := by omega
      rw [e]
      simp [substring0]
  · have l0 : phraseLength 0 = 26 := by decide
    have l1 : phraseLength 1 = 26 := by decide
    have l2 : phraseLength 2 = 23 := by decide
    have l3 : phraseLength 3 = 18 := by decide
    have l4 : phraseLength 4 = 23 := by decide
    have l5 : phraseLength 5 = 22 := by decide
    have c0 : typewrite^[52] ⟨0, 0, false, 80, t⟩ = ⟨1, 0, false, 400, []⟩ := by
      have := cyc 0 80 t (by norm_num)
      rw [l0] at this
      exact this
    have c1 : typewrite^[52] ⟨1, 0, false, 400, []⟩ = ⟨2, 0, false, 400, []⟩ := by
      have := cyc 1 400 [] (by norm_num)
      rw [l1] at this
      exact this
    have c2 : typewrite^[46] ⟨2, 0, false, 400, []⟩ = ⟨3, 0, false, 400, []⟩ := by
      have := cyc 2 400 [] (by norm_num)
      rw [l2] at this
      exact this
    have c3 : typewrite^[36] ⟨3, 0, false, 400, []⟩ = ⟨4, 0, false, 400, []⟩ := by
      have := cyc 3 400 [] (by norm_num)
      rw [l3] at this
      exact this
    have c4 : typewrite^[46] ⟨4, 0, false, 400, []⟩ = ⟨5, 0, false, 400, []⟩ := by
      have := cyc 4 400 [] (by norm_num)
      rw [l4] at this
      exact this
    have c5 : typewrite^[44] ⟨5, 0, false, 400, []⟩ = ⟨0, 0, false, 400, []⟩ := by
      have := cyc 5 400 [] (by norm_num)
      rw [l5] at this
      exact this
    have split : (276 : Nat) = 44 + (46 + (36 + (46 + (52 + 52)))) := by norm_num
    rw [split, Function.iterate_add_apply, Function.iterate_add_apply,
      Function.iterate_add_apply, Function.iterate_add_apply, Function.iterate_add_apply]
    rw [show typewriterStart t = ⟨0, 0, false, 80, t⟩ from rfl, c0, c1, c2, c3, c4, c5]

/-- C19 at a concrete input: the first phrase, from the start state with an
empty element, typed and deleted in 26 + 26 calls. -/
theorem typewriter_cycle_witness :
    (0 : Nat) < 6
    ∧ typewrite^[phraseLength 0 + phraseLength 0] ⟨0, 0, false, 80, []⟩
        = ⟨(0 + 1) % 6, 0, false, 400, []⟩ :=
  ⟨by norm_num, ((typewriter_cycle [] 0 0 0 80).2.2.2.2.2.2.1 (by norm_num)).2.1⟩

end TypewriterProofs

end HeroScene
